import Mathlib

/-!
Verification development for the tchannel v2 call-frame codec
(`src/v2/call.js`) and the hyperbahn permissions cache
(`src/hyperbahn/permissions_cache.js`).

Byte buffers are shallowly embedded as `List Nat` (each element a byte
value).  JavaScript strings are embedded as lists of Unicode code points
(`List Nat`).  Fallible operations return `Except Err` (structured
codec) or `Option` (lazy accessors, whose JavaScript originals return
`null` on failure).  Cache-mutating lazy accessors are embedded in
state-passing style over an explicit `Frame` value.
-/

deriving instance DecidableEq for Except

/-- Error kinds surfaced by the structured codec (spec section 7). -/
inductive Err : Type
  | BufferTooShort
  | InvalidTTL
  | LengthOverflow
  | InvalidChecksumType
  | TrailingBytes
deriving DecidableEq, Repr

/-- Reads the byte at `off`, or 0 out of range.  All call sites in the
embedding are guarded by explicit bounds checks mirroring the source. -/
def bufGet (buf : List Nat) (off : Nat) : Nat := buf.getD off 0

/-- Big-endian 16-bit value at `off` (JS `buffer.readUInt16BE`). -/
def bufGet16 (buf : List Nat) (off : Nat) : Nat :=
  bufGet buf off * 256 + bufGet buf (off + 1)

/-- Big-endian 32-bit value at `off` (JS `buffer.readUInt32BE`). -/
def bufGet32 (buf : List Nat) (off : Nat) : Nat :=
  bufGet buf off * 16777216 + bufGet buf (off + 1) * 65536 +
    bufGet buf (off + 2) * 256 + bufGet buf (off + 3)

/-- The sub-list of `buf` from byte `s` (inclusive) to `e` (exclusive);
JS `buffer` range reads. -/
def byteSlice (buf : List Nat) (s e : Nat) : List Nat :=
  (buf.take e).drop s

/-- Modelled from the spec: `bufrw.UInt8.readFrom` (bufrw is a
dependency outside src/).  Fails with `BufferTooShort` on underflow. -/
def readUInt8 (buf : List Nat) (off : Nat) : Except Err (Nat × Nat) :=
  if off + 1 ≤ buf.length then .ok (bufGet buf off, off + 1)
  else .error .BufferTooShort

/-- Modelled from the spec: `bufrw.UInt16BE.readFrom`. -/
def readUInt16BE (buf : List Nat) (off : Nat) : Except Err (Nat × Nat) :=
  if off + 2 ≤ buf.length then .ok (bufGet16 buf off, off + 2)
  else .error .BufferTooShort

/-- Modelled from the spec: `bufrw.UInt32BE.readFrom`. -/
def readUInt32BE (buf : List Nat) (off : Nat) : Except Err (Nat × Nat) :=
  if off + 4 ≤ buf.length then .ok (bufGet32 buf off, off + 4)
  else .error .BufferTooShort

/-- Modelled from the spec: the byte emitted by `bufrw.UInt8.writeInto`. -/
def writeUInt8 (v : Nat) : List Nat := [v % 256]

/-- Modelled from the spec: the bytes emitted by `bufrw.UInt16BE.writeInto`. -/
def writeUInt16BE (v : Nat) : List Nat := [v / 256 % 256, v % 256]

/-- Modelled from the spec: the bytes emitted by `bufrw.UInt32BE.writeInto`. -/
def writeUInt32BE (v : Nat) : List Nat :=
  [v / 16777216 % 256, v / 65536 % 256, v / 256 % 256, v % 256]

/-! ### UTF-8

Node's `buffer.toString('utf8', start, end)` (used by
`fastBufferToString` in src/v2/call.js lines 51-67) performs lossy
WHATWG-style UTF-8 decoding: it never throws, and maps invalid byte
sequences to U+FFFD.  We model the encoder exactly and the decoder with
the simplification that an invalid sequence is replaced by a single
U+FFFD while advancing one byte. On valid UTF-8 input this agrees
byte-for-byte with Node's decoder. -/

/-- UTF-8 encoding of a single code point. -/
def utf8EncodeChar (c : Nat) : List Nat :=
  if c < 128 then [c]
  else if c < 2048 then [192 + c / 64, 128 + c % 64]
  else if c < 65536 then [224 + c / 4096, 128 + c / 64 % 64, 128 + c % 64]
  else [240 + c / 262144, 128 + c / 4096 % 64, 128 + c / 64 % 64, 128 + c % 64]

/-- UTF-8 encoding of a string (list of code points). -/
def utf8Encode (s : List Nat) : List Nat := (s.map utf8EncodeChar).flatten

/-- Lower bound of the first continuation byte of a 3-byte sequence. -/
def cont3lo (b : Nat) : Nat := if b = 224 then 160 else 128

/-- Upper bound of the first continuation byte of a 3-byte sequence;
lead 0xED excludes the surrogate range. -/
def cont3hi (b : Nat) : Nat := if b = 237 then 159 else 191

/-- Lower bound of the first continuation byte of a 4-byte sequence. -/
def cont4lo (b : Nat) : Nat := if b = 240 then 144 else 128

/-- Upper bound of the first continuation byte of a 4-byte sequence;
lead 0xF4 caps code points at U+10FFFF. -/
def cont4hi (b : Nat) : Nat := if b = 244 then 143 else 191

/-- Streaming UTF-8 decoder state: number of continuation bytes still
needed, the partially accumulated code point, and the admissible range
of the next byte. -/
structure Utf8St where
  needed : Nat
  cp : Nat
  lo : Nat
  hi : Nat
deriving DecidableEq, Repr

/-- Initial decoder state. -/
def utf8Init : Utf8St := ⟨0, 0, 128, 191⟩

/-- Classify a byte in the initial state: ASCII, a 2/3/4-byte lead, or
invalid (yields U+FFFD, 65533). -/
def utf8Lead (b : Nat) : List Nat × Utf8St :=
  if b < 128 then ([b], utf8Init)
  else if 194 ≤ b ∧ b ≤ 223 then ([], ⟨1, b - 192, 128, 191⟩)
  else if 224 ≤ b ∧ b ≤ 239 then ([], ⟨2, b - 224, cont3lo b, cont3hi b⟩)
  else if 240 ≤ b ∧ b ≤ 244 then ([], ⟨3, b - 240, cont4lo b, cont4hi b⟩)
  else ([65533], utf8Init)

/-- One step of the streaming decoder: emitted code points and the new
state.  An out-of-range continuation byte emits U+FFFD and reprocesses
the byte as a lead (WHATWG maximal-subpart behaviour). -/
def utf8StepSt (st : Utf8St) (b : Nat) : List Nat × Utf8St :=
  if st.needed = 0 then utf8Lead b
  else if st.lo ≤ b ∧ b ≤ st.hi then
    (if st.needed = 1 then ([st.cp * 64 + (b - 128)], utf8Init)
     else ([], ⟨st.needed - 1, st.cp * 64 + (b - 128), 128, 191⟩))
  else
    (65533 :: (utf8Lead b).1, (utf8Lead b).2)

/-- Run the streaming decoder; a truncated final sequence emits
U+FFFD. -/
def utf8Run : Utf8St → List Nat → List Nat
  | st, [] => if st.needed = 0 then [] else [65533]
  | st, b :: rest => (utf8StepSt st b).1 ++ utf8Run (utf8StepSt st b).2 rest

/-- Modelled from Node `buffer.toString('utf8')`: lossy WHATWG UTF-8
decoding to a list of code points; invalid input yields U+FFFD (65533),
never an error. -/
def utf8DecodeLossy (l : List Nat) : List Nat := utf8Run utf8Init l

/-- A Unicode scalar value: in range and not a surrogate. -/
def ScalarCp (c : Nat) : Prop := c < 1114112 ∧ ¬(55296 ≤ c ∧ c ≤ 57343)

instance (c : Nat) : Decidable (ScalarCp c) := by
  unfold ScalarCp; infer_instance

/-- A well-formed JS string: every code point is a Unicode scalar value. -/
def WfStr (s : List Nat) : Prop := ∀ c ∈ s, ScalarCp c

instance (s : List Nat) : Decidable (WfStr s) := by
  unfold WfStr; infer_instance

example : utf8DecodeLossy [65] = [65] := rfl
example : utf8DecodeLossy [255] = [65533] := rfl
example : utf8Encode [1071] = [208, 175] := rfl
example : utf8DecodeLossy [208, 175] = [1071] := rfl
example : utf8DecodeLossy (utf8Encode [65536]) = [65536] := rfl
example : utf8DecodeLossy (utf8Encode [2048, 55295, 57344]) = [2048, 55295, 57344] := rfl

/-- Encoding a single scalar code point and appending any tail decodes
back to that code point followed by the decoded tail. -/
theorem utf8DecodeLossy_encodeChar (c : Nat) (hc : ScalarCp c) (t : List Nat) :
    utf8DecodeLossy (utf8EncodeChar c ++ t) = c :: utf8DecodeLossy t := by
  obtain ⟨hlt, hsur⟩ := hc
  by_cases h1 : c < 128
  · simp [utf8EncodeChar, h1, utf8DecodeLossy, utf8Run, utf8StepSt, utf8Lead,
      utf8Init]
  · by_cases h2 : c < 2048
    · have e1 : ¬(192 + c / 64 < 128) := by omega
      have e2a : 194 ≤ 192 + c / 64 := by omega
      have e2b : 192 + c / 64 ≤ 223 := by omega
      have e3a : 128 ≤ 128 + c % 64 := by omega
      have e3b : 128 + c % 64 ≤ 191 := by omega
      simp [utf8EncodeChar, h1, h2, utf8DecodeLossy, utf8Run, utf8StepSt,
        utf8Lead, utf8Init, e1, e2a, e2b, e3a, e3b]
      omega
    · by_cases h3 : c < 65536
      · have e1 : ¬(224 + c / 4096 < 128) := by omega
        have e2 : ¬(194 ≤ 224 + c / 4096) ∨ ¬(224 + c / 4096 ≤ 223) := by omega
        have e3a : 224 ≤ 224 + c / 4096 := by omega
        have e3b : 224 + c / 4096 ≤ 239 := by omega
        have e4a : cont3lo (224 + c / 4096) ≤ 128 + c / 64 % 64 := by
          unfold cont3lo; split_ifs <;> omega
        have e4b : 128 + c / 64 % 64 ≤ cont3hi (224 + c / 4096) := by
          unfold cont3hi; split_ifs <;> omega
        have e5a : 128 ≤ 128 + c % 64 := by omega
        have e5b : 128 + c % 64 ≤ 191 := by omega
        have e6 : ¬(194 ≤ 224 + c / 4096 ∧ 224 + c / 4096 ≤ 223) := by omega
        simp [utf8EncodeChar, h1, h2, h3, utf8DecodeLossy, utf8Run, utf8StepSt,
          utf8Lead, utf8Init, e1, e6, e3a, e3b, e4a, e4b, e5a, e5b]
        omega
      · have e1 : ¬(240 + c / 262144 < 128) := by omega
        have e2 : ¬(194 ≤ 240 + c / 262144 ∧ 240 + c / 262144 ≤ 223) := by omega
        have e3 : ¬(224 ≤ 240 + c / 262144 ∧ 240 + c / 262144 ≤ 239) := by omega
        have e4a : 240 ≤ 240 + c / 262144 := by omega
        have e4b : 240 + c / 262144 ≤ 244 := by omega
        have e5a : cont4lo (240 + c / 262144) ≤ 128 + c / 4096 % 64 := by
          unfold cont4lo; split_ifs <;> omega
        have e5b : 128 + c / 4096 % 64 ≤ cont4hi (240 + c / 262144) := by
          unfold cont4hi; split_ifs <;> omega
        have e6a : 128 ≤ 128 + c / 64 % 64 := by omega
        have e6b : 128 + c / 64 % 64 ≤ 191 := by omega
        have e7a : 128 ≤ 128 + c % 64 := by omega
        have e7b : 128 + c % 64 ≤ 191 := by omega
        simp [utf8EncodeChar, h1, h2, h3, utf8DecodeLossy, utf8Run, utf8StepSt,
          utf8Lead, utf8Init, e1, e2, e3, e4a, e4b, e5a, e5b, e6a, e6b, e7a, e7b]
        omega

/-- Encoding of a cons unfolds to an append. -/
theorem utf8Encode_cons (c : Nat) (cs : List Nat) :
    utf8Encode (c :: cs) = utf8EncodeChar c ++ utf8Encode cs := by
  simp [utf8Encode]

/-- Lossy decoding inverts encoding of a well-formed string, leaving any
trailing bytes to be decoded independently. -/
theorem utf8DecodeLossy_encode_append (s : List Nat) (hs : WfStr s) (t : List Nat) :
    utf8DecodeLossy (utf8Encode s ++ t) = s ++ utf8DecodeLossy t := by
  induction s with
  | nil => simp [utf8Encode]
  | cons c cs ih =>
    have hc : ScalarCp c := hs c (by simp)
    have hcs : WfStr cs := fun x hx => hs x (by simp [hx])
    rw [utf8Encode_cons, List.append_assoc, utf8DecodeLossy_encodeChar c hc,
      ih hcs, List.cons_append]

/-- Lossy decoding inverts encoding of a well-formed string. -/
theorem utf8_roundtrip (s : List Nat) (hs : WfStr s) :
    utf8DecodeLossy (utf8Encode s) = s := by
  have h := utf8DecodeLossy_encode_append s hs []
  simpa [utf8DecodeLossy, utf8Run, utf8Init] using h

/-- Every byte emitted by the encoder for a scalar code point is a byte
value. -/
theorem utf8EncodeChar_lt_256 (c : Nat) (hc : ScalarCp c) :
    ∀ b ∈ utf8EncodeChar c, b < 256 := by
  obtain ⟨hlt, hsur⟩ := hc
  unfold utf8EncodeChar
  split_ifs <;> intro b hb <;> simp at hb <;> omega

/-- Every byte of the encoding of a well-formed string is a byte value. -/
theorem utf8Encode_lt_256 (s : List Nat) (hs : WfStr s) :
    ∀ b ∈ utf8Encode s, b < 256 := by
  intro b hb
  simp only [utf8Encode, List.mem_flatten, List.mem_map] at hb
  obtain ⟨l, ⟨c, hcs, rfl⟩, hbl⟩ := hb
  exact utf8EncodeChar_lt_256 c (hs c hcs) b hbl

/-- The encoder never emits an empty byte list for a code point. -/
theorem utf8EncodeChar_ne_nil (c : Nat) : utf8EncodeChar c ≠ [] := by
  unfold utf8EncodeChar
  split_ifs <;> simp

/-- Encoding yields no bytes exactly for the empty string. -/
theorem utf8Encode_eq_nil (s : List Nat) : utf8Encode s = [] ↔ s = [] := by
  cases s with
  | nil => simp [utf8Encode]
  | cons c cs =>
    simp only [utf8Encode_cons, List.append_eq_nil, iff_false, ne_eq]
    constructor
    · rintro ⟨h, _⟩
      exact absurd h (utf8EncodeChar_ne_nil c)
    · intro h
      exact absurd h (by simp)

/-- A decoder run started mid-sequence never returns an empty output. -/
theorem utf8Run_ne_nil_of_needed (l : List Nat) :
    ∀ st : Utf8St, st.needed ≠ 0 → utf8Run st l ≠ [] := by
  induction l with
  | nil =>
    intro st h
    simp [utf8Run, h]
  | cons b rest ih =>
    intro st h
    rw [utf8Run]
    by_cases hr : st.lo ≤ b ∧ b ≤ st.hi
    · by_cases h1 : st.needed = 1
      · simp [utf8StepSt, h, hr, h1]
      · have : ¬((⟨st.needed - 1, st.cp * 64 + (b - 128), 128, 191⟩ : Utf8St).needed = 0) := by
          simp
          omega
        simp only [utf8StepSt, if_neg h, if_pos hr, if_neg h1, List.nil_append]
        exact ih _ this
    · simp [utf8StepSt, h, hr]

/-- Lossy decoding yields no code points exactly for the empty byte
list. -/
theorem utf8DecodeLossy_eq_nil (l : List Nat) : utf8DecodeLossy l = [] ↔ l = [] := by
  cases l with
  | nil => simp [utf8DecodeLossy, utf8Run, utf8Init]
  | cons b rest =>
    have hne : utf8DecodeLossy (b :: rest) ≠ [] := by
      intro h
      rw [utf8DecodeLossy, utf8Run] at h
      have hn : utf8Init.needed = 0 := rfl
      rw [utf8StepSt, if_pos hn] at h
      rw [utf8Lead] at h
      split_ifs at h with hb1 hb2 hb3 hb4
      · simp at h
      · simp only [List.nil_append] at h
        exact utf8Run_ne_nil_of_needed rest _ (by simp) h
      · simp only [List.nil_append] at h
        exact utf8Run_ne_nil_of_needed rest _ (by simp) h
      · simp only [List.nil_append] at h
        exact utf8Run_ne_nil_of_needed rest _ (by simp) h
      · simp at h
    simp [hne]

/-- The first byte the encoder emits for a non-ASCII code point is at
least 128. -/
theorem utf8EncodeChar_head_ge (c : Nat) (h128 : 128 ≤ c) :
    ∃ h tl, utf8EncodeChar c = h :: tl ∧ 128 ≤ h := by
  unfold utf8EncodeChar
  split_ifs
  · omega
  · exact ⟨_, _, rfl, by omega⟩
  · exact ⟨_, _, rfl, by omega⟩
  · exact ⟨_, _, rfl, by omega⟩

/-- For a well-formed string, the encoding equals a two-ASCII-byte list
exactly when the string is those two code points.  Used to relate the
lazy header scan's 16-bit key comparison to string-level keys. -/
theorem utf8Encode_eq_pair (k : List Nat) (a b : Nat)
    (ha : a < 128) (hb : b < 128) :
    utf8Encode k = [a, b] ↔ k = [a, b] := by
  constructor
  · intro h
    rcases k with _ | ⟨c, cs⟩
    · simp [utf8Encode] at h
    · rw [utf8Encode_cons] at h
      by_cases hc : c < 128
      · rw [show utf8EncodeChar c = [c] from by simp [utf8EncodeChar, hc]] at h
        simp only [List.cons_append, List.nil_append, List.cons.injEq] at h
        obtain ⟨rfl, h⟩ := h
        rcases cs with _ | ⟨d, ds⟩
        · simp [utf8Encode] at h
        · rw [utf8Encode_cons] at h
          by_cases hd : d < 128
          · rw [show utf8EncodeChar d = [d] from by simp [utf8EncodeChar, hd]] at h
            simp only [List.cons_append, List.nil_append, List.cons.injEq] at h
            obtain ⟨rfl, h⟩ := h
            rw [utf8Encode_eq_nil] at h
            simp [h]
          · obtain ⟨hh, tl, he, hge⟩ := utf8EncodeChar_head_ge d (by omega)
            rw [he] at h
            simp only [List.cons_append, List.cons.injEq] at h
            omega
      · obtain ⟨hh, tl, he, hge⟩ := utf8EncodeChar_head_ge c (by omega)
        rw [he] at h
        simp only [List.cons_append, List.cons.injEq] at h
        omega
  · rintro rfl
    simp [utf8Encode, utf8EncodeChar, ha, hb]

/-! ### Data model (src/v2/call.js and its collaborators)

The frame-level constants mirror the lazy offset chain of
src/v2/call.js lines 94-127: `flagsOffset = Frame.Overhead`,
`ttlOffset = flagsOffset + 1`, `tracingOffset = ttlOffset + 4`,
`serviceOffset = tracingOffset + 25`. -/

/-- Modelled from the spec: `Frame.Overhead`, the framing layer's fixed
frame-header size in bytes (the frame module is outside src/). -/
def frameOverhead : Nat := 16

/-- Lazy offset of the flags byte (src line 94). -/
def flagsOffset : Nat := frameOverhead

/-- Lazy offset of the ttl field (src line 100). -/
def ttlOffset : Nat := flagsOffset + 1

/-- Lazy offset of the tracing field (src line 121). -/
def tracingOffset : Nat := ttlOffset + 4

/-- Lazy offset of the service length byte (src line 127). -/
def serviceOffset : Nat := tracingOffset + 25

/-- The 16-bit big-endian value of the bytes "cn" (src line 40). -/
def CN_VALUE : Nat := 99 * 256 + 110

/-- The 16-bit big-endian value of the bytes "rd" (src line 41). -/
def RD_VALUE : Nat := 114 * 256 + 100

/-- Fragment bit of the flags byte.  Modelled from the spec: bit 0 of
flags (the call_flags module is outside src/). -/
def CallFlagsFragment : Nat := 1

/-- Tracing record, as produced by `readTracingValue` (src lines
165-182): span/parent/trace ids as pairs of big-endian u32 halves plus a
traceflags byte.  The structured `Tracing` collaborator carries the same
seven components in the same wire order. -/
structure TracingInfo where
  spanid1 : Nat
  spanid2 : Nat
  parentid1 : Nat
  parentid2 : Nat
  traceid1 : Nat
  traceid2 : Nat
  flags : Nat
deriving DecidableEq, Repr

/-- Checksum value: a type tag and (for non-None types) a 32-bit
digest.  Modelled from the spec: the checksum module (outside src/) has
types None=0x00, CRC32=0x01, Farmhash=0x02, CRC32C=0x03; digest width is
0 for None and 4 otherwise. -/
structure Checksum where
  ctype : Nat
  val : Nat
deriving DecidableEq, Repr

/-- Modelled from the spec: `Checksum.offsetWidth`, the digest width of
a checksum type (None has width 0, all others 4). -/
def offsetWidth (t : Nat) : Nat := if t = 0 then 0 else 4

/-- CallRequest body (src lines 76-86).  `cont` models whether the
continuation slot is non-null (the constructor sets it null; the spec's
args codec consults it when deciding to set the Fragment bit). -/
structure CallRequest where
  flags : Nat
  ttl : Nat
  tracing : TracingInfo
  service : List Nat
  headers : List (List Nat × List Nat)
  csum : Checksum
  args : List (List Nat)
  cont : Bool
deriving DecidableEq, Repr

/-- CallResponse body (src lines 598-607): no ttl/service, plus a
response code byte. -/
structure CallResponse where
  flags : Nat
  code : Nat
  tracing : TracingInfo
  headers : List (List Nat × List Nat)
  csum : Checksum
  args : List (List Nat)
  cont : Bool
deriving DecidableEq, Repr

/-! ### Structured readers and writers

Writers are embedded as the byte segment the source writes into its
pre-sized buffer at increasing offsets; concatenation order follows the
source's write order, except that the flags byte, whose slot the source
reserves first and fills last (src lines 552, 586-588), is emitted with
its final post-args value. -/

/-- Modelled from the spec: `bufrw.str1.readFrom` - a 1-byte length
prefix, then that many bytes decoded as UTF-8. -/
def str1Read (buf : List Nat) (off : Nat) : Except Err (List Nat × Nat) :=
  match readUInt8 buf off with
  | .error e => .error e
  | .ok (len, o1) =>
    if o1 + len ≤ buf.length then
      .ok (utf8DecodeLossy (byteSlice buf o1 (o1 + len)), o1 + len)
    else .error .BufferTooShort

/-- Modelled from the spec: `bufrw.str1.writeInto` - UTF-8 bytes with a
1-byte length prefix; `LengthOverflow` past 255 bytes. -/
def str1Write (s : List Nat) : Except Err (List Nat) :=
  if (utf8Encode s).length ≤ 255 then .ok ((utf8Encode s).length :: utf8Encode s)
  else .error .LengthOverflow

/-- Modelled from the spec: `Tracing.RW.readFrom` - a fixed 25-byte
record. -/
def tracingRead (buf : List Nat) (off : Nat) : Except Err (TracingInfo × Nat) :=
  if off + 25 ≤ buf.length then
    .ok (⟨bufGet32 buf off, bufGet32 buf (off + 4), bufGet32 buf (off + 8),
      bufGet32 buf (off + 12), bufGet32 buf (off + 16), bufGet32 buf (off + 20),
      bufGet buf (off + 24)⟩, off + 25)
  else .error .BufferTooShort

/-- Modelled from the spec: `Tracing.RW.writeInto` - 25 bytes. -/
def tracingWrite (t : TracingInfo) : List Nat :=
  writeUInt32BE t.spanid1 ++ writeUInt32BE t.spanid2 ++ writeUInt32BE t.parentid1 ++
    writeUInt32BE t.parentid2 ++ writeUInt32BE t.traceid1 ++ writeUInt32BE t.traceid2 ++
    writeUInt8 t.flags

/-- Modelled from the spec: the entry loop of `header.header1.readFrom` -
`n` entries of str1 key and str1 value, order preserved. -/
def headerEntriesRead (buf : List Nat) :
    Nat → Nat → Except Err (List (List Nat × List Nat) × Nat)
  | 0, off => .ok ([], off)
  | n + 1, off =>
    match str1Read buf off with
    | .error e => .error e
    | .ok (k, o1) =>
      match str1Read buf o1 with
      | .error e => .error e
      | .ok (v, o2) =>
        match headerEntriesRead buf n o2 with
        | .error e => .error e
        | .ok (hs, o3) => .ok ((k, v) :: hs, o3)

/-- Modelled from the spec: `header.header1.readFrom` - `nh:1` then `nh`
key/value pairs, duplicates and order preserved. -/
def header1Read (buf : List Nat) (off : Nat) :
    Except Err (List (List Nat × List Nat) × Nat) :=
  match readUInt8 buf off with
  | .error e => .error e
  | .ok (nh, o1) => headerEntriesRead buf nh o1

/-- Modelled from the spec: the entry loop of
`header.header1.writeInto`. -/
def headerEntriesWrite : List (List Nat × List Nat) → Except Err (List Nat)
  | [] => .ok []
  | (k, v) :: rest =>
    match str1Write k with
    | .error e => .error e
    | .ok kb =>
      match str1Write v with
      | .error e => .error e
      | .ok vb =>
        match headerEntriesWrite rest with
        | .error e => .error e
        | .ok hb => .ok (kb ++ vb ++ hb)

/-- Modelled from the spec: `header.header1.writeInto` - `nh:1` then the
entries in order; `LengthOverflow` past 255 entries. -/
def header1Write (hs : List (List Nat × List Nat)) : Except Err (List Nat) :=
  if hs.length ≤ 255 then
    match headerEntriesWrite hs with
    | .error e => .error e
    | .ok hb => .ok (hs.length :: hb)
  else .error .LengthOverflow

/-- Modelled from the spec: `Checksum.RW` read - `csumtype:1` then a
4-byte digest unless the type is None; unknown tags are
`InvalidChecksumType`. -/
def csumRead (buf : List Nat) (off : Nat) : Except Err (Checksum × Nat) :=
  match readUInt8 buf off with
  | .error e => .error e
  | .ok (t, o1) =>
    if t = 0 then .ok (⟨0, 0⟩, o1)
    else if t = 1 ∨ t = 2 ∨ t = 3 then
      match readUInt32BE buf o1 with
      | .error e => .error e
      | .ok (v, o2) => .ok (⟨t, v⟩, o2)
    else .error .InvalidChecksumType

/-- Modelled from the spec: `Checksum.RW` write. -/
def csumWrite (c : Checksum) : List Nat :=
  if c.ctype = 0 then writeUInt8 0 else writeUInt8 c.ctype ++ writeUInt32BE c.val

/-- Modelled from the spec: `arg~2` read - a 2-byte big-endian length
prefix then that many raw bytes. -/
def readArg2 (buf : List Nat) (off : Nat) : Except Err (List Nat × Nat) :=
  match readUInt16BE buf off with
  | .error e => .error e
  | .ok (len, o1) =>
    if o1 + len ≤ buf.length then .ok (byteSlice buf o1 (o1 + len), o1 + len)
    else .error .BufferTooShort

/-- Modelled from the spec: the args loop - `arg~2` entries consumed
until the end of the frame body.  The fuel argument bounds the loop; a
frame of n bytes holds at most n args, so callers pass the buffer
length. -/
def readArgsLoop (buf : List Nat) : Nat → Nat → Except Err (List (List Nat) × Nat)
  | 0, off => if off < buf.length then .error .BufferTooShort else .ok ([], off)
  | fuel + 1, off =>
    if off < buf.length then
      match readArg2 buf off with
      | .error e => .error e
      | .ok (a, o1) =>
        match readArgsLoop buf fuel o1 with
        | .error e => .error e
        | .ok (rest, o2) => .ok (a :: rest, o2)
    else .ok ([], off)

/-- Modelled from the spec: `argsrw.readFrom` - checksum then args until
end of buffer (the args module is outside src/). -/
def argsReadFrom (buf : List Nat) (off : Nat) :
    Except Err ((Checksum × List (List Nat)) × Nat) :=
  match csumRead buf off with
  | .error e => .error e
  | .ok (cs, o1) =>
    match readArgsLoop buf buf.length o1 with
    | .error e => .error e
    | .ok (rest, o2) => .ok ((cs, rest), o2)

/-- Modelled from the spec: `arg~2` write. -/
def writeArg2 (a : List Nat) : Except Err (List Nat) :=
  if a.length ≤ 65535 then .ok (writeUInt16BE a.length ++ a)
  else .error .LengthOverflow

/-- Modelled from the spec: the args write loop. -/
def writeArgsLoop : List (List Nat) → Except Err (List Nat)
  | [] => .ok []
  | a :: rest =>
    match writeArg2 a with
    | .error e => .error e
    | .ok ab =>
      match writeArgsLoop rest with
      | .error e => .error e
      | .ok rb => .ok (ab ++ rb)

/-- Modelled from the spec: `argsrw.writeInto` - checksum then args;
when the body's continuation slot is occupied (more bodies follow) the
writer sets the Fragment bit on the body's flags, which is why the
containing writer defers the flags byte (spec section 4.5).  Returns the
bytes written and the body's flags after any mutation. -/
def argsWriteInto (flags : Nat) (cont : Bool) (csum : Checksum)
    (args : List (List Nat)) : Except Err (List Nat × Nat) :=
  match writeArgsLoop args with
  | .error e => .error e
  | .ok ab =>
    .ok (csumWrite csum ++ ab, if cont then flags ||| CallFlagsFragment else flags)

/-- Structured CallRequest read (src lines 499-546): flags, ttl
(`InvalidTTL` when zero), tracing, service, headers, then checksum and
args to the end of the buffer. -/
def readCallReqFrom (buffer : List Nat) (offset : Nat) :
    Except Err (CallRequest × Nat) :=
  match readUInt8 buffer offset with
  | .error e => .error e
  | .ok (flags, o1) =>
    match readUInt32BE buffer o1 with
    | .error e => .error e
    | .ok (ttl, o2) =>
      if ttl = 0 then .error .InvalidTTL
      else
        match tracingRead buffer o2 with
        | .error e => .error e
        | .ok (tracing, o3) =>
          match str1Read buffer o3 with
          | .error e => .error e
          | .ok (service, o4) =>
            match header1Read buffer o4 with
            | .error e => .error e
            | .ok (headers, o5) =>
              match argsReadFrom buffer o5 with
              | .error e => .error e
              | .ok ((csum, args), o6) =>
                .ok (⟨flags, ttl, tracing, service, headers, csum, args, false⟩, o6)

/-- Structured CallRequest write (src lines 548-591): `InvalidTTL` when
ttl is zero; the flags byte slot is reserved at the start and receives
the final flags value only after args writing (which may set the
Fragment bit). -/
def writeCallReqInto (body : CallRequest) : Except Err (List Nat) :=
  if body.ttl = 0 then .error .InvalidTTL
  else
    match str1Write body.service with
    | .error e => .error e
    | .ok serviceB =>
      match header1Write body.headers with
      | .error e => .error e
      | .ok headersB =>
        match argsWriteInto body.flags body.cont body.csum body.args with
        | .error e => .error e
        | .ok (argsB, flags2) =>
          .ok (writeUInt8 flags2 ++ writeUInt32BE body.ttl ++
            tracingWrite body.tracing ++ serviceB ++ headersB ++ argsB)

/-- Structured CallResponse read (src lines 708-741). -/
def readCallResFrom (buffer : List Nat) (offset : Nat) :
    Except Err (CallResponse × Nat) :=
  match readUInt8 buffer offset with
  | .error e => .error e
  | .ok (flags, o1) =>
    match readUInt8 buffer o1 with
    | .error e => .error e
    | .ok (code, o2) =>
      match tracingRead buffer o2 with
      | .error e => .error e
      | .ok (tracing, o3) =>
        match header1Read buffer o3 with
        | .error e => .error e
        | .ok (headers, o4) =>
          match argsReadFrom buffer o4 with
          | .error e => .error e
          | .ok ((csum, args), o5) =>
            .ok (⟨flags, code, tracing, headers, csum, args, false⟩, o5)

/-- Structured CallResponse write (src lines 743-775), with the same
deferred flags byte as the request writer. -/
def writeCallResInto (body : CallResponse) : Except Err (List Nat) :=
  match header1Write body.headers with
  | .error e => .error e
  | .ok headersB =>
    match argsWriteInto body.flags body.cont body.csum body.args with
    | .error e => .error e
    | .ok (argsB, flags2) =>
      .ok (writeUInt8 flags2 ++ writeUInt8 body.code ++
        tracingWrite body.tracing ++ headersB ++ argsB)

/-! ### Well-formedness of bodies -/

/-- A string writable by str1: well-formed code points, encoding within
the 1-byte length prefix. -/
def WfStr1 (s : List Nat) : Prop := WfStr s ∧ (utf8Encode s).length ≤ 255

instance (s : List Nat) : Decidable (WfStr1 s) := by
  unfold WfStr1; infer_instance

/-- Well-formed header list: at most 255 entries, each key and value a
writable str1. -/
def WfHeaders (hs : List (List Nat × List Nat)) : Prop :=
  hs.length ≤ 255 ∧ ∀ kv ∈ hs, WfStr1 kv.1 ∧ WfStr1 kv.2

instance (hs : List (List Nat × List Nat)) : Decidable (WfHeaders hs) := by
  unfold WfHeaders; infer_instance

/-- Well-formed tracing record: six u32 halves and a flags byte. -/
def WfTracing (t : TracingInfo) : Prop :=
  t.spanid1 < 4294967296 ∧ t.spanid2 < 4294967296 ∧
  t.parentid1 < 4294967296 ∧ t.parentid2 < 4294967296 ∧
  t.traceid1 < 4294967296 ∧ t.traceid2 < 4294967296 ∧ t.flags < 256

instance (t : TracingInfo) : Decidable (WfTracing t) := by
  unfold WfTracing; infer_instance

/-- Well-formed checksum: a known type tag; None carries digest 0, the
rest a u32 digest. -/
def WfCsum (c : Checksum) : Prop :=
  (c.ctype = 0 ∧ c.val = 0) ∨
    ((c.ctype = 1 ∨ c.ctype = 2 ∨ c.ctype = 3) ∧ c.val < 4294967296)

instance (c : Checksum) : Decidable (WfCsum c) := by
  unfold WfCsum; infer_instance

/-- Well-formed args: each within the 2-byte length prefix. -/
def WfArgs (args : List (List Nat)) : Prop := ∀ a ∈ args, a.length ≤ 65535

instance (args : List (List Nat)) : Decidable (WfArgs args) := by
  unfold WfArgs; infer_instance

/-- Well-formed CallRequest body: field ranges within their wire widths,
positive ttl, and no continuation attached. -/
def WfCallRequest (b : CallRequest) : Prop :=
  b.flags < 256 ∧ 0 < b.ttl ∧ b.ttl < 4294967296 ∧ WfTracing b.tracing ∧
    WfStr1 b.service ∧ WfHeaders b.headers ∧ WfCsum b.csum ∧ WfArgs b.args ∧
    b.cont = false

instance (b : CallRequest) : Decidable (WfCallRequest b) := by
  unfold WfCallRequest; infer_instance

/-- Well-formed CallResponse body. -/
def WfCallResponse (b : CallResponse) : Prop :=
  b.flags < 256 ∧ b.code < 256 ∧ WfTracing b.tracing ∧ WfHeaders b.headers ∧
    WfCsum b.csum ∧ WfArgs b.args ∧ b.cont = false

instance (b : CallResponse) : Decidable (WfCallResponse b) := by
  unfold WfCallResponse; infer_instance

/-- Zero tracing record. -/
def zeroTracing : TracingInfo := ⟨0, 0, 0, 0, 0, 0, 0⟩

example :
    writeCallReqInto ⟨0, 1, zeroTracing, [115, 118, 99],
      [([99, 110], [99, 97, 108, 108, 101, 114])], ⟨0, 0⟩, [[]], false⟩ =
    .ok ([0, 0, 0, 0, 1] ++ List.replicate 25 0 ++
      [3, 115, 118, 99, 1, 2, 99, 110, 6, 99, 97, 108, 108, 101, 114, 0, 0, 0]) := by
  decide

example :
    (readCallReqFrom ([0, 0, 0, 0, 1] ++ List.replicate 25 0 ++
      [3, 115, 118, 99, 1, 2, 99, 110, 6, 99, 97, 108, 108, 101, 114, 0, 0, 0]) 0).map
      (fun r => r.1.service) = .ok [115, 118, 99] := by
  decide

/-! ### Positional read lemmas

Each lemma evaluates a reader at the start of its own segment inside a
larger buffer. -/

/-- The byte just after a given position's left context. -/
theorem bufGet_at (buf pre suf : List Nat) (b : Nat) (hbuf : buf = pre ++ b :: suf)
    (off : Nat) (hoff : off = pre.length) : bufGet buf off = b := by
  subst hbuf hoff
  unfold bufGet
  rw [List.getD_append_right pre (b :: suf) 0 pre.length (le_refl pre.length)]
  simp

/-- Bytes within a middle segment. -/
theorem bufGet_mid (buf pre mid suf : List Nat) (hbuf : buf = pre ++ mid ++ suf)
    (off k : Nat) (hoff : off = pre.length + k) (hk : k < mid.length) :
    bufGet buf off = bufGet mid k := by
  subst hbuf hoff
  unfold bufGet
  rw [List.append_assoc,
    List.getD_append_right pre (mid ++ suf) 0 (pre.length + k) (by omega),
    Nat.add_sub_cancel_left, List.getD_append mid suf 0 k hk]

/-- A middle segment recovered by `byteSlice`. -/
theorem byteSlice_at (buf pre mid suf : List Nat) (hbuf : buf = pre ++ mid ++ suf)
    (s e : Nat) (hs : s = pre.length) (he : e = pre.length + mid.length) :
    byteSlice buf s e = mid := by
  subst hbuf hs he
  unfold byteSlice
  rw [@List.take_left' Nat (pre ++ mid) suf (pre.length + mid.length) (by simp),
    @List.drop_left' Nat pre mid pre.length rfl]

/-- Length of a buffer built from three segments. -/
theorem len3 (buf pre mid suf : List Nat) (hbuf : buf = pre ++ mid ++ suf) :
    buf.length = pre.length + mid.length + suf.length := by
  subst hbuf
  simp
  omega

/-- readUInt8 at a segment holding one byte. -/
theorem readUInt8_at (buf pre suf : List Nat) (b : Nat)
    (hbuf : buf = pre ++ b :: suf) (off : Nat) (hoff : off = pre.length) :
    readUInt8 buf off = .ok (b, off + 1) := by
  have hlen : buf.length = pre.length + 1 + suf.length := by
    subst hbuf; simp; omega
  unfold readUInt8
  rw [if_pos (by omega), bufGet_at buf pre suf b hbuf off hoff]

/-- readUInt16BE at the segment written by writeUInt16BE. -/
theorem readUInt16BE_at (buf pre suf : List Nat) (v : Nat) (hv : v < 65536)
    (hbuf : buf = pre ++ writeUInt16BE v ++ suf) (off : Nat)
    (hoff : off = pre.length) :
    readUInt16BE buf off = .ok (v, off + 2) := by
  have hlen : buf.length = pre.length + 2 + suf.length := len3 buf pre _ suf hbuf
  unfold readUInt16BE
  rw [if_pos (by omega)]
  unfold bufGet16
  rw [bufGet_mid buf pre (writeUInt16BE v) suf hbuf off 0 (by omega) (by simp [writeUInt16BE]),
    bufGet_mid buf pre (writeUInt16BE v) suf hbuf (off + 1) 1 (by omega) (by simp [writeUInt16BE])]
  simp only [writeUInt16BE, bufGet, List.getD]
  simp
  omega

/-- readUInt32BE at the segment written by writeUInt32BE. -/
theorem readUInt32BE_at (buf pre suf : List Nat) (v : Nat) (hv : v < 4294967296)
    (hbuf : buf = pre ++ writeUInt32BE v ++ suf) (off : Nat)
    (hoff : off = pre.length) :
    readUInt32BE buf off = .ok (v, off + 4) := by
  have hlen : buf.length = pre.length + 4 + suf.length := len3 buf pre _ suf hbuf
  unfold readUInt32BE
  rw [if_pos (by omega)]
  unfold bufGet32
  rw [bufGet_mid buf pre (writeUInt32BE v) suf hbuf off 0 (by omega) (by simp [writeUInt32BE]),
    bufGet_mid buf pre (writeUInt32BE v) suf hbuf (off + 1) 1 (by omega) (by simp [writeUInt32BE]),
    bufGet_mid buf pre (writeUInt32BE v) suf hbuf (off + 2) 2 (by omega) (by simp [writeUInt32BE]),
    bufGet_mid buf pre (writeUInt32BE v) suf hbuf (off + 3) 3 (by omega) (by simp [writeUInt32BE])]
  simp only [writeUInt32BE, bufGet, List.getD]
  simp
  omega

/-- bufGet32 at the segment written by writeUInt32BE. -/
theorem bufGet32_at (buf pre suf : List Nat) (v : Nat) (hv : v < 4294967296)
    (hbuf : buf = pre ++ writeUInt32BE v ++ suf) (off : Nat)
    (hoff : off = pre.length) : bufGet32 buf off = v := by
  unfold bufGet32
  rw [bufGet_mid buf pre (writeUInt32BE v) suf hbuf off 0 (by omega) (by simp [writeUInt32BE]),
    bufGet_mid buf pre (writeUInt32BE v) suf hbuf (off + 1) 1 (by omega) (by simp [writeUInt32BE]),
    bufGet_mid buf pre (writeUInt32BE v) suf hbuf (off + 2) 2 (by omega) (by simp [writeUInt32BE]),
    bufGet_mid buf pre (writeUInt32BE v) suf hbuf (off + 3) 3 (by omega) (by simp [writeUInt32BE])]
  simp only [writeUInt32BE, bufGet, List.getD]
  simp
  omega

/-! ### Write-side normal forms -/

/-- The bytes of a str1 segment. -/
def str1B (s : List Nat) : List Nat := (utf8Encode s).length :: utf8Encode s

/-- The bytes of the header entries (excluding the count byte). -/
def hdrBytes : List (List Nat × List Nat) → List Nat
  | [] => []
  | (k, v) :: rest => str1B k ++ str1B v ++ hdrBytes rest

/-- The bytes of one arg2 segment. -/
def argBytes2 (a : List Nat) : List Nat := writeUInt16BE a.length ++ a

/-- The bytes of the args section. -/
def argsBytes : List (List Nat) → List Nat
  | [] => []
  | a :: rest => argBytes2 a ++ argsBytes rest

/-- The encoded bytes of a well-formed CallRequest body. -/
def reqBytesOf (B : CallRequest) : List Nat :=
  writeUInt8 B.flags ++ writeUInt32BE B.ttl ++ tracingWrite B.tracing ++
    str1B B.service ++ (B.headers.length :: hdrBytes B.headers) ++
    (csumWrite B.csum ++ argsBytes B.args)

/-- The encoded bytes of a well-formed CallResponse body. -/
def resBytesOf (B : CallResponse) : List Nat :=
  writeUInt8 B.flags ++ writeUInt8 B.code ++ tracingWrite B.tracing ++
    (B.headers.length :: hdrBytes B.headers) ++
    (csumWrite B.csum ++ argsBytes B.args)

/-- str1Write succeeds on a writable string. -/
theorem str1Write_eq (s : List Nat) (hs : (utf8Encode s).length ≤ 255) :
    str1Write s = .ok (str1B s) := by
  unfold str1Write str1B
  rw [if_pos hs]

/-- The header entry write loop succeeds on writable entries. -/
theorem headerEntriesWrite_eq (hs : List (List Nat × List Nat))
    (h : ∀ kv ∈ hs, WfStr1 kv.1 ∧ WfStr1 kv.2) :
    headerEntriesWrite hs = .ok (hdrBytes hs) := by
  induction hs with
  | nil => rfl
  | cons kv rest ih =>
    obtain ⟨k, v⟩ := kv
    have hk := (h (k, v) (by simp)).1.2
    have hv := (h (k, v) (by simp)).2.2
    rw [headerEntriesWrite, str1Write_eq k hk, str1Write_eq v hv,
      ih (fun kv hkv => h kv (by simp [hkv]))]
    simp [hdrBytes]

/-- header1Write succeeds on a well-formed header list. -/
theorem header1Write_eq (hs : List (List Nat × List Nat)) (h : WfHeaders hs) :
    header1Write hs = .ok (hs.length :: hdrBytes hs) := by
  unfold header1Write
  rw [if_pos h.1, headerEntriesWrite_eq hs h.2]

/-- The args write loop succeeds on well-formed args. -/
theorem writeArgsLoop_eq (args : List (List Nat)) (h : WfArgs args) :
    writeArgsLoop args = .ok (argsBytes args) := by
  induction args with
  | nil => rfl
  | cons a rest ih =>
    have ha := h a (by simp)
    rw [writeArgsLoop, writeArg2, if_pos ha,
      ih (fun x hx => h x (by simp [hx]))]
    simp [argsBytes, argBytes2]

/-- The structured CallRequest writer succeeds on a well-formed body and
emits `reqBytesOf`. -/
theorem writeCallReqInto_eq (B : CallRequest) (hB : WfCallRequest B) :
    writeCallReqInto B = .ok (reqBytesOf B) := by
  obtain ⟨hfl, httl0, httl, htr, hsv, hhd, hcs, har, hct⟩ := hB
  unfold writeCallReqInto
  rw [if_neg (by omega), str1Write_eq B.service hsv.2, header1Write_eq B.headers hhd]
  unfold argsWriteInto
  rw [writeArgsLoop_eq B.args har, hct]
  simp [reqBytesOf]

/-- The structured CallResponse writer succeeds on a well-formed body
and emits `resBytesOf`. -/
theorem writeCallResInto_eq (B : CallResponse) (hB : WfCallResponse B) :
    writeCallResInto B = .ok (resBytesOf B) := by
  obtain ⟨hfl, hcode, htr, hhd, hcs, har, hct⟩ := hB
  unfold writeCallResInto
  rw [header1Write_eq B.headers hhd]
  unfold argsWriteInto
  rw [writeArgsLoop_eq B.args har, hct]
  simp [resBytesOf]

/-! ### Read-side positional lemmas for composite segments -/

/-- str1Read at a str1 segment of a well-formed string. -/
theorem str1Read_at (buf pre suf : List Nat) (s : List Nat) (hs : WfStr1 s)
    (hbuf : buf = pre ++ str1B s ++ suf) (off : Nat) (hoff : off = pre.length) :
    str1Read buf off = .ok (s, off + 1 + (utf8Encode s).length) := by
  have hb2 : buf = pre ++ (utf8Encode s).length :: (utf8Encode s ++ suf) := by
    simp [hbuf, str1B]
  have hlen : buf.length = pre.length + 1 + (utf8Encode s).length + suf.length := by
    subst hbuf; simp [str1B]; omega
  unfold str1Read
  rw [readUInt8_at buf pre (utf8Encode s ++ suf) (utf8Encode s).length hb2 off hoff]
  dsimp only
  rw [if_pos (by omega),
    byteSlice_at buf (pre ++ [(utf8Encode s).length]) (utf8Encode s) suf
      (by simp [hbuf, str1B]) (off + 1) (off + 1 + (utf8Encode s).length)
      (by simp [hoff]) (by simp [hoff]),
    utf8_roundtrip s hs.1]

/-- tracingRead at a tracing segment of a well-formed record. -/
theorem tracingRead_at (buf pre suf : List Nat) (t : TracingInfo) (ht : WfTracing t)
    (hbuf : buf = pre ++ tracingWrite t ++ suf) (off : Nat) (hoff : off = pre.length) :
    tracingRead buf off = .ok (t, off + 25) := by
  obtain ⟨s1, s2, p1, p2, t1, t2, fl⟩ := t
  obtain ⟨h1, h2, h3, h4, h5, h6, h7⟩ := ht
  simp only at h1 h2 h3 h4 h5 h6 h7
  have hlen : buf.length = pre.length + 25 + suf.length := by
    subst hbuf; simp [tracingWrite, writeUInt32BE, writeUInt8]; omega
  unfold tracingRead
  rw [if_pos (by omega)]
  rw [bufGet32_at buf pre (writeUInt32BE s2 ++ writeUInt32BE p1 ++ writeUInt32BE p2 ++
      writeUInt32BE t1 ++ writeUInt32BE t2 ++ writeUInt8 fl ++ suf) s1 h1
      (by simp [hbuf, tracingWrite, List.append_assoc]) off hoff]
  rw [bufGet32_at buf (pre ++ writeUInt32BE s1) (writeUInt32BE p1 ++ writeUInt32BE p2 ++
      writeUInt32BE t1 ++ writeUInt32BE t2 ++ writeUInt8 fl ++ suf) s2 h2
      (by simp [hbuf, tracingWrite, List.append_assoc]) (off + 4)
      (by simp [writeUInt32BE, hoff] <;> omega)]
  rw [bufGet32_at buf (pre ++ writeUInt32BE s1 ++ writeUInt32BE s2)
      (writeUInt32BE p2 ++ writeUInt32BE t1 ++ writeUInt32BE t2 ++ writeUInt8 fl ++ suf) p1 h3
      (by simp [hbuf, tracingWrite, List.append_assoc]) (off + 8)
      (by simp [writeUInt32BE, hoff] <;> omega)]
  rw [bufGet32_at buf (pre ++ writeUInt32BE s1 ++ writeUInt32BE s2 ++ writeUInt32BE p1)
      (writeUInt32BE t1 ++ writeUInt32BE t2 ++ writeUInt8 fl ++ suf) p2 h4
      (by simp [hbuf, tracingWrite, List.append_assoc]) (off + 12)
      (by simp [writeUInt32BE, hoff] <;> omega)]
  rw [bufGet32_at buf (pre ++ writeUInt32BE s1 ++ writeUInt32BE s2 ++ writeUInt32BE p1 ++
      writeUInt32BE p2) (writeUInt32BE t2 ++ writeUInt8 fl ++ suf) t1 h5
      (by simp [hbuf, tracingWrite, List.append_assoc]) (off + 16)
      (by simp [writeUInt32BE, hoff] <;> omega)]
  rw [bufGet32_at buf (pre ++ writeUInt32BE s1 ++ writeUInt32BE s2 ++ writeUInt32BE p1 ++
      writeUInt32BE p2 ++ writeUInt32BE t1) (writeUInt8 fl ++ suf) t2 h6
      (by simp [hbuf, tracingWrite, List.append_assoc]) (off + 20)
      (by simp [writeUInt32BE, hoff] <;> omega)]
  rw [bufGet_at buf (pre ++ writeUInt32BE s1 ++ writeUInt32BE s2 ++ writeUInt32BE p1 ++
      writeUInt32BE p2 ++ writeUInt32BE t1 ++ writeUInt32BE t2) suf (fl % 256)
      (by simp [hbuf, tracingWrite, writeUInt8, List.append_assoc]) (off + 24)
      (by simp [writeUInt32BE, hoff] <;> omega)]
  rw [Nat.mod_eq_of_lt h7]

/-- The header entry read loop at an encoded well-formed entry list. -/
theorem headerEntriesRead_at (hs : List (List Nat × List Nat)) :
    ∀ buf pre suf : List Nat, (∀ kv ∈ hs, WfStr1 kv.1 ∧ WfStr1 kv.2) →
    buf = pre ++ hdrBytes hs ++ suf → ∀ off, off = pre.length →
    headerEntriesRead buf hs.length off = .ok (hs, off + (hdrBytes hs).length) := by
  induction hs with
  | nil =>
    intro buf pre suf _ hbuf off hoff
    simp [headerEntriesRead, hdrBytes]
  | cons kv rest ih =>
    intro buf pre suf hwf hbuf off hoff
    obtain ⟨k, v⟩ := kv
    have hk : WfStr1 k := (hwf (k, v) (by simp)).1
    have hv : WfStr1 v := (hwf (k, v) (by simp)).2
    have hb : buf = pre ++ str1B k ++ (str1B v ++ hdrBytes rest ++ suf) := by
      simp [hbuf, hdrBytes, List.append_assoc]
    have hb2 : buf = (pre ++ str1B k) ++ str1B v ++ (hdrBytes rest ++ suf) := by
      simp [hbuf, hdrBytes, List.append_assoc]
    have hb3 : buf = (pre ++ str1B k ++ str1B v) ++ hdrBytes rest ++ suf := by
      simp [hbuf, hdrBytes, List.append_assoc]
    show headerEntriesRead buf (rest.length + 1) off = _
    rw [headerEntriesRead,
      str1Read_at buf pre (str1B v ++ hdrBytes rest ++ suf) k hk hb off hoff]
    dsimp only
    rw [str1Read_at buf (pre ++ str1B k) (hdrBytes rest ++ suf) v hv hb2
        (off + 1 + (utf8Encode k).length) (by simp [hoff, str1B] <;> omega)]
    dsimp only
    rw [ih buf (pre ++ str1B k ++ str1B v) suf
        (fun x hx => hwf x (by simp [hx])) hb3
        (off + 1 + (utf8Encode k).length + 1 + (utf8Encode v).length)
        (by simp [hoff, str1B] <;> omega)]
    dsimp only
    simp only [hdrBytes, str1B, List.length_append, List.length_cons, Except.ok.injEq,
      Prod.mk.injEq, true_and]
    omega

/-- header1Read at an encoded well-formed header section. -/
theorem header1Read_at (buf pre suf : List Nat) (hs : List (List Nat × List Nat))
    (h : WfHeaders hs) (hbuf : buf = pre ++ (hs.length :: hdrBytes hs) ++ suf)
    (off : Nat) (hoff : off = pre.length) :
    header1Read buf off = .ok (hs, off + 1 + (hdrBytes hs).length) := by
  unfold header1Read
  rw [readUInt8_at buf pre (hdrBytes hs ++ suf) hs.length (by simp [hbuf]) off hoff]
  dsimp only
  rw [headerEntriesRead_at hs buf (pre ++ [hs.length]) suf h.2
      (by simp [hbuf]) (off + 1) (by simp [hoff])]

/-- csumRead at an encoded well-formed checksum. -/
theorem csumRead_at (buf pre suf : List Nat) (c : Checksum) (hc : WfCsum c)
    (hbuf : buf = pre ++ csumWrite c ++ suf) (off : Nat) (hoff : off = pre.length) :
    csumRead buf off = .ok (c, off + (csumWrite c).length) := by
  obtain ⟨t, v⟩ := c
  rcases hc with ⟨h0, hv⟩ | ⟨ht, hv⟩
  · simp only at h0 hv
    subst h0 hv
    have hcw : csumWrite ⟨0, 0⟩ = [0] := rfl
    unfold csumRead
    rw [readUInt8_at buf pre suf 0 (by simpa [hcw] using hbuf) off hoff]
    dsimp only
    simp [hcw]
  · simp only at ht hv
    have htne : ¬(t = 0) := by omega
    have hmod : t % 256 = t := by omega
    have hcw : csumWrite ⟨t, v⟩ = t :: writeUInt32BE v := by
      simp [csumWrite, writeUInt8, htne, hmod]
    unfold csumRead
    rw [readUInt8_at buf pre (writeUInt32BE v ++ suf) t
      (by simp [hbuf, hcw]) off hoff]
    dsimp only
    rw [if_neg htne, if_pos ht,
      readUInt32BE_at buf (pre ++ [t]) suf v hv (by simp [hbuf, hcw]) (off + 1)
        (by simp [hoff])]
    dsimp only
    rw [hcw]
    simp only [List.length_cons, writeUInt32BE, List.length_nil, Except.ok.injEq,
      Prod.mk.injEq, true_and]

/-- readArg2 at an encoded arg segment. -/
theorem readArg2_at (buf pre suf a : List Nat) (ha : a.length ≤ 65535)
    (hbuf : buf = pre ++ argBytes2 a ++ suf) (off : Nat) (hoff : off = pre.length) :
    readArg2 buf off = .ok (a, off + 2 + a.length) := by
  have hb : buf = pre ++ writeUInt16BE a.length ++ (a ++ suf) := by
    simp [hbuf, argBytes2, List.append_assoc]
  have hlen : buf.length = pre.length + 2 + a.length + suf.length := by
    subst hbuf; simp [argBytes2, writeUInt16BE]; omega
  unfold readArg2
  rw [readUInt16BE_at buf pre (a ++ suf) a.length (by omega) hb off hoff]
  dsimp only
  rw [if_pos (by omega),
    byteSlice_at buf (pre ++ writeUInt16BE a.length) a suf
      (by simp [hbuf, argBytes2, List.append_assoc]) (off + 2) (off + 2 + a.length)
      (by simp [hoff, writeUInt16BE] <;> omega)
      (by simp [hoff, writeUInt16BE] <;> omega)]

/-- The args read loop consumes an encoded args section exactly to the
end of the buffer. -/
theorem readArgsLoop_at (args : List (List Nat)) :
    ∀ (buf pre : List Nat) (fuel : Nat), WfArgs args →
    buf = pre ++ argsBytes args → (argsBytes args).length ≤ fuel →
    ∀ off, off = pre.length →
    readArgsLoop buf fuel off = .ok (args, buf.length) := by
  induction args with
  | nil =>
    intro buf pre fuel _ hbuf _ off hoff
    have hlen : buf.length = off := by subst hbuf hoff; simp [argsBytes]
    cases fuel with
    | zero => rw [readArgsLoop, if_neg (by omega), hlen]
    | succ f => rw [readArgsLoop, if_neg (by omega), hlen]
  | cons a rest ih =>
    intro buf pre fuel hwf hbuf hfuel off hoff
    have ha : a.length ≤ 65535 := hwf a (by simp)
    have habl : (argsBytes (a :: rest)).length = 2 + a.length + (argsBytes rest).length := by
      simp [argsBytes, argBytes2, writeUInt16BE]
      omega
    have hlen : buf.length = pre.length + (2 + a.length + (argsBytes rest).length) := by
      subst hbuf; simp [habl]
    cases fuel with
    | zero => omega
    | succ f =>
      rw [readArgsLoop, if_pos (by omega),
        readArg2_at buf pre (argsBytes rest) a ha
          (by simp [hbuf, argsBytes, List.append_assoc]) off hoff]
      dsimp only
      rw [ih buf (pre ++ argBytes2 a) f (fun x hx => hwf x (by simp [hx]))
          (by simp [hbuf, argsBytes, List.append_assoc])
          (by rw [habl] at hfuel; omega)
          (off + 2 + a.length) (by simp [hoff, argBytes2, writeUInt16BE] <;> omega)]

/-- argsReadFrom at an encoded checksum-and-args tail filling the rest
of the buffer. -/
theorem argsReadFrom_at (buf pre : List Nat) (c : Checksum) (args : List (List Nat))
    (hc : WfCsum c) (ha : WfArgs args)
    (hbuf : buf = pre ++ (csumWrite c ++ argsBytes args)) (off : Nat)
    (hoff : off = pre.length) :
    argsReadFrom buf off = .ok ((c, args), buf.length) := by
  have hlen : buf.length = pre.length + (csumWrite c).length + (argsBytes args).length := by
    subst hbuf; simp; omega
  unfold argsReadFrom
  rw [csumRead_at buf pre (argsBytes args) c hc (by simp [hbuf]) off hoff]
  dsimp only
  rw [readArgsLoop_at args buf (pre ++ csumWrite c) buf.length ha
      (by simp [hbuf]) (by omega) (off + (csumWrite c).length) (by simp [hoff])]

/-- Structured decode recovers a well-formed request body from its own
encoding, consuming the whole buffer. -/
theorem readCallReqFrom_reqBytes (B : CallRequest) (hB : WfCallRequest B) :
    readCallReqFrom (reqBytesOf B) 0 = .ok (B, (reqBytesOf B).length) := by
  obtain ⟨fl, ttl, tr, sv, hs, cs, ags, ct⟩ := B
  obtain ⟨hfl, httl0, httl, htr, hsv, hhd, hcs, har, hct⟩ := hB
  simp only at hfl httl0 httl htr hsv hhd hcs har hct
  subst hct
  have hw8 : writeUInt8 fl = [fl] := by
    simp [writeUInt8, Nat.mod_eq_of_lt hfl]
  unfold readCallReqFrom
  rw [readUInt8_at (reqBytesOf ⟨fl, ttl, tr, sv, hs, cs, ags, false⟩) []
      (writeUInt32BE ttl ++ tracingWrite tr ++ str1B sv ++
        (hs.length :: hdrBytes hs) ++ (csumWrite cs ++ argsBytes ags)) fl
      (by simp [reqBytesOf, hw8, List.append_assoc]) 0 rfl]
  dsimp only
  rw [readUInt32BE_at (reqBytesOf ⟨fl, ttl, tr, sv, hs, cs, ags, false⟩) [fl]
      (tracingWrite tr ++ str1B sv ++ (hs.length :: hdrBytes hs) ++
        (csumWrite cs ++ argsBytes ags)) ttl httl
      (by simp [reqBytesOf, hw8, List.append_assoc]) (0 + 1) (by simp)]
  dsimp only
  rw [if_neg (by omega)]
  rw [tracingRead_at (reqBytesOf ⟨fl, ttl, tr, sv, hs, cs, ags, false⟩)
      ([fl] ++ writeUInt32BE ttl)
      (str1B sv ++ (hs.length :: hdrBytes hs) ++ (csumWrite cs ++ argsBytes ags)) tr htr
      (by simp [reqBytesOf, hw8, List.append_assoc]) (0 + 1 + 4)
      (by simp [writeUInt32BE])]
  dsimp only
  rw [str1Read_at (reqBytesOf ⟨fl, ttl, tr, sv, hs, cs, ags, false⟩)
      ([fl] ++ writeUInt32BE ttl ++ tracingWrite tr)
      ((hs.length :: hdrBytes hs) ++ (csumWrite cs ++ argsBytes ags)) sv hsv
      (by simp [reqBytesOf, hw8, List.append_assoc]) (0 + 1 + 4 + 25)
      (by simp [writeUInt32BE, tracingWrite, writeUInt8] <;> omega)]
  dsimp only
  rw [header1Read_at (reqBytesOf ⟨fl, ttl, tr, sv, hs, cs, ags, false⟩)
      ([fl] ++ writeUInt32BE ttl ++ tracingWrite tr ++ str1B sv)
      (csumWrite cs ++ argsBytes ags) hs hhd
      (by simp [reqBytesOf, hw8, List.append_assoc]) (0 + 1 + 4 + 25 + 1 + (utf8Encode sv).length)
      (by simp [writeUInt32BE, tracingWrite, writeUInt8, str1B] <;> omega)]
  dsimp only
  rw [argsReadFrom_at (reqBytesOf ⟨fl, ttl, tr, sv, hs, cs, ags, false⟩)
      ([fl] ++ writeUInt32BE ttl ++ tracingWrite tr ++ str1B sv ++
        (hs.length :: hdrBytes hs)) cs ags hcs har
      (by simp [reqBytesOf, hw8, List.append_assoc])
      (0 + 1 + 4 + 25 + 1 + (utf8Encode sv).length + 1 + (hdrBytes hs).length)
      (by simp [writeUInt32BE, tracingWrite, writeUInt8, str1B] <;> omega)]

/-- Structured decode recovers a well-formed response body from its own
encoding, consuming the whole buffer. -/
theorem readCallResFrom_resBytes (B : CallResponse) (hB : WfCallResponse B) :
    readCallResFrom (resBytesOf B) 0 = .ok (B, (resBytesOf B).length) := by
  obtain ⟨fl, code, tr, hs, cs, ags, ct⟩ := B
  obtain ⟨hfl, hcode, htr, hhd, hcs, har, hct⟩ := hB
  simp only at hfl hcode htr hhd hcs har hct
  subst hct
  have hw8 : writeUInt8 fl = [fl] := by
    simp [writeUInt8, Nat.mod_eq_of_lt hfl]
  have hw8c : writeUInt8 code = [code] := by
    simp [writeUInt8, Nat.mod_eq_of_lt hcode]
  unfold readCallResFrom
  rw [readUInt8_at (resBytesOf ⟨fl, code, tr, hs, cs, ags, false⟩) []
      ([code] ++ tracingWrite tr ++ (hs.length :: hdrBytes hs) ++
        (csumWrite cs ++ argsBytes ags)) fl
      (by simp [resBytesOf, hw8, hw8c, List.append_assoc]) 0 rfl]
  dsimp only
  rw [readUInt8_at (resBytesOf ⟨fl, code, tr, hs, cs, ags, false⟩) [fl]
      (tracingWrite tr ++ (hs.length :: hdrBytes hs) ++
        (csumWrite cs ++ argsBytes ags)) code
      (by simp [resBytesOf, hw8, hw8c, List.append_assoc]) (0 + 1) (by simp)]
  dsimp only
  rw [tracingRead_at (resBytesOf ⟨fl, code, tr, hs, cs, ags, false⟩)
      ([fl] ++ [code])
      ((hs.length :: hdrBytes hs) ++ (csumWrite cs ++ argsBytes ags)) tr htr
      (by simp [resBytesOf, hw8, hw8c, List.append_assoc]) (0 + 1 + 1)
      (by simp)]
  dsimp only
  rw [header1Read_at (resBytesOf ⟨fl, code, tr, hs, cs, ags, false⟩)
      ([fl] ++ [code] ++ tracingWrite tr)
      (csumWrite cs ++ argsBytes ags) hs hhd
      (by simp [resBytesOf, hw8, hw8c, List.append_assoc]) (0 + 1 + 1 + 25)
      (by simp [tracingWrite, writeUInt32BE, writeUInt8] <;> omega)]
  dsimp only
  rw [argsReadFrom_at (resBytesOf ⟨fl, code, tr, hs, cs, ags, false⟩)
      ([fl] ++ [code] ++ tracingWrite tr ++ (hs.length :: hdrBytes hs)) cs ags hcs har
      (by simp [resBytesOf, hw8, hw8c, List.append_assoc])
      (0 + 1 + 1 + 25 + 1 + (hdrBytes hs).length)
      (by simp [tracingWrite, writeUInt32BE, writeUInt8] <;> omega)]

/-- C1: structured round-trip.  For every well-formed CallRequest body B
(ttl > 0, service/header/arg lengths within their prefixes), decoding
the bytes produced by the structured writer yields a body equal to B in
flags, ttl, tracing, service, headers (order and duplicates preserved),
checksum type and digest, and args; the same holds for CallResponse
bodies with code in place of ttl/service. -/
theorem c1_structured_roundtrip :
    (∀ B : CallRequest, WfCallRequest B →
      ∃ bytes, writeCallReqInto B = .ok bytes ∧
        readCallReqFrom bytes 0 = .ok (B, bytes.length)) ∧
    (∀ B : CallResponse, WfCallResponse B →
      ∃ bytes, writeCallResInto B = .ok bytes ∧
        readCallResFrom bytes 0 = .ok (B, bytes.length)) := by
  constructor
  · intro B hB
    exact ⟨reqBytesOf B, writeCallReqInto_eq B hB, readCallReqFrom_reqBytes B hB⟩
  · intro B hB
    exact ⟨resBytesOf B, writeCallResInto_eq B hB, readCallResFrom_resBytes B hB⟩

/-- A concrete request body with duplicate and mixed headers, a CRC32
checksum and three args. -/
def sampleReq : CallRequest :=
  ⟨1, 2500, ⟨1, 2, 3, 4, 5, 6, 1⟩, [115, 118, 99],
    [([99, 110], [97]), ([99, 110], [98]), ([114, 100], [100, 101, 108])],
    ⟨1, 12345⟩, [[104, 105], [], [7]], false⟩

/-- A concrete response body. -/
def sampleRes : CallResponse :=
  ⟨0, 1, zeroTracing, [], ⟨0, 0⟩, [[101, 114, 114], [109, 115, 103]], false⟩

/-- Witness for C1 at concrete request and response bodies. -/
theorem c1_structured_roundtrip_witness :
    (∃ bytes, writeCallReqInto sampleReq = .ok bytes ∧
      readCallReqFrom bytes 0 = .ok (sampleReq, bytes.length)) ∧
    (∃ bytes, writeCallResInto sampleRes = .ok bytes ∧
      readCallResFrom bytes 0 = .ok (sampleRes, bytes.length)) :=
  ⟨c1_structured_roundtrip.1 sampleReq (by decide),
    c1_structured_roundtrip.2 sampleRes (by decide)⟩

/-- C6: TTL rejection.  Structured encode of a CallRequest body with
ttl = 0 fails with InvalidTTL, and structured decode of a frame whose
ttl field bytes are 0x00000000 fails with InvalidTTL; in both directions
no body is produced or written. -/
theorem c6_ttl_rejection :
    (∀ B : CallRequest, B.ttl = 0 → writeCallReqInto B = .error .InvalidTTL) ∧
    (∀ buf : List Nat, 5 ≤ buf.length → bufGet buf 1 = 0 → bufGet buf 2 = 0 →
      bufGet buf 3 = 0 → bufGet buf 4 = 0 →
      readCallReqFrom buf 0 = .error .InvalidTTL) := by
  constructor
  · intro B h
    unfold writeCallReqInto
    rw [if_pos h]
  · intro buf hlen h1 h2 h3 h4
    unfold readCallReqFrom
    unfold readUInt8
    rw [if_pos (by omega)]
    dsimp only
    unfold readUInt32BE
    rw [if_pos (by omega)]
    dsimp only
    have : bufGet32 buf (0 + 1) = 0 := by
      unfold bufGet32
      simp only [show (0 : Nat) + 1 = 1 from rfl]
      rw [h1, show (1 : Nat) + 1 = 2 from rfl, h2, show (1 : Nat) + 2 = 3 from rfl,
        h3, show (1 : Nat) + 3 = 4 from rfl, h4]
    rw [this, if_pos rfl]

/-- Witness for C6: a body with ttl 0 and a five-byte frame with a zero
ttl field. -/
theorem c6_ttl_rejection_witness :
    writeCallReqInto ⟨0, 0, zeroTracing, [], [], ⟨0, 0⟩, [], false⟩ =
      .error .InvalidTTL ∧
    readCallReqFrom [7, 0, 0, 0, 0] 0 = .error .InvalidTTL :=
  ⟨c6_ttl_rejection.1 ⟨0, 0, zeroTracing, [], [], ⟨0, 0⟩, [], false⟩ rfl,
    c6_ttl_rejection.2 [7, 0, 0, 0, 0] (by decide) rfl rfl rfl rfl⟩

/-! ### Lazy reader: frame, offset cache and accessors
(src/v2/call.js lines 92-400)

JS `null` is `Option.none`; a cached offset of 0 means
computed-and-absent, distinguishable from `none` (spec section 3).  The
JS truthiness tests on offsets (`if (frame.cache.headerStartOffset)`,
`if (!offset)`) treat 0 like null and are modelled by `truthyOff`.
Accessors that mutate the cache are state-passing: they return the value
and the updated frame. -/

/-- Per-frame offset cache (spec section 3, mutated by src lines
101-400). -/
structure Cache where
  ttlValue : Option Nat
  tracingValue : Option TracingInfo
  serviceStr : Option (List Nat)
  callerNameStr : Option (List Nat)
  routingDelegateStr : Option (List Nat)
  arg1Str : Option (List Nat)
  headerStartOffset : Option Nat
  cnValueOffset : Option Nat
  rdValueOffset : Option Nat
  csumStartOffset : Option Nat
  lastError : Option String
deriving DecidableEq, Repr

/-- Fresh cache: every slot null. -/
def Cache.empty : Cache :=
  ⟨none, none, none, none, none, none, none, none, none, none, none⟩

/-- A received frame: its byte buffer, its declared size, and its offset
cache. -/
structure Frame where
  buffer : List Nat
  size : Nat
  cache : Cache
deriving DecidableEq, Repr

/-- JS truthiness of a nullable numeric cache slot: non-null and
non-zero. -/
def truthyOff : Option Nat → Bool
  | some n => n != 0
  | none => false

/-- fastBufferToString (src lines 51-67): Node utf8 slice decoding,
lossy, never failing. -/
def fastBufferToString (buf : List Nat) (s e : Nat) : List Nat :=
  utf8DecodeLossy (byteSlice buf s e)

/-- Lazy readTTL (src lines 101-115).  Returns 0 when the frame is too
short (nothing cached); otherwise reads and caches the u32 at
ttlOffset. -/
def readTTL (f : Frame) : Nat × Frame :=
  match f.cache.ttlValue with
  | some v => (v, f)
  | none =>
    if f.size < ttlOffset + 4 then (0, f)
    else
      let ttl := bufGet32 f.buffer ttlOffset
      (ttl, { f with cache := { f.cache with ttlValue := some ttl } })

/-- Lazy readTracingValue (src lines 133-175). -/
def readTracingValue (f : Frame) : Option TracingInfo × Frame :=
  match f.cache.tracingValue with
  | some t => (some t, f)
  | none =>
    if f.size < tracingOffset + 25 then (none, f)
    else
      let t : TracingInfo :=
        ⟨bufGet32 f.buffer tracingOffset, bufGet32 f.buffer (tracingOffset + 4),
          bufGet32 f.buffer (tracingOffset + 8), bufGet32 f.buffer (tracingOffset + 12),
          bufGet32 f.buffer (tracingOffset + 16), bufGet32 f.buffer (tracingOffset + 20),
          bufGet f.buffer (tracingOffset + 24)⟩
      (some t, { f with cache := { f.cache with tracingValue := some t } })

/-- findHeaderStartOffset (src lines 208-222).  Returns 0 (uncached)
when the service length byte is beyond the frame; otherwise caches and
returns serviceOffset + 1 + service length byte. -/
def findHeaderStartOffset (f : Frame) : Nat × Frame :=
  if truthyOff f.cache.headerStartOffset then (f.cache.headerStartOffset.getD 0, f)
  else if f.size < serviceOffset + 1 then (0, f)
  else
    let strLength := bufGet f.buffer serviceOffset
    let offset := serviceOffset + strLength + 1
    (offset, { f with cache := { f.cache with headerStartOffset := some offset } })

/-- Lazy readServiceStr (src lines 184-206). -/
def readServiceStr (f : Frame) : Option (List Nat) × Frame :=
  match f.cache.serviceStr with
  | some s => (some s, f)
  | none =>
    match findHeaderStartOffset f with
    | (headerStartOffset, f1) =>
      if headerStartOffset = 0 then (none, f1)
      else if f1.size < headerStartOffset then (none, f1)
      else
        let s := fastBufferToString f1.buffer (serviceOffset + 1) headerStartOffset
        (some s, { f1 with cache := { f1.cache with serviceStr := some s } })

/-- The header scan loop of scanAndSkipHeaders (src lines 239-277):
`i` entries remain; accumulators hold the first matching cn/rd value
offsets (0 = none yet).  Returns none on truncation, otherwise the two
value offsets and the end offset of the header section. -/
def scanLoop (buf : List Nat) (size : Nat) :
    Nat → Nat → Nat → Nat → Option (Nat × Nat × Nat)
  | 0, offset, cnOff, rdOff => some (cnOff, rdOff, offset)
  | i + 1, offset, cnOff, rdOff =>
    if size < offset + 1 then none
    else
      let keyLength := bufGet buf offset
      let o1 := offset + 1
      if size < keyLength + o1 then none
      else
        let cnOff' := if cnOff = 0 ∧ keyLength = 2 ∧ bufGet16 buf o1 = CN_VALUE
          then o1 + keyLength else cnOff
        let rdOff' := if rdOff = 0 ∧ keyLength = 2 ∧ bufGet16 buf o1 = RD_VALUE
          then o1 + keyLength else rdOff
        let o2 := o1 + keyLength
        if size < o2 + 1 then none
        else
          let valueLength := bufGet buf o2
          let o3 := o2 + 1
          if size < valueLength + o3 then none
          else scanLoop buf size i (o3 + valueLength) cnOff' rdOff'

/-- scanAndSkipHeaders (src lines 224-283): on success commits
cnValueOffset, rdValueOffset and csumStartOffset simultaneously; on
failure commits none of them. -/
def scanAndSkipHeaders (f : Frame) : Bool × Frame :=
  match findHeaderStartOffset f with
  | (offset, f1) =>
    if offset = 0 then (false, f1)
    else if f1.size < offset + 1 then (false, f1)
    else
      let nh := bufGet f1.buffer offset
      match scanLoop f1.buffer f1.size nh (offset + 1) 0 0 with
      | none => (false, f1)
      | some (cnOff, rdOff, endOff) =>
        (true, { f1 with cache :=
          { f1.cache with
            cnValueOffset := some cnOff
            rdValueOffset := some rdOff
            csumStartOffset := some endOff } })

/-- readUInt8String (src lines 341-354): a str1 read against the frame
size, returning null on truncation. -/
def readUInt8String (f : Frame) (offset : Nat) : Option (List Nat) :=
  if f.size < offset + 1 then none
  else
    let valueLength := bufGet f.buffer offset
    let e := offset + 1 + valueLength
    if f.size < e then none
    else some (fastBufferToString f.buffer (offset + 1) e)

/-- Lazy readCallerNameStr (src lines 285-311).  Note the JS falsiness
test `if (!callerNameStr)`: an empty decoded value is returned as null
and not cached. -/
def readCallerNameStr (f : Frame) : Option (List Nat) × Frame :=
  match f.cache.callerNameStr with
  | some s => (some s, f)
  | none =>
    match (if f.cache.cnValueOffset = none then scanAndSkipHeaders f else (true, f)) with
    | (success, f1) =>
      if success = false then (none, f1)
      else
        let offset := f1.cache.cnValueOffset.getD 0
        if offset = 0 then (none, f1)
        else
          match readUInt8String f1 offset with
          | none => (none, f1)
          | some s =>
            if s = [] then (none, f1)
            else (some s, { f1 with cache := { f1.cache with callerNameStr := some s } })

/-- Lazy readRoutingDelegateStr (src lines 313-339), the rd analogue of
readCallerNameStr. -/
def readRoutingDelegateStr (f : Frame) : Option (List Nat) × Frame :=
  match f.cache.routingDelegateStr with
  | some s => (some s, f)
  | none =>
    match (if f.cache.rdValueOffset = none then scanAndSkipHeaders f else (true, f)) with
    | (success, f1) =>
      if success = false then (none, f1)
      else
        let offset := f1.cache.rdValueOffset.getD 0
        if offset = 0 then (none, f1)
        else
          match readUInt8String f1 offset with
          | none => (none, f1)
          | some s =>
            if s = [] then (none, f1)
            else (some s, { f1 with cache := { f1.cache with routingDelegateStr := some s } })

/-- Lazy readArg1Str (src lines 356-400): skips checksum, reads the
first arg2 as UTF-8; records lastError on each failure path. -/
def readArg1Str (f : Frame) : Option (List Nat) × Frame :=
  match f.cache.arg1Str with
  | some s => (some s, f)
  | none =>
    match (if truthyOff f.cache.csumStartOffset = false then scanAndSkipHeaders f
      else (true, f)) with
    | (success, f1) =>
      if success = false then
        (none, { f1 with cache :=
          { f1.cache with lastError := some "Could not scan & skip headers" } })
      else
        let offset := f1.cache.csumStartOffset.getD 0
        if f1.size < offset + 1 then
          (none, { f1 with cache :=
            { f1.cache with lastError := some "Could not read csum type" } })
        else
          let csumType := bufGet f1.buffer offset
          let o1 := offset + 1
          let o2 := if csumType ≠ 0 then o1 + offsetWidth csumType else o1
          if f1.size < o2 + 2 then
            (none, { f1 with cache :=
              { f1.cache with lastError := some "Could not read arg1 size" } })
          else
            let arg1Length := bufGet16 f1.buffer o2
            let o3 := o2 + 2
            let e := o3 + arg1Length
            if f1.size < e then
              (none, { f1 with cache :=
                { f1.cache with lastError := some "Could not read arg1 itself" } })
            else
              let s := fastBufferToString f1.buffer o3 e
              (some s, { f1 with cache := { f1.cache with arg1Str := some s } })

/-- A frame as built by the framing layer for a received buffer: the
declared size is the buffer length and the cache is fresh. -/
def freshFrame (buf : List Nat) : Frame := ⟨buf, buf.length, Cache.empty⟩

example : (readTTL (freshFrame (List.replicate 16 0 ++ reqBytesOf sampleReq))).1 = 2500 := by
  decide
example : (readServiceStr (freshFrame (List.replicate 16 0 ++ reqBytesOf sampleReq))).1 =
    some [115, 118, 99] := by decide
example : (readCallerNameStr (freshFrame (List.replicate 16 0 ++ reqBytesOf sampleReq))).1 =
    some [97] := by decide
example : (readRoutingDelegateStr (freshFrame (List.replicate 16 0 ++ reqBytesOf sampleReq))).1 =
    some [100, 101, 108] := by decide
example : (readArg1Str (freshFrame (List.replicate 16 0 ++ reqBytesOf sampleReq))).1 =
    some [104, 105] := by decide
example : (readTracingValue (freshFrame (List.replicate 16 0 ++ reqBytesOf sampleReq))).1 =
    some ⟨1, 2, 3, 4, 5, 6, 1⟩ := by decide

/-! ### Raw frame layout and symbolic evaluation of the lazy scan

The raw layer works on byte-level segments (header keys/values and the
service field as raw bytes, not code points), so that lazy accessor
behaviour can be settled for any byte content, valid UTF-8 or not. -/

/-- Raw bytes of one header entry: str1 key then str1 value, with the
length bytes taken literally from the list lengths. -/
def rawPair (kv : List Nat × List Nat) : List Nat :=
  (kv.1.length :: kv.1) ++ (kv.2.length :: kv.2)

/-- Raw bytes of a header entry list. -/
def rawHdrBytes : List (List Nat × List Nat) → List Nat
  | [] => []
  | kv :: rest => rawPair kv ++ rawHdrBytes rest

/-- The value of the first entry whose raw key is two bytes long and
matches the given 16-bit key constant; none when no entry matches. -/
def firstValWith (key16 : Nat) : List (List Nat × List Nat) → Option (List Nat)
  | [] => none
  | (k, v) :: rest =>
    if k.length = 2 ∧ bufGet16 k 0 = key16 then some v else firstValWith key16 rest

/-- The cn accumulator of the scan loop as a function of the entry list:
starting at a given offset with accumulator acc, the offset of the first
matching value-length byte (acc when already found, 0 when absent). -/
def cnAccF (key16 : Nat) : List (List Nat × List Nat) → Nat → Nat → Nat
  | [], _, acc => acc
  | (k, v) :: rest, off, acc =>
    cnAccF key16 rest (off + 1 + k.length + 1 + v.length)
      (if acc = 0 ∧ k.length = 2 ∧ bufGet16 k 0 = key16 then off + 1 + k.length else acc)

/-- bufGet16 at the segment written by writeUInt16BE. -/
theorem bufGet16_at (buf pre suf : List Nat) (v : Nat) (hv : v < 65536)
    (hbuf : buf = pre ++ writeUInt16BE v ++ suf) (off : Nat)
    (hoff : off = pre.length) : bufGet16 buf off = v := by
  unfold bufGet16
  rw [bufGet_mid buf pre (writeUInt16BE v) suf hbuf off 0 (by omega) (by simp [writeUInt16BE]),
    bufGet_mid buf pre (writeUInt16BE v) suf hbuf (off + 1) 1 (by omega) (by simp [writeUInt16BE])]
  simp only [writeUInt16BE, bufGet, List.getD]
  simp
  omega

/-- A non-zero accumulator is never overwritten: first match wins in the
header scan. -/
theorem cnAccF_ne_zero (key16 : Nat) (hs : List (List Nat × List Nat)) :
    ∀ off acc, acc ≠ 0 → cnAccF key16 hs off acc = acc := by
  induction hs with
  | nil => intro off acc h; rfl
  | cons kv rest ih =>
    intro off acc h
    obtain ⟨k, v⟩ := kv
    rw [cnAccF, if_neg (by simp [h])]
    exact ih _ acc h

/-- The scan loop over a buffer holding the raw header entries computes
the accumulator functions and stops exactly at the end of the
entries. -/
theorem scanLoop_raw (hs : List (List Nat × List Nat)) :
    ∀ (buf pre suf : List Nat) (cn rd off : Nat),
    buf = pre ++ rawHdrBytes hs ++ suf → off = pre.length →
    scanLoop buf buf.length hs.length off cn rd =
      some (cnAccF CN_VALUE hs off cn, cnAccF RD_VALUE hs off rd,
        off + (rawHdrBytes hs).length) := by
  induction hs with
  | nil =>
    intro buf pre suf cn rd off hbuf hoff
    simp [scanLoop, cnAccF, rawHdrBytes]
  | cons kv rest ih =>
    intro buf pre suf cn rd off hbuf hoff
    obtain ⟨k, v⟩ := kv
    have hb1 : buf = pre ++ k.length :: (k ++ (v.length :: v) ++ rawHdrBytes rest ++ suf) := by
      simp [hbuf, rawHdrBytes, rawPair, List.append_assoc]
    have hbk : buf = (pre ++ [k.length]) ++ k ++ ((v.length :: v) ++ rawHdrBytes rest ++ suf) := by
      simp [hbuf, rawHdrBytes, rawPair, List.append_assoc]
    have hb2 : buf = (pre ++ [k.length] ++ k) ++ v.length ::
        (v ++ rawHdrBytes rest ++ suf) := by
      simp [hbuf, rawHdrBytes, rawPair, List.append_assoc]
    have hb3 : buf = (pre ++ rawPair (k, v)) ++ rawHdrBytes rest ++ suf := by
      simp [hbuf, rawHdrBytes, rawPair, List.append_assoc]
    have hlen : buf.length = pre.length + (1 + k.length + 1 + v.length) +
        ((rawHdrBytes rest).length + suf.length) := by
      subst hbuf; simp [rawHdrBytes, rawPair]; omega
    have hkl : bufGet buf off = k.length :=
      bufGet_at buf pre _ k.length hb1 off hoff
    have hvl : bufGet buf (off + 1 + k.length) = v.length :=
      bufGet_at buf (pre ++ [k.length] ++ k) _ v.length hb2
        (off + 1 + k.length) (by simp [hoff] <;> omega)
    have hk16 : k.length = 2 → bufGet16 buf (off + 1) = bufGet16 k 0 := by
      intro h2
      unfold bufGet16
      rw [bufGet_mid buf (pre ++ [k.length]) k ((v.length :: v) ++ rawHdrBytes rest ++ suf)
          hbk (off + 1) 0 (by simp [hoff] <;> omega) (by omega),
        bufGet_mid buf (pre ++ [k.length]) k ((v.length :: v) ++ rawHdrBytes rest ++ suf)
          hbk (off + 1 + 1) 1 (by simp [hoff] <;> omega) (by omega)]
    have hcncond : (cn = 0 ∧ k.length = 2 ∧ bufGet16 buf (off + 1) = CN_VALUE) ↔
        (cn = 0 ∧ k.length = 2 ∧ bufGet16 k 0 = CN_VALUE) := by
      constructor
      · rintro ⟨a, b, c⟩; exact ⟨a, b, by rw [← hk16 b]; exact c⟩
      · rintro ⟨a, b, c⟩; exact ⟨a, b, by rw [hk16 b]; exact c⟩
    have hrdcond : (rd = 0 ∧ k.length = 2 ∧ bufGet16 buf (off + 1) = RD_VALUE) ↔
        (rd = 0 ∧ k.length = 2 ∧ bufGet16 k 0 = RD_VALUE) := by
      constructor
      · rintro ⟨a, b, c⟩; exact ⟨a, b, by rw [← hk16 b]; exact c⟩
      · rintro ⟨a, b, c⟩; exact ⟨a, b, by rw [hk16 b]; exact c⟩
    show scanLoop buf buf.length (rest.length + 1) off cn rd = _
    rw [scanLoop]
    dsimp only
    rw [if_neg (by omega), hkl, if_neg (by omega), hvl, if_neg (by omega),
      if_neg (by omega)]
    simp only [hcncond, hrdcond]
    have hoz : off + 1 + k.length + 1 + v.length = (pre ++ rawPair (k, v)).length := by
      simp [rawPair, hoff]
      omega
    have hfinal : off + (rawHdrBytes ((k, v) :: rest)).length =
        off + 1 + k.length + 1 + v.length + (rawHdrBytes rest).length := by
      simp [rawHdrBytes, rawPair]
      omega
    rw [cnAccF, cnAccF, hfinal,
      ih buf (pre ++ rawPair (k, v)) suf _ _ (off + 1 + k.length + 1 + v.length) hb3 hoz]

/-- First-match characterization of the scan accumulator: over a buffer
holding the raw entries, the accumulator started at 0 is 0 exactly when
no key matches, and otherwise is the in-buffer position of the first
matching entry's value-length byte. -/
theorem cnAccF_spec (key16 : Nat) (hs : List (List Nat × List Nat)) :
    ∀ (buf pre suf : List Nat) (off : Nat),
    buf = pre ++ rawHdrBytes hs ++ suf → off = pre.length → 0 < off →
    (firstValWith key16 hs = none ∧ cnAccF key16 hs off 0 = 0) ∨
    (∃ v pre' suf', firstValWith key16 hs = some v ∧
      cnAccF key16 hs off 0 = pre'.length ∧ 0 < pre'.length ∧
      buf = pre' ++ (v.length :: v) ++ suf') := by
  induction hs with
  | nil =>
    intro buf pre suf off hbuf hoff hpos
    left
    exact ⟨rfl, rfl⟩
  | cons kv rest ih =>
    intro buf pre suf off hbuf hoff hpos
    obtain ⟨k, v⟩ := kv
    by_cases hc : k.length = 2 ∧ bufGet16 k 0 = key16
    · right
      refine ⟨v, pre ++ k.length :: k, rawHdrBytes rest ++ suf, ?_, ?_, ?_, ?_⟩
      · rw [firstValWith, if_pos hc]
      · rw [cnAccF, if_pos ⟨rfl, hc⟩,
          cnAccF_ne_zero key16 rest _ (off + 1 + k.length) (by omega)]
        simp [hoff]
        omega
      · simp
      · simp [hbuf, rawHdrBytes, rawPair, List.append_assoc]
    · have hb3 : buf = (pre ++ rawPair (k, v)) ++ rawHdrBytes rest ++ suf := by
        simp [hbuf, rawHdrBytes, rawPair, List.append_assoc]
      rw [firstValWith, if_neg hc, cnAccF,
        if_neg (by rintro ⟨h1, h2, h3⟩; exact hc ⟨h2, h3⟩)]
      exact ih buf (pre ++ rawPair (k, v)) suf (off + 1 + k.length + 1 + v.length) hb3
        (by simp [rawPair, hoff]; omega) (by omega)

/-- findHeaderStartOffset on a fresh frame holding a raw request body:
computes and caches serviceOffset + 1 + service length. -/
theorem findHeaderStartOffset_raw (pre16 ttlB trB svcB tail : List Nat) (fl : Nat)
    (hs : List (List Nat × List Nat)) (buf : List Nat)
    (h16 : pre16.length = 16) (h4 : ttlB.length = 4) (h25 : trB.length = 25)
    (hbuf : buf = pre16 ++ [fl] ++ ttlB ++ trB ++ (svcB.length :: svcB) ++
      (hs.length :: rawHdrBytes hs) ++ tail) :
    findHeaderStartOffset (freshFrame buf) =
      (47 + svcB.length, ⟨buf, buf.length,
        { Cache.empty with headerStartOffset := some (47 + svcB.length) }⟩) := by
  have hso : serviceOffset = 46 := rfl
  have hlen : buf.length = 48 + svcB.length + (rawHdrBytes hs).length + tail.length := by
    subst hbuf; simp [h16, h4, h25]; omega
  have hsl : bufGet buf 46 = svcB.length :=
    bufGet_at buf (pre16 ++ [fl] ++ ttlB ++ trB)
      (svcB ++ (hs.length :: rawHdrBytes hs) ++ tail) svcB.length
      (by simp [hbuf, List.append_assoc]) 46 (by simp [h16, h4, h25])
  unfold findHeaderStartOffset freshFrame
  dsimp only
  rw [show truthyOff Cache.empty.headerStartOffset = false from rfl]
  rw [if_neg (by simp), hso, if_neg (by omega), hsl,
    show 46 + svcB.length + 1 = 47 + svcB.length from by omega]

/-- scanAndSkipHeaders on a fresh frame holding a raw request body:
succeeds and commits the two value offsets and the checksum start
offset. -/
theorem scanAndSkipHeaders_raw (pre16 ttlB trB svcB tail : List Nat) (fl : Nat)
    (hs : List (List Nat × List Nat)) (buf : List Nat)
    (h16 : pre16.length = 16) (h4 : ttlB.length = 4) (h25 : trB.length = 25)
    (hbuf : buf = pre16 ++ [fl] ++ ttlB ++ trB ++ (svcB.length :: svcB) ++
      (hs.length :: rawHdrBytes hs) ++ tail) :
    scanAndSkipHeaders (freshFrame buf) =
      (true, ⟨buf, buf.length,
        { Cache.empty with
          headerStartOffset := some (47 + svcB.length)
          cnValueOffset := some (cnAccF CN_VALUE hs (48 + svcB.length) 0)
          rdValueOffset := some (cnAccF RD_VALUE hs (48 + svcB.length) 0)
          csumStartOffset := some (48 + svcB.length + (rawHdrBytes hs).length) }⟩) := by
  have hlen : buf.length = 48 + svcB.length + (rawHdrBytes hs).length + tail.length := by
    subst hbuf; simp [h16, h4, h25]; omega
  have hnh : bufGet buf (47 + svcB.length) = hs.length :=
    bufGet_at buf (pre16 ++ [fl] ++ ttlB ++ trB ++ (svcB.length :: svcB))
      (rawHdrBytes hs ++ tail) hs.length
      (by simp [hbuf, List.append_assoc]) (47 + svcB.length)
      (by simp [h16, h4, h25]; omega)
  unfold scanAndSkipHeaders
  rw [findHeaderStartOffset_raw pre16 ttlB trB svcB tail fl hs buf h16 h4 h25 hbuf]
  dsimp only
  rw [if_neg (by omega), if_neg (by omega), hnh,
    show 47 + svcB.length + 1 = 48 + svcB.length from by omega,
    scanLoop_raw hs buf
      (pre16 ++ [fl] ++ ttlB ++ trB ++ (svcB.length :: svcB) ++ [hs.length]) tail 0 0
      (48 + svcB.length) (by simp [hbuf, List.append_assoc])
      (by simp [h16, h4, h25]; omega)]

/-- readServiceStr on a fresh raw-layout frame: lossily decodes exactly
the service bytes, whatever they contain. -/
theorem readServiceStr_raw (pre16 ttlB trB svcB tail : List Nat) (fl : Nat)
    (hs : List (List Nat × List Nat)) (buf : List Nat)
    (h16 : pre16.length = 16) (h4 : ttlB.length = 4) (h25 : trB.length = 25)
    (hbuf : buf = pre16 ++ [fl] ++ ttlB ++ trB ++ (svcB.length :: svcB) ++
      (hs.length :: rawHdrBytes hs) ++ tail) :
    (readServiceStr (freshFrame buf)).1 = some (utf8DecodeLossy svcB) := by
  have hlen : buf.length = 48 + svcB.length + (rawHdrBytes hs).length + tail.length := by
    subst hbuf; simp [h16, h4, h25]; omega
  unfold readServiceStr
  rw [show (freshFrame buf).cache.serviceStr = none from rfl]
  rw [findHeaderStartOffset_raw pre16 ttlB trB svcB tail fl hs buf h16 h4 h25 hbuf]
  dsimp only
  rw [if_neg (by omega), if_neg (by omega),
    show serviceOffset + 1 = 47 from rfl]
  unfold fastBufferToString
  rw [byteSlice_at buf (pre16 ++ [fl] ++ ttlB ++ trB ++ [svcB.length]) svcB
      ((hs.length :: rawHdrBytes hs) ++ tail)
      (by simp [hbuf, List.append_assoc]) 47 (47 + svcB.length)
      (by simp [h16, h4, h25]) (by simp [h16, h4, h25])]

/-- readCallerNameStr on a fresh raw-layout frame: the lossy decoding of
the first cn header's value bytes; the absent sentinel when no cn header
exists or its value is empty. -/
theorem readCallerNameStr_raw (pre16 ttlB trB svcB tail : List Nat) (fl : Nat)
    (hs : List (List Nat × List Nat)) (buf : List Nat)
    (h16 : pre16.length = 16) (h4 : ttlB.length = 4) (h25 : trB.length = 25)
    (hbuf : buf = pre16 ++ [fl] ++ ttlB ++ trB ++ (svcB.length :: svcB) ++
      (hs.length :: rawHdrBytes hs) ++ tail) :
    (readCallerNameStr (freshFrame buf)).1 =
      (match firstValWith CN_VALUE hs with
       | none => none
       | some v => if v = [] then none else some (utf8DecodeLossy v)) := by
  unfold readCallerNameStr
  rw [show (freshFrame buf).cache.callerNameStr = none from rfl,
    if_pos (show (freshFrame buf).cache.cnValueOffset = none from rfl),
    scanAndSkipHeaders_raw pre16 ttlB trB svcB tail fl hs buf h16 h4 h25 hbuf]
  dsimp only
  rw [if_neg (by simp)]
  simp only [Option.getD_some]
  rcases cnAccF_spec CN_VALUE hs buf
      (pre16 ++ [fl] ++ ttlB ++ trB ++ (svcB.length :: svcB) ++ [hs.length]) tail
      (48 + svcB.length) (by simp [hbuf, List.append_assoc])
      (by simp [h16, h4, h25]; omega) (by omega) with
    ⟨hfv, hzero⟩ | ⟨v, pre', suf', hfv, hacc, hpos, hdec⟩
  · rw [hzero, hfv, if_pos rfl]
  · have hlen' : buf.length = pre'.length + 1 + v.length + suf'.length := by
      subst hdec; simp; omega
    rw [hacc, hfv, if_neg (by omega)]
    unfold readUInt8String
    dsimp only
    rw [if_neg (by omega),
      bufGet_at buf pre' (v ++ suf') v.length (by simp [hdec]) pre'.length rfl,
      if_neg (by omega)]
    unfold fastBufferToString
    rw [byteSlice_at buf (pre' ++ [v.length]) v suf' (by simp [hdec])
      (pre'.length + 1) (pre'.length + 1 + v.length) (by simp) (by simp <;> omega)]
    dsimp only
    by_cases hv : v = []
    · rw [if_pos (by rw [hv]; rfl), if_pos hv]
    · rw [if_neg (by intro h; exact hv ((utf8DecodeLossy_eq_nil v).mp h)), if_neg hv]

/-- readRoutingDelegateStr on a fresh raw-layout frame, the rd analogue
of readCallerNameStr. -/
theorem readRoutingDelegateStr_raw (pre16 ttlB trB svcB tail : List Nat) (fl : Nat)
    (hs : List (List Nat × List Nat)) (buf : List Nat)
    (h16 : pre16.length = 16) (h4 : ttlB.length = 4) (h25 : trB.length = 25)
    (hbuf : buf = pre16 ++ [fl] ++ ttlB ++ trB ++ (svcB.length :: svcB) ++
      (hs.length :: rawHdrBytes hs) ++ tail) :
    (readRoutingDelegateStr (freshFrame buf)).1 =
      (match firstValWith RD_VALUE hs with
       | none => none
       | some v => if v = [] then none else some (utf8DecodeLossy v)) := by
  unfold readRoutingDelegateStr
  rw [show (freshFrame buf).cache.routingDelegateStr = none from rfl,
    if_pos (show (freshFrame buf).cache.rdValueOffset = none from rfl),
    scanAndSkipHeaders_raw pre16 ttlB trB svcB tail fl hs buf h16 h4 h25 hbuf]
  dsimp only
  rw [if_neg (by simp)]
  simp only [Option.getD_some]
  rcases cnAccF_spec RD_VALUE hs buf
      (pre16 ++ [fl] ++ ttlB ++ trB ++ (svcB.length :: svcB) ++ [hs.length]) tail
      (48 + svcB.length) (by simp [hbuf, List.append_assoc])
      (by simp [h16, h4, h25]; omega) (by omega) with
    ⟨hfv, hzero⟩ | ⟨v, pre', suf', hfv, hacc, hpos, hdec⟩
  · rw [hzero, hfv, if_pos rfl]
  · have hlen' : buf.length = pre'.length + 1 + v.length + suf'.length := by
      subst hdec; simp; omega
    rw [hacc, hfv, if_neg (by omega)]
    unfold readUInt8String
    dsimp only
    rw [if_neg (by omega),
      bufGet_at buf pre' (v ++ suf') v.length (by simp [hdec]) pre'.length rfl,
      if_neg (by omega)]
    unfold fastBufferToString
    rw [byteSlice_at buf (pre' ++ [v.length]) v suf' (by simp [hdec])
      (pre'.length + 1) (pre'.length + 1 + v.length) (by simp) (by simp <;> omega)]
    dsimp only
    by_cases hv : v = []
    · rw [if_pos (by rw [hv]; rfl), if_pos hv]
    · rw [if_neg (by intro h; exact hv ((utf8DecodeLossy_eq_nil v).mp h)), if_neg hv]

/-- readArg1Str on a fresh raw-layout frame with a checksum section and
a first arg: the lossy decoding of exactly the first arg's bytes. -/
theorem readArg1Str_raw (pre16 ttlB trB svcB dig a1 argrest : List Nat) (fl ct : Nat)
    (hs : List (List Nat × List Nat)) (buf : List Nat)
    (h16 : pre16.length = 16) (h4 : ttlB.length = 4) (h25 : trB.length = 25)
    (hdig : dig.length = if ct = 0 then 0 else 4) (ha1 : a1.length ≤ 65535)
    (hbuf : buf = pre16 ++ [fl] ++ ttlB ++ trB ++ (svcB.length :: svcB) ++
      (hs.length :: rawHdrBytes hs) ++
      ((ct :: dig) ++ (writeUInt16BE a1.length ++ (a1 ++ argrest)))) :
    (readArg1Str (freshFrame buf)).1 = some (utf8DecodeLossy a1) := by
  have hlen : buf.length = 48 + svcB.length + (rawHdrBytes hs).length +
      (1 + dig.length + 2 + a1.length + argrest.length) := by
    subst hbuf; simp [h16, h4, h25, writeUInt16BE]; omega
  unfold readArg1Str
  rw [show (freshFrame buf).cache.arg1Str = none from rfl,
    if_pos (show truthyOff (freshFrame buf).cache.csumStartOffset = false from rfl),
    scanAndSkipHeaders_raw pre16 ttlB trB svcB
      ((ct :: dig) ++ (writeUInt16BE a1.length ++ (a1 ++ argrest))) fl hs buf
      h16 h4 h25 hbuf]
  dsimp only
  simp only [Option.getD_some]
  rw [if_neg (by simp), if_neg (by omega),
    bufGet_at buf (pre16 ++ [fl] ++ ttlB ++ trB ++ (svcB.length :: svcB) ++
        (hs.length :: rawHdrBytes hs))
      (dig ++ (writeUInt16BE a1.length ++ (a1 ++ argrest))) ct
      (by simp [hbuf, List.append_assoc])
      (48 + svcB.length + (rawHdrBytes hs).length) (by simp [h16, h4, h25]; omega)]
  have ho2 : (if ct ≠ 0 then 48 + svcB.length + (rawHdrBytes hs).length + 1 + offsetWidth ct
      else 48 + svcB.length + (rawHdrBytes hs).length + 1) =
      48 + svcB.length + (rawHdrBytes hs).length + 1 + dig.length := by
    unfold offsetWidth
    by_cases hct : ct = 0
    · rw [if_neg (by simp [hct]), hdig, if_pos hct]
    · rw [if_pos hct, if_neg hct, hdig, if_neg hct]
  rw [ho2, if_neg (by omega),
    bufGet16_at buf (pre16 ++ [fl] ++ ttlB ++ trB ++ (svcB.length :: svcB) ++
        (hs.length :: rawHdrBytes hs) ++ (ct :: dig)) (a1 ++ argrest) a1.length
      (by omega) (by simp [hbuf, List.append_assoc])
      (48 + svcB.length + (rawHdrBytes hs).length + 1 + dig.length)
      (by simp [h16, h4, h25]; omega),
    if_neg (by omega)]
  unfold fastBufferToString
  rw [byteSlice_at buf (pre16 ++ [fl] ++ ttlB ++ trB ++ (svcB.length :: svcB) ++
      (hs.length :: rawHdrBytes hs) ++ (ct :: dig) ++ writeUInt16BE a1.length) a1 argrest
    (by simp [hbuf, List.append_assoc])
    (48 + svcB.length + (rawHdrBytes hs).length + 1 + dig.length + 2)
    (48 + svcB.length + (rawHdrBytes hs).length + 1 + dig.length + 2 + a1.length)
    (by simp [h16, h4, h25, writeUInt16BE]; omega)
    (by simp [h16, h4, h25, writeUInt16BE]; omega)]

/-- The code points of the header key "cn". -/
def cnKey : List Nat := [99, 110]

/-- The code points of the header key "rd". -/
def rdKey : List Nat := [114, 100]

/-- UTF-8 encoding of both components of a header entry. -/
def encPair (kv : List Nat × List Nat) : List Nat × List Nat :=
  (utf8Encode kv.1, utf8Encode kv.2)

/-- The value of the first header whose key equals the given code-point
key. -/
def firstHeaderValue (key : List Nat) : List (List Nat × List Nat) → Option (List Nat)
  | [] => none
  | (k, v) :: rest => if k = key then some v else firstHeaderValue key rest

/-- The structured header byte image coincides with the raw byte image
of the encoded entries. -/
theorem hdrBytes_eq_raw (hs : List (List Nat × List Nat)) :
    hdrBytes hs = rawHdrBytes (hs.map encPair) := by
  induction hs with
  | nil => rfl
  | cons kv rest ih =>
    obtain ⟨k, v⟩ := kv
    simp [hdrBytes, rawHdrBytes, rawPair, str1B, encPair, ih]

/-- The scan's 16-bit key test on an encoded key is exactly equality
with the two-ASCII-character key. -/
theorem key16_match (k : List Nat) (hk : WfStr k) (a b : Nat)
    (ha : a < 128) (hb : b < 128) :
    ((utf8Encode k).length = 2 ∧ bufGet16 (utf8Encode k) 0 = a * 256 + b) ↔
      k = [a, b] := by
  constructor
  · rintro ⟨hl, h16⟩
    obtain ⟨x, y, hxy⟩ := List.length_eq_two.mp hl
    have hxlt : x < 256 := utf8Encode_lt_256 k hk x (by rw [hxy]; simp)
    have hylt : y < 256 := utf8Encode_lt_256 k hk y (by rw [hxy]; simp)
    rw [hxy] at h16
    have hxy16 : x * 256 + y = a * 256 + b := by
      simpa [bufGet16, bufGet] using h16
    have hx : x = a := by omega
    have hy : y = b := by omega
    exact (utf8Encode_eq_pair k a b ha hb).mp (by rw [hxy, hx, hy])
  · rintro rfl
    have he : utf8Encode [a, b] = [a, b] := by
      simp [utf8Encode, utf8EncodeChar, ha, hb]
    rw [he]
    exact ⟨rfl, by simp [bufGet16, bufGet]⟩

/-- The raw first-match over encoded entries equals the code-point-level
first match, with an encoded value. -/
theorem firstValWith_enc (hs : List (List Nat × List Nat))
    (hwf : ∀ kv ∈ hs, WfStr1 kv.1 ∧ WfStr1 kv.2) (a b : Nat)
    (ha : a < 128) (hb : b < 128) :
    firstValWith (a * 256 + b) (hs.map encPair) =
      (firstHeaderValue [a, b] hs).map utf8Encode := by
  induction hs with
  | nil => rfl
  | cons kv rest ih =>
    obtain ⟨k, v⟩ := kv
    have hk : WfStr k := (hwf (k, v) (by simp)).1.1
    rw [List.map_cons, show encPair (k, v) = (utf8Encode k, utf8Encode v) from rfl,
      firstValWith, firstHeaderValue]
    by_cases hkey : k = [a, b]
    · rw [if_pos ((key16_match k hk a b ha hb).mpr hkey), if_pos hkey]
      rfl
    · rw [if_neg (fun hc => hkey ((key16_match k hk a b ha hb).mp hc)), if_neg hkey]
      exact ih (fun x hx => hwf x (by simp [hx]))

/-- readTTL on a fresh frame holding an encoded request body returns its
ttl. -/
theorem readTTL_enc (pre16 : List Nat) (B : CallRequest) (hB : WfCallRequest B)
    (h16 : pre16.length = 16) :
    (readTTL (freshFrame (pre16 ++ reqBytesOf B))).1 = B.ttl := by
  obtain ⟨hfl, httl0, httl, htr, hsv, hhd, hcs, har, hct⟩ := hB
  have hlen : 48 ≤ (pre16 ++ reqBytesOf B).length := by
    simp [reqBytesOf, writeUInt8, writeUInt32BE, tracingWrite, str1B, h16]
    omega
  unfold readTTL
  rw [show (freshFrame (pre16 ++ reqBytesOf B)).cache.ttlValue = none from rfl]
  dsimp only [freshFrame]
  rw [if_neg (by have : ttlOffset = 17 := rfl; omega),
    bufGet32_at (pre16 ++ reqBytesOf B) (pre16 ++ writeUInt8 B.flags)
      (tracingWrite B.tracing ++ str1B B.service ++
        (B.headers.length :: hdrBytes B.headers) ++
        (csumWrite B.csum ++ argsBytes B.args)) B.ttl httl
      (by simp [reqBytesOf, List.append_assoc]) ttlOffset
      (by simp [writeUInt8, h16]; rfl)]

/-- readTracingValue on a fresh frame holding an encoded request body
returns its tracing record. -/
theorem readTracingValue_enc (pre16 : List Nat) (B : CallRequest)
    (hB : WfCallRequest B) (h16 : pre16.length = 16) :
    (readTracingValue (freshFrame (pre16 ++ reqBytesOf B))).1 = some B.tracing := by
  obtain ⟨fl0, ttl0, tr0, sv0, hs0, cs0, ags0, ct0⟩ := B
  obtain ⟨hfl, httl0, httl, htr, hsv, hhd, hcs, har, hct⟩ := hB
  obtain ⟨s1, s2, p1, p2, t1, t2, fl⟩ := tr0
  obtain ⟨h1, h2, h3, h4, h5, h6, h7⟩ := htr
  simp only at hfl httl0 httl h1 h2 h3 h4 h5 h6 h7
  set B' : CallRequest := ⟨fl0, ttl0, ⟨s1, s2, p1, p2, t1, t2, fl⟩, sv0, hs0, cs0, ags0, ct0⟩
  set buf := pre16 ++ reqBytesOf B' with hbufdef
  have hlen : 48 ≤ buf.length := by
    simp [hbufdef, reqBytesOf, writeUInt8, writeUInt32BE, tracingWrite, str1B, h16]
    omega
  have hto : tracingOffset = 21 := rfl
  have hb1 : buf = (pre16 ++ writeUInt8 fl0 ++ writeUInt32BE ttl0) ++ writeUInt32BE s1 ++
      (writeUInt32BE s2 ++ writeUInt32BE p1 ++ writeUInt32BE p2 ++ writeUInt32BE t1 ++
        writeUInt32BE t2 ++ writeUInt8 fl ++ (str1B sv0 ++ (hs0.length :: hdrBytes hs0) ++
        (csumWrite cs0 ++ argsBytes ags0))) := by
    simp [hbufdef, reqBytesOf, tracingWrite, List.append_assoc]
  have hb2 : buf = (pre16 ++ writeUInt8 fl0 ++ writeUInt32BE ttl0 ++ writeUInt32BE s1) ++
      writeUInt32BE s2 ++ (writeUInt32BE p1 ++ writeUInt32BE p2 ++ writeUInt32BE t1 ++
        writeUInt32BE t2 ++ writeUInt8 fl ++ (str1B sv0 ++ (hs0.length :: hdrBytes hs0) ++
        (csumWrite cs0 ++ argsBytes ags0))) := by
    simp [hbufdef, reqBytesOf, tracingWrite, List.append_assoc]
  have hb3 : buf = (pre16 ++ writeUInt8 fl0 ++ writeUInt32BE ttl0 ++ writeUInt32BE s1 ++
      writeUInt32BE s2) ++ writeUInt32BE p1 ++ (writeUInt32BE p2 ++ writeUInt32BE t1 ++
        writeUInt32BE t2 ++ writeUInt8 fl ++ (str1B sv0 ++ (hs0.length :: hdrBytes hs0) ++
        (csumWrite cs0 ++ argsBytes ags0))) := by
    simp [hbufdef, reqBytesOf, tracingWrite, List.append_assoc]
  have hb4 : buf = (pre16 ++ writeUInt8 fl0 ++ writeUInt32BE ttl0 ++ writeUInt32BE s1 ++
      writeUInt32BE s2 ++ writeUInt32BE p1) ++ writeUInt32BE p2 ++ (writeUInt32BE t1 ++
        writeUInt32BE t2 ++ writeUInt8 fl ++ (str1B sv0 ++ (hs0.length :: hdrBytes hs0) ++
        (csumWrite cs0 ++ argsBytes ags0))) := by
    simp [hbufdef, reqBytesOf, tracingWrite, List.append_assoc]
  have hb5 : buf = (pre16 ++ writeUInt8 fl0 ++ writeUInt32BE ttl0 ++ writeUInt32BE s1 ++
      writeUInt32BE s2 ++ writeUInt32BE p1 ++ writeUInt32BE p2) ++ writeUInt32BE t1 ++
      (writeUInt32BE t2 ++ writeUInt8 fl ++ (str1B sv0 ++ (hs0.length :: hdrBytes hs0) ++
        (csumWrite cs0 ++ argsBytes ags0))) := by
    simp [hbufdef, reqBytesOf, tracingWrite, List.append_assoc]
  have hb6 : buf = (pre16 ++ writeUInt8 fl0 ++ writeUInt32BE ttl0 ++ writeUInt32BE s1 ++
      writeUInt32BE s2 ++ writeUInt32BE p1 ++ writeUInt32BE p2 ++ writeUInt32BE t1) ++
      writeUInt32BE t2 ++ (writeUInt8 fl ++ (str1B sv0 ++ (hs0.length :: hdrBytes hs0) ++
        (csumWrite cs0 ++ argsBytes ags0))) := by
    simp [hbufdef, reqBytesOf, tracingWrite, List.append_assoc]
  have hb7 : buf = (pre16 ++ writeUInt8 fl0 ++ writeUInt32BE ttl0 ++ writeUInt32BE s1 ++
      writeUInt32BE s2 ++ writeUInt32BE p1 ++ writeUInt32BE p2 ++ writeUInt32BE t1 ++
      writeUInt32BE t2) ++ (fl % 256) :: (str1B sv0 ++ (hs0.length :: hdrBytes hs0) ++
        (csumWrite cs0 ++ argsBytes ags0)) := by
    simp [hbufdef, reqBytesOf, tracingWrite, writeUInt8, List.append_assoc]
  unfold readTracingValue
  rw [show (freshFrame buf).cache.tracingValue = none from rfl]
  dsimp only [freshFrame]
  rw [if_neg (by omega), hto,
    bufGet32_at buf _ _ s1 h1 hb1 21 (by simp [writeUInt8, writeUInt32BE, h16]),
    bufGet32_at buf _ _ s2 h2 hb2 (21 + 4) (by simp [writeUInt8, writeUInt32BE, h16] <;> omega),
    bufGet32_at buf _ _ p1 h3 hb3 (21 + 8) (by simp [writeUInt8, writeUInt32BE, h16] <;> omega),
    bufGet32_at buf _ _ p2 h4 hb4 (21 + 12) (by simp [writeUInt8, writeUInt32BE, h16] <;> omega),
    bufGet32_at buf _ _ t1 h5 hb5 (21 + 16) (by simp [writeUInt8, writeUInt32BE, h16] <;> omega),
    bufGet32_at buf _ _ t2 h6 hb6 (21 + 20) (by simp [writeUInt8, writeUInt32BE, h16] <;> omega),
    bufGet_at buf _ _ (fl % 256) hb7 (21 + 24) (by simp [writeUInt8, writeUInt32BE, h16] <;> omega),
    Nat.mod_eq_of_lt h7]

/-- A first-match hit is a header entry with exactly the searched
key. -/
theorem firstHeaderValue_mem (key : List Nat) (hs : List (List Nat × List Nat))
    (v : List Nat) : firstHeaderValue key hs = some v → (key, v) ∈ hs := by
  induction hs with
  | nil => intro h; exact absurd h (by simp [firstHeaderValue])
  | cons kv rest ih =>
    obtain ⟨k, w⟩ := kv
    intro h
    rw [firstHeaderValue] at h
    by_cases hk : k = key
    · rw [if_pos hk] at h
      simp only [Option.some.injEq] at h
      simp [hk, h]
    · rw [if_neg hk] at h
      simp [ih h]

/-- The canonical raw decomposition of an encoded request frame. -/
theorem reqBytes_raw_decomp (pre16 : List Nat) (B : CallRequest)
    (hfl : B.flags < 256) :
    pre16 ++ reqBytesOf B = pre16 ++ [B.flags] ++ writeUInt32BE B.ttl ++
      tracingWrite B.tracing ++
      ((utf8Encode B.service).length :: utf8Encode B.service) ++
      ((B.headers.map encPair).length :: rawHdrBytes (B.headers.map encPair)) ++
      (csumWrite B.csum ++ argsBytes B.args) := by
  simp [reqBytesOf, str1B, writeUInt8, Nat.mod_eq_of_lt hfl, hdrBytes_eq_raw,
    List.append_assoc]

/-- readServiceStr on an encoded request frame returns the service. -/
theorem readServiceStr_enc (pre16 : List Nat) (B : CallRequest)
    (hB : WfCallRequest B) (h16 : pre16.length = 16) :
    (readServiceStr (freshFrame (pre16 ++ reqBytesOf B))).1 = some B.service := by
  obtain ⟨hfl, httl0, httl, htr, hsv, hhd, hcs, har, hct⟩ := hB
  rw [readServiceStr_raw pre16 (writeUInt32BE B.ttl) (tracingWrite B.tracing)
      (utf8Encode B.service) (csumWrite B.csum ++ argsBytes B.args) B.flags
      (B.headers.map encPair) (pre16 ++ reqBytesOf B) h16 (by simp [writeUInt32BE])
      (by simp [tracingWrite, writeUInt32BE, writeUInt8])
      (reqBytes_raw_decomp pre16 B hfl),
    utf8_roundtrip B.service hsv.1]

/-- readCallerNameStr on an encoded request frame returns the first cn
header value, or the absent sentinel when there is none or it is
empty. -/
theorem readCallerNameStr_enc (pre16 : List Nat) (B : CallRequest)
    (hB : WfCallRequest B) (h16 : pre16.length = 16) :
    (readCallerNameStr (freshFrame (pre16 ++ reqBytesOf B))).1 =
      (match firstHeaderValue cnKey B.headers with
       | none => none
       | some v => if v = [] then none else some v) := by
  obtain ⟨hfl, httl0, httl, htr, hsv, hhd, hcs, har, hct⟩ := hB
  rw [readCallerNameStr_raw pre16 (writeUInt32BE B.ttl) (tracingWrite B.tracing)
      (utf8Encode B.service) (csumWrite B.csum ++ argsBytes B.args) B.flags
      (B.headers.map encPair) (pre16 ++ reqBytesOf B) h16 (by simp [writeUInt32BE])
      (by simp [tracingWrite, writeUInt32BE, writeUInt8])
      (reqBytes_raw_decomp pre16 B hfl),
    show CN_VALUE = 99 * 256 + 110 from rfl,
    firstValWith_enc B.headers hhd.2 99 110 (by omega) (by omega)]
  rw [show cnKey = [99, 110] from rfl]
  rcases hfv : firstHeaderValue [99, 110] B.headers with _ | v
  · simp
  · have hv : WfStr v :=
      ((hhd.2 ([99, 110], v) (firstHeaderValue_mem [99, 110] B.headers v hfv)).2).1
    simp only [Option.map_some']
    by_cases hvnil : v = []
    · rw [if_pos (by rw [hvnil]; rfl), if_pos hvnil]
    · rw [if_neg (by rw [utf8Encode_eq_nil]; exact hvnil),
        if_neg hvnil, utf8_roundtrip v hv]

/-- readRoutingDelegateStr on an encoded request frame returns the first
rd header value, or the absent sentinel when there is none or it is
empty. -/
theorem readRoutingDelegateStr_enc (pre16 : List Nat) (B : CallRequest)
    (hB : WfCallRequest B) (h16 : pre16.length = 16) :
    (readRoutingDelegateStr (freshFrame (pre16 ++ reqBytesOf B))).1 =
      (match firstHeaderValue rdKey B.headers with
       | none => none
       | some v => if v = [] then none else some v) := by
  obtain ⟨hfl, httl0, httl, htr, hsv, hhd, hcs, har, hct⟩ := hB
  rw [readRoutingDelegateStr_raw pre16 (writeUInt32BE B.ttl) (tracingWrite B.tracing)
      (utf8Encode B.service) (csumWrite B.csum ++ argsBytes B.args) B.flags
      (B.headers.map encPair) (pre16 ++ reqBytesOf B) h16 (by simp [writeUInt32BE])
      (by simp [tracingWrite, writeUInt32BE, writeUInt8])
      (reqBytes_raw_decomp pre16 B hfl),
    show RD_VALUE = 114 * 256 + 100 from rfl,
    firstValWith_enc B.headers hhd.2 114 100 (by omega) (by omega)]
  rw [show rdKey = [114, 100] from rfl]
  rcases hfv : firstHeaderValue [114, 100] B.headers with _ | v
  · simp
  · have hv : WfStr v :=
      ((hhd.2 ([114, 100], v) (firstHeaderValue_mem [114, 100] B.headers v hfv)).2).1
    simp only [Option.map_some']
    by_cases hvnil : v = []
    · rw [if_pos (by rw [hvnil]; rfl), if_pos hvnil]
    · rw [if_neg (by rw [utf8Encode_eq_nil]; exact hvnil),
        if_neg hvnil, utf8_roundtrip v hv]

/-- readArg1Str on an encoded request frame whose args are non-empty
returns the lossy UTF-8 decoding of the first arg. -/
theorem readArg1Str_enc (pre16 : List Nat) (B : CallRequest)
    (hB : WfCallRequest B) (h16 : pre16.length = 16) (a1 : List Nat)
    (rest : List (List Nat)) (hargs : B.args = a1 :: rest) :
    (readArg1Str (freshFrame (pre16 ++ reqBytesOf B))).1 =
      some (utf8DecodeLossy a1) := by
  obtain ⟨hfl, httl0, httl, htr, hsv, hhd, hcs, har, hct⟩ := hB
  have ha1 : a1.length ≤ 65535 := har a1 (by rw [hargs]; simp)
  have hcw : csumWrite B.csum = B.csum.ctype :: (if B.csum.ctype = 0 then []
      else writeUInt32BE B.csum.val) := by
    rcases hcs with ⟨h0, hv0⟩ | ⟨ht, hv⟩
    · simp [csumWrite, h0, writeUInt8]
    · have htne : ¬(B.csum.ctype = 0) := by omega
      have hmod : B.csum.ctype % 256 = B.csum.ctype := by omega
      simp [csumWrite, htne, writeUInt8, hmod]
  have hdig : (if B.csum.ctype = 0 then ([] : List Nat)
      else writeUInt32BE B.csum.val).length = if B.csum.ctype = 0 then 0 else 4 := by
    by_cases h0 : B.csum.ctype = 0
    · rw [if_pos h0, if_pos h0]
      rfl
    · rw [if_neg h0, if_neg h0]
      simp [writeUInt32BE]
  rw [readArg1Str_raw pre16 (writeUInt32BE B.ttl) (tracingWrite B.tracing)
      (utf8Encode B.service)
      (if B.csum.ctype = 0 then [] else writeUInt32BE B.csum.val) a1
      (argsBytes rest) B.flags B.csum.ctype
      (B.headers.map encPair) (pre16 ++ reqBytesOf B) h16 (by simp [writeUInt32BE])
      (by simp [tracingWrite, writeUInt32BE, writeUInt8]) hdig ha1
      (by rw [reqBytes_raw_decomp pre16 B hfl, hargs]
          simp [hcw, argsBytes, argBytes2, List.append_assoc])]

/-- C2 (amended): lazy vs structured equivalence.  For every frame
holding a validly encoded CallRequest body (16 framing bytes then the
encoding), the structured decode recovers the body, and readTTL,
readTracingValue, readServiceStr agree with the decoded ttl, tracing and
service; readCallerNameStr (resp. readRoutingDelegateStr) returns the
value of the first "cn" (resp. "rd") header except that an empty first
value yields the absent sentinel, and the sentinel when no such header
exists; readArg1Str returns the UTF-8 decoding of args[0] when args is
non-empty. -/
theorem c2_lazy_vs_structured (B : CallRequest) (pre16 : List Nat)
    (hB : WfCallRequest B) (h16 : pre16.length = 16) :
    readCallReqFrom (reqBytesOf B) 0 = .ok (B, (reqBytesOf B).length) ∧
    (readTTL (freshFrame (pre16 ++ reqBytesOf B))).1 = B.ttl ∧
    (readTracingValue (freshFrame (pre16 ++ reqBytesOf B))).1 = some B.tracing ∧
    (readServiceStr (freshFrame (pre16 ++ reqBytesOf B))).1 = some B.service ∧
    (readCallerNameStr (freshFrame (pre16 ++ reqBytesOf B))).1 =
      (match firstHeaderValue cnKey B.headers with
       | none => none
       | some v => if v = [] then none else some v) ∧
    (readRoutingDelegateStr (freshFrame (pre16 ++ reqBytesOf B))).1 =
      (match firstHeaderValue rdKey B.headers with
       | none => none
       | some v => if v = [] then none else some v) ∧
    (∀ a1 rest, B.args = a1 :: rest →
      (readArg1Str (freshFrame (pre16 ++ reqBytesOf B))).1 =
        some (utf8DecodeLossy a1)) :=
  ⟨readCallReqFrom_reqBytes B hB, readTTL_enc pre16 B hB h16,
    readTracingValue_enc pre16 B hB h16, readServiceStr_enc pre16 B hB h16,
    readCallerNameStr_enc pre16 B hB h16, readRoutingDelegateStr_enc pre16 B hB h16,
    fun a1 rest h => readArg1Str_enc pre16 B hB h16 a1 rest h⟩

/-- Witness for the amended C2 at a concrete body and framing prefix. -/
theorem c2_lazy_vs_structured_witness :
    readCallReqFrom (reqBytesOf sampleReq) 0 =
      .ok (sampleReq, (reqBytesOf sampleReq).length) ∧
    (readTTL (freshFrame (List.replicate 16 0 ++ reqBytesOf sampleReq))).1 =
      sampleReq.ttl ∧
    (readTracingValue (freshFrame (List.replicate 16 0 ++ reqBytesOf sampleReq))).1 =
      some sampleReq.tracing ∧
    (readServiceStr (freshFrame (List.replicate 16 0 ++ reqBytesOf sampleReq))).1 =
      some sampleReq.service ∧
    (readCallerNameStr (freshFrame (List.replicate 16 0 ++ reqBytesOf sampleReq))).1 =
      (match firstHeaderValue cnKey sampleReq.headers with
       | none => none
       | some v => if v = [] then none else some v) ∧
    (readRoutingDelegateStr (freshFrame (List.replicate 16 0 ++ reqBytesOf sampleReq))).1 =
      (match firstHeaderValue rdKey sampleReq.headers with
       | none => none
       | some v => if v = [] then none else some v) ∧
    (∀ a1 rest, sampleReq.args = a1 :: rest →
      (readArg1Str (freshFrame (List.replicate 16 0 ++ reqBytesOf sampleReq))).1 =
        some (utf8DecodeLossy a1)) :=
  c2_lazy_vs_structured sampleReq (List.replicate 16 0) (by decide) (by decide)

/-- A well-formed request whose only cn header has the empty value. -/
def c2B0 : CallRequest :=
  ⟨0, 1, zeroTracing, [115], [([99, 110], [])], ⟨0, 0⟩, [[120]], false⟩

/-- Counterexample to C2 as stated: a valid frame in which the first
"cn" header exists with the empty value; readCallerNameStr returns the
absent sentinel rather than that value (JS `if (!callerNameStr)` treats
the empty string as absent). -/
theorem c2_counterexample :
    writeCallReqInto c2B0 = .ok (reqBytesOf c2B0) ∧
    readCallReqFrom (reqBytesOf c2B0) 0 = .ok (c2B0, (reqBytesOf c2B0).length) ∧
    firstHeaderValue cnKey c2B0.headers = some [] ∧
    (readCallerNameStr (freshFrame (List.replicate 16 0 ++ reqBytesOf c2B0))).1 =
      none ∧
    ¬((readCallerNameStr (freshFrame (List.replicate 16 0 ++ reqBytesOf c2B0))).1 =
      some []) := by
  refine ⟨by decide, by decide, by decide, by decide, by decide⟩

/-- C5 (amended): header-scan first match wins.  With two or more
headers keyed "cn" (resp. "rd"), the accessor returns the value of the
first such header provided that value is non-empty; an empty first value
yields the absent sentinel, and later matches are skipped either way. -/
theorem c5_header_scan_first_match (B : CallRequest) (pre16 : List Nat)
    (hB : WfCallRequest B) (h16 : pre16.length = 16) :
    (∀ v, 2 ≤ B.headers.countP (fun kv => decide (kv.1 = cnKey)) →
      firstHeaderValue cnKey B.headers = some v → v ≠ [] →
      (readCallerNameStr (freshFrame (pre16 ++ reqBytesOf B))).1 = some v) ∧
    (∀ v, 2 ≤ B.headers.countP (fun kv => decide (kv.1 = rdKey)) →
      firstHeaderValue rdKey B.headers = some v → v ≠ [] →
      (readRoutingDelegateStr (freshFrame (pre16 ++ reqBytesOf B))).1 = some v) := by
  constructor
  · intro v hcount hfv hv
    rw [readCallerNameStr_enc pre16 B hB h16, hfv]
    dsimp only
    rw [if_neg hv]
  · intro v hcount hfv hv
    rw [readRoutingDelegateStr_enc pre16 B hB h16, hfv]
    dsimp only
    rw [if_neg hv]

/-- A well-formed request with two cn headers, the first non-empty. -/
def c5B1 : CallRequest :=
  ⟨0, 1, zeroTracing, [115],
    [([99, 110], [102, 105, 114, 115, 116]), ([99, 110], [115, 101, 99]),
      ([114, 100], [97]), ([114, 100], [98])],
    ⟨0, 0⟩, [[120]], false⟩

/-- Witness for the amended C5: duplicate cn and rd headers; the first
value is returned for each. -/
theorem c5_header_scan_first_match_witness :
    (∀ v, 2 ≤ c5B1.headers.countP (fun kv => decide (kv.1 = cnKey)) →
      firstHeaderValue cnKey c5B1.headers = some v → v ≠ [] →
      (readCallerNameStr (freshFrame (List.replicate 16 0 ++ reqBytesOf c5B1))).1 =
        some v) ∧
    (∀ v, 2 ≤ c5B1.headers.countP (fun kv => decide (kv.1 = rdKey)) →
      firstHeaderValue rdKey c5B1.headers = some v → v ≠ [] →
      (readRoutingDelegateStr (freshFrame (List.replicate 16 0 ++ reqBytesOf c5B1))).1 =
        some v) :=
  c5_header_scan_first_match c5B1 (List.replicate 16 0) (by decide) (by decide)

/-- A well-formed request with two cn headers whose first value is
empty. -/
def c5B0 : CallRequest :=
  ⟨0, 1, zeroTracing, [115], [([99, 110], []), ([99, 110], [120])],
    ⟨0, 0⟩, [[120]], false⟩

/-- Counterexample to C5 as stated: two cn headers, but the first value
is the empty string, and readCallerNameStr returns the absent sentinel
instead of it (while still skipping the second match). -/
theorem c5_counterexample :
    writeCallReqInto c5B0 = .ok (reqBytesOf c5B0) ∧
    2 ≤ c5B0.headers.countP (fun kv => decide (kv.1 = cnKey)) ∧
    firstHeaderValue cnKey c5B0.headers = some [] ∧
    (readCallerNameStr (freshFrame (List.replicate 16 0 ++ reqBytesOf c5B0))).1 =
      none ∧
    ¬((readCallerNameStr (freshFrame (List.replicate 16 0 ++ reqBytesOf c5B0))).1 =
      some []) := by
  refine ⟨by decide, by decide, by decide, by decide, by decide⟩

/-- C9 (amended): the lazy string accessors never produce a UTF-8 error
(their result type has no error outcome); invalid byte sequences are
decoded lossily into U+FFFD by fastBufferToString, and the accessors
return the resulting string computed from exactly the field's bytes. -/
theorem c9_invalid_utf8_lossy (pre16 ttlB trB svcB dig a1 argrest : List Nat)
    (fl ct : Nat) (hs : List (List Nat × List Nat)) (buf : List Nat)
    (h16 : pre16.length = 16) (h4 : ttlB.length = 4) (h25 : trB.length = 25)
    (hdig : dig.length = if ct = 0 then 0 else 4) (ha1 : a1.length ≤ 65535)
    (hbuf : buf = pre16 ++ [fl] ++ ttlB ++ trB ++ (svcB.length :: svcB) ++
      (hs.length :: rawHdrBytes hs) ++
      ((ct :: dig) ++ (writeUInt16BE a1.length ++ (a1 ++ argrest)))) :
    (readServiceStr (freshFrame buf)).1 = some (utf8DecodeLossy svcB) ∧
    (∀ v, firstValWith CN_VALUE hs = some v → v ≠ [] →
      (readCallerNameStr (freshFrame buf)).1 = some (utf8DecodeLossy v)) ∧
    (∀ v, firstValWith RD_VALUE hs = some v → v ≠ [] →
      (readRoutingDelegateStr (freshFrame buf)).1 = some (utf8DecodeLossy v)) ∧
    (readArg1Str (freshFrame buf)).1 = some (utf8DecodeLossy a1) := by
  refine ⟨readServiceStr_raw pre16 ttlB trB svcB _ fl hs buf h16 h4 h25 hbuf,
    ?_, ?_, readArg1Str_raw pre16 ttlB trB svcB dig a1 argrest fl ct hs buf
      h16 h4 h25 hdig ha1 hbuf⟩
  · intro v hfv hv
    rw [readCallerNameStr_raw pre16 ttlB trB svcB _ fl hs buf h16 h4 h25 hbuf, hfv]
    dsimp only
    rw [if_neg hv]
  · intro v hfv hv
    rw [readRoutingDelegateStr_raw pre16 ttlB trB svcB _ fl hs buf h16 h4 h25 hbuf, hfv]
    dsimp only
    rw [if_neg hv]

/-- A frame whose service, cn value and first arg are each the invalid
UTF-8 byte 0xFF. -/
def c9buf : List Nat :=
  List.replicate 16 0 ++ [0] ++ [0, 0, 9, 196] ++ List.replicate 25 0 ++
    [1, 255] ++ [1, 2, 99, 110, 1, 255] ++ [0] ++ [0, 1, 255]

/-- Counterexample to C9 as stated: on invalid UTF-8 field bytes the
lazy accessors return a string containing U+FFFD (65533); they do not
fail with an InvalidUtf8 error (no such outcome exists in the code
path - Node buffer.toString is lossy). -/
theorem c9_counterexample :
    (readServiceStr (freshFrame c9buf)).1 = some [65533] ∧
    (readCallerNameStr (freshFrame c9buf)).1 = some [65533] ∧
    (readArg1Str (freshFrame c9buf)).1 = some [65533] := by
  refine ⟨by decide, by decide, by decide⟩

/-- Witness for the amended C9 at the same concrete frame. -/
theorem c9_invalid_utf8_lossy_witness :
    (readServiceStr (freshFrame c9buf)).1 = some (utf8DecodeLossy [255]) ∧
    (∀ v, firstValWith CN_VALUE [([99, 110], [255])] = some v → v ≠ [] →
      (readCallerNameStr (freshFrame c9buf)).1 = some (utf8DecodeLossy v)) ∧
    (∀ v, firstValWith RD_VALUE [([99, 110], [255])] = some v → v ≠ [] →
      (readRoutingDelegateStr (freshFrame c9buf)).1 = some (utf8DecodeLossy v)) ∧
    (readArg1Str (freshFrame c9buf)).1 = some (utf8DecodeLossy [255]) :=
  c9_invalid_utf8_lossy (List.replicate 16 0) [0, 0, 9, 196] (List.replicate 25 0)
    [255] [] [255] [] 0 0 [([99, 110], [255])] c9buf
    (by decide) (by decide) (by decide) (by decide) (by decide) (by decide)

/-- C8: deferred flags write.  The structured CallRequest and
CallResponse writers reserve the flags byte at the start position, write
all other fields including checksum and args (during which the Fragment
bit of body.flags may be set by the args codec when a continuation is
attached), and only then write the final flags value into the reserved
start byte: the encoded frame's first byte is the post-args flags value,
reflecting any Fragment-bit mutation. -/
theorem c8_deferred_flags_write :
    (∀ (B : CallRequest) (bytes : List Nat), writeCallReqInto B = .ok bytes →
      bytes.getD 0 0 =
        (if B.cont then B.flags ||| CallFlagsFragment else B.flags) % 256) ∧
    (∀ (B : CallResponse) (bytes : List Nat), writeCallResInto B = .ok bytes →
      bytes.getD 0 0 =
        (if B.cont then B.flags ||| CallFlagsFragment else B.flags) % 256) := by
  constructor
  · intro B bytes h
    unfold writeCallReqInto at h
    split at h
    · exact absurd h (by simp)
    · rcases hsv : str1Write B.service with e | serviceB
      · rw [hsv] at h
        exact absurd h (by simp)
      rw [hsv] at h
      dsimp only at h
      rcases hhd : header1Write B.headers with e | headersB
      · rw [hhd] at h
        exact absurd h (by simp)
      rw [hhd] at h
      dsimp only at h
      rcases haw : argsWriteInto B.flags B.cont B.csum B.args with e | pr
      · rw [haw] at h
        exact absurd h (by simp)
      obtain ⟨argsB, flags2⟩ := pr
      rw [haw] at h
      dsimp only at h
      have hb : bytes = writeUInt8 flags2 ++ (writeUInt32BE B.ttl ++
          tracingWrite B.tracing ++ serviceB ++ headersB ++ argsB) := by
        simp only [Except.ok.injEq] at h
        rw [← h]
        simp [List.append_assoc]
      have hf2 : flags2 = if B.cont then B.flags ||| CallFlagsFragment else B.flags := by
        unfold argsWriteInto at haw
        rcases hal : writeArgsLoop B.args with e | ab
        · rw [hal] at haw
          exact absurd haw (by simp)
        · rw [hal] at haw
          dsimp only at haw
          simp only [Except.ok.injEq, Prod.mk.injEq] at haw
          exact haw.2.symm
      rw [hb, hf2]
      simp [writeUInt8]
  · intro B bytes h
    unfold writeCallResInto at h
    rcases hhd : header1Write B.headers with e | headersB
    · rw [hhd] at h
      exact absurd h (by simp)
    rw [hhd] at h
    dsimp only at h
    rcases haw : argsWriteInto B.flags B.cont B.csum B.args with e | pr
    · rw [haw] at h
      exact absurd h (by simp)
    obtain ⟨argsB, flags2⟩ := pr
    rw [haw] at h
    dsimp only at h
    have hb : bytes = writeUInt8 flags2 ++ (writeUInt8 B.code ++
        tracingWrite B.tracing ++ headersB ++ argsB) := by
      simp only [Except.ok.injEq] at h
      rw [← h]
      simp [List.append_assoc]
    have hf2 : flags2 = if B.cont then B.flags ||| CallFlagsFragment else B.flags := by
      unfold argsWriteInto at haw
      rcases hal : writeArgsLoop B.args with e | ab
      · rw [hal] at haw
        exact absurd haw (by simp)
      · rw [hal] at haw
        dsimp only at haw
        simp only [Except.ok.injEq, Prod.mk.injEq] at haw
        exact haw.2.symm
    rw [hb, hf2]
    simp [writeUInt8]

/-- A request body with a continuation attached (Fragment bit must end
up set in the written frame although body.flags is 0). -/
def c8req : CallRequest := ⟨0, 1, zeroTracing, [], [], ⟨0, 0⟩, [], true⟩

/-- A response body with a continuation attached and flags bit 1
already set. -/
def c8res : CallResponse := ⟨2, 1, zeroTracing, [], ⟨0, 0⟩, [], true⟩

/-- Witness for C8: concrete fragmented bodies; the first written byte
carries the Fragment bit set during args writing. -/
theorem c8_deferred_flags_write_witness :
    ([1, 0, 0, 0, 1] ++ List.replicate 25 0 ++ [0, 0, 0]).getD 0 0 =
      (if c8req.cont then c8req.flags ||| CallFlagsFragment else c8req.flags) % 256 ∧
    ([3, 1] ++ List.replicate 25 0 ++ [0, 0]).getD 0 0 =
      (if c8res.cont then c8res.flags ||| CallFlagsFragment else c8res.flags) % 256 :=
  ⟨c8_deferred_flags_write.1 c8req ([1, 0, 0, 0, 1] ++ List.replicate 25 0 ++ [0, 0, 0])
      (by decide),
    c8_deferred_flags_write.2 c8res ([3, 1] ++ List.replicate 25 0 ++ [0, 0])
      (by decide)⟩

/-! ### Permissions cache (src/hyperbahn/permissions_cache.js) -/

/-- Modelled from the spec: the cache capability set {get, set} of the
lru-cache dependency the PermissionsCache inherits from, as an unbounded
association list (spec section 9 recommends exactly this composition). -/
def PermCache : Type := List (String × Int)

/-- Modelled from the spec: LRUCache.prototype.get. -/
def cacheGet : PermCache → String → Option Int
  | [], _ => none
  | (k', v) :: rest, k => if k' = k then some v else cacheGet rest k

/-- Modelled from the spec: LRUCache.prototype.set (replace or
append). -/
def cacheSet : PermCache → String → Int → PermCache
  | [], k, v => [(k, v)]
  | (k', v') :: rest, k, v =>
    if k' = k then (k, v) :: rest else (k', v') :: cacheSet rest k v

/-- A stat event as consumed by increment: name, type and the two tags
it reads (tags['calling-service'] and tags.service). -/
structure StatEvent where
  name : String
  type : String
  callingService : String
  service : String
deriving DecidableEq, Repr

/-- createCallsKey (src lines 85-87). -/
def createCallsKey (caller callee : String) : String :=
  caller ++ "_" ++ callee

/-- NUM_TOKENS (src line 29). -/
def NUM_TOKENS : Int := 100

/-- initializeTokenBucket (src lines 73-83): sets the key to NUM_TOKENS
(the periodic interval that refills the bucket is out of the embedded
state). -/
def initializeTokenBucket (c : PermCache) (key : String) : PermCache :=
  cacheSet c key NUM_TOKENS

/-- PermissionsCache.prototype.increment (src lines 57-71): on an
inbound-calls-received counter stat, decrement the caller_callee entry,
initializing it to NUM_TOKENS first when absent; otherwise do
nothing. -/
def increment (stat : StatEvent) (c : PermCache) : PermCache :=
  if stat.name = "inbound.calls.recvd" ∧ stat.type = "counter" then
    let key := createCallsKey stat.callingService stat.service
    match cacheGet c key with
    | some tokens => cacheSet c key (tokens - 1)
    | none =>
      let c1 := initializeTokenBucket c key
      let tokens := (cacheGet c1 key).getD 0
      cacheSet c1 key (tokens - 1)
  else c

/-- Reading the key just set. -/
theorem cacheGet_set_self (c : PermCache) (k : String) (v : Int) :
    cacheGet (cacheSet c k v) k = some v := by
  induction c with
  | nil => simp [cacheSet, cacheGet]
  | cons kv rest ih =>
    obtain ⟨k', v'⟩ := kv
    by_cases hk : k' = k
    · simp [cacheSet, cacheGet, hk]
    · simp [cacheSet, cacheGet, hk, ih]

/-- Reading another key after a set. -/
theorem cacheGet_set_other (c : PermCache) (k k' : String) (v : Int)
    (hne : k' ≠ k) : cacheGet (cacheSet c k v) k' = cacheGet c k' := by
  have hne' : ¬(k = k') := fun h => hne h.symm
  induction c with
  | nil => simp [cacheSet, cacheGet, hne']
  | cons kv rest ih =>
    obtain ⟨k0, v0⟩ := kv
    by_cases hk : k0 = k
    · subst hk
      simp [cacheSet, cacheGet, hne']
    · by_cases hk' : k0 = k'
      · simp [cacheSet, cacheGet, hk, hk', hne', hne]
      · simp [cacheSet, cacheGet, hk, hk', ih]

/-- C10: permissions cache observation.  increment mutates the cache
only for a stat named 'inbound.calls.recvd' of type 'counter'; in that
case the entry at key caller_callee is decremented by exactly one, after
being initialized to 100 tokens when absent, and no other entry changes;
for every other stat event the cache is unchanged. -/
theorem c10_permissions_cache (stat : StatEvent) (c : PermCache) :
    (¬(stat.name = "inbound.calls.recvd" ∧ stat.type = "counter") →
      increment stat c = c) ∧
    (stat.name = "inbound.calls.recvd" ∧ stat.type = "counter" →
      cacheGet (increment stat c) (createCallsKey stat.callingService stat.service) =
        some ((cacheGet c (createCallsKey stat.callingService stat.service)).getD
          NUM_TOKENS - 1) ∧
      ∀ k', k' ≠ createCallsKey stat.callingService stat.service →
        cacheGet (increment stat c) k' = cacheGet c k') := by
  constructor
  · intro h
    unfold increment
    rw [if_neg h]
  · intro h
    unfold increment
    rw [if_pos h]
    dsimp only
    rcases hg : cacheGet c (createCallsKey stat.callingService stat.service) with _ | t
    · constructor
      · simp [initializeTokenBucket, cacheGet_set_self, NUM_TOKENS]
      · intro k' hk
        simp [initializeTokenBucket, cacheGet_set_other _ _ _ _ hk]
    · constructor
      · simp [cacheGet_set_self]
      · intro k' hk
        simp [cacheGet_set_other _ _ _ _ hk]

/-- Witness for C10: a non-matching stat leaves the cache unchanged; a
matching stat decrements the existing entry and leaves other keys
alone. -/
theorem c10_permissions_cache_witness :
    increment ⟨"outbound.calls.sent", "counter", "a", "b"⟩ [("a_b", 5)] =
      [("a_b", 5)] ∧
    cacheGet (increment ⟨"inbound.calls.recvd", "counter", "a", "b"⟩ [("a_b", 5)])
      (createCallsKey "a" "b") =
      some ((cacheGet [("a_b", 5)] (createCallsKey "a" "b")).getD NUM_TOKENS - 1) ∧
    cacheGet (increment ⟨"inbound.calls.recvd", "counter", "a", "b"⟩ [("a_b", 5)])
      "zzz" = cacheGet [("a_b", 5)] "zzz" :=
  ⟨(c10_permissions_cache ⟨"outbound.calls.sent", "counter", "a", "b"⟩
      [("a_b", 5)]).1 (by decide),
    ((c10_permissions_cache ⟨"inbound.calls.recvd", "counter", "a", "b"⟩
      [("a_b", 5)]).2 (by decide)).1,
    ((c10_permissions_cache ⟨"inbound.calls.recvd", "counter", "a", "b"⟩
      [("a_b", 5)]).2 (by decide)).2 "zzz" (by decide)⟩

/-! ### Frame-state lemmas for idempotence, truncation safety and the
cache invariant -/

/-- Second readTTL call returns the same value. -/
theorem readTTL_idem (f : Frame) : (readTTL (readTTL f).2).1 = (readTTL f).1 := by
  unfold readTTL
  rcases hc : f.cache.ttlValue with _ | v
  · by_cases hsz : f.size < ttlOffset + 4
    · simp [hc, hsz]
    · simp [hc, hsz]
  · simp [hc]

/-- Second readTracingValue call returns the same value. -/
theorem readTracingValue_idem (f : Frame) :
    (readTracingValue (readTracingValue f).2).1 = (readTracingValue f).1 := by
  unfold readTracingValue
  rcases hc : f.cache.tracingValue with _ | t
  · by_cases hsz : f.size < tracingOffset + 25
    · simp [hc, hsz]
    · simp [hc, hsz]
  · simp [hc]

/-- Second readServiceStr call returns the same value. -/
theorem readServiceStr_idem (f : Frame) :
    (readServiceStr (readServiceStr f).2).1 = (readServiceStr f).1 := by
  unfold readServiceStr findHeaderStartOffset
  rcases hc : f.cache.serviceStr with _ | s
  · by_cases h1 : truthyOff f.cache.headerStartOffset
    · by_cases h2 : f.cache.headerStartOffset.getD 0 = 0
      · simp [hc, h1, h2]
      · by_cases h3 : f.size < f.cache.headerStartOffset.getD 0
        · simp [hc, h1, h2, h3]
        · simp [hc, h1, h2, h3]
    · by_cases h2 : f.size < serviceOffset + 1
      · simp [hc, h1, h2]
      · by_cases h3 : serviceOffset + bufGet f.buffer serviceOffset + 1 = 0
        · omega
        · have hT : truthyOff (some (serviceOffset + bufGet f.buffer serviceOffset + 1)) =
              true := by
            simp [truthyOff]
          by_cases h4 : f.size < serviceOffset + bufGet f.buffer serviceOffset + 1
          · simp [hc, h1, h2, h3, h4, hT]
          · simp [hc, h1, h2, h3, h4, hT]
  · simp [hc]

/-- Second readCallerNameStr call returns the same value. -/
theorem readCallerNameStr_idem (f : Frame) :
    (readCallerNameStr (readCallerNameStr f).2).1 = (readCallerNameStr f).1 := by
  unfold readCallerNameStr scanAndSkipHeaders findHeaderStartOffset readUInt8String
  rcases hc : f.cache.callerNameStr with _ | s
  · rcases hcn : f.cache.cnValueOffset with _ | x
    · by_cases h1 : truthyOff f.cache.headerStartOffset
      · by_cases h0 : f.cache.headerStartOffset.getD 0 = 0
        · simp [hc, hcn, h1, h0]
        · by_cases h2 : f.size < f.cache.headerStartOffset.getD 0 + 1
          · simp [hc, hcn, h1, h0, h2]
          · rcases hsl : scanLoop f.buffer f.size
                (bufGet f.buffer (f.cache.headerStartOffset.getD 0))
                (f.cache.headerStartOffset.getD 0 + 1) 0 0 with _ | r
            · simp [hc, hcn, h1, h0, h2, hsl]
            · obtain ⟨cn, rd, e⟩ := r
              by_cases hcn0 : cn = 0
              · simp [hc, hcn, h1, h0, h2, hsl, hcn0]
              · by_cases hq1 : f.size < cn + 1
                · simp [hc, hcn, h1, h0, h2, hsl, hcn0, hq1]
                · by_cases hq2 : f.size < cn + 1 + bufGet f.buffer cn
                  · simp [hc, hcn, h1, h0, h2, hsl, hcn0, hq1, hq2]
                  · by_cases hs : fastBufferToString f.buffer (cn + 1)
                        (cn + 1 + bufGet f.buffer cn) = []
                    · simp [hc, hcn, h1, h0, h2, hsl, hcn0, hq1, hq2, hs]
                    · simp [hc, hcn, h1, h0, h2, hsl, hcn0, hq1, hq2, hs]
      · by_cases h2 : f.size < serviceOffset + 1
        · simp [hc, hcn, h1, h2]
        · have hT : truthyOff (some (serviceOffset + bufGet f.buffer serviceOffset + 1)) =
              true := by
            simp [truthyOff]
          have hX0 : ¬(serviceOffset + bufGet f.buffer serviceOffset + 1 = 0) := by
            omega
          by_cases h3 : f.size < serviceOffset + bufGet f.buffer serviceOffset + 1 + 1
          · simp [hc, hcn, h1, h2, hT, hX0, h3]
          · rcases hsl : scanLoop f.buffer f.size
                (bufGet f.buffer (serviceOffset + bufGet f.buffer serviceOffset + 1))
                (serviceOffset + bufGet f.buffer serviceOffset + 1 + 1) 0 0 with _ | r
            · simp [hc, hcn, h1, h2, hT, hX0, h3, hsl]
            · obtain ⟨cn, rd, e⟩ := r
              by_cases hcn0 : cn = 0
              · simp [hc, hcn, h1, h2, hT, hX0, h3, hsl, hcn0]
              · by_cases hq1 : f.size < cn + 1
                · simp [hc, hcn, h1, h2, hT, hX0, h3, hsl, hcn0, hq1]
                · by_cases hq2 : f.size < cn + 1 + bufGet f.buffer cn
                  · simp [hc, hcn, h1, h2, hT, hX0, h3, hsl, hcn0, hq1, hq2]
                  · by_cases hs : fastBufferToString f.buffer (cn + 1)
                        (cn + 1 + bufGet f.buffer cn) = []
                    · simp [hc, hcn, h1, h2, hT, hX0, h3, hsl, hcn0, hq1, hq2, hs]
                    · simp [hc, hcn, h1, h2, hT, hX0, h3, hsl, hcn0, hq1, hq2, hs]
    · by_cases hx : x = 0
      · simp [hc, hcn, hx]
      · by_cases hq1 : f.size < x + 1
        · simp [hc, hcn, hx, hq1]
        · by_cases hq2 : f.size < x + 1 + bufGet f.buffer x
          · simp [hc, hcn, hx, hq1, hq2]
          · by_cases hs : fastBufferToString f.buffer (x + 1)
                (x + 1 + bufGet f.buffer x) = []
            · simp [hc, hcn, hx, hq1, hq2, hs]
            · simp [hc, hcn, hx, hq1, hq2, hs]
  · simp [hc]

/-- Second readRoutingDelegateStr call returns the same value. -/
theorem readRoutingDelegateStr_idem (f : Frame) :
    (readRoutingDelegateStr (readRoutingDelegateStr f).2).1 =
      (readRoutingDelegateStr f).1 := by
  unfold readRoutingDelegateStr scanAndSkipHeaders findHeaderStartOffset readUInt8String
  rcases hc : f.cache.routingDelegateStr with _ | s
  · rcases hrd : f.cache.rdValueOffset with _ | x
    · by_cases h1 : truthyOff f.cache.headerStartOffset
      · by_cases h0 : f.cache.headerStartOffset.getD 0 = 0
        · simp [hc, hrd, h1, h0]
        · by_cases h2 : f.size < f.cache.headerStartOffset.getD 0 + 1
          · simp [hc, hrd, h1, h0, h2]
          · rcases hsl : scanLoop f.buffer f.size
                (bufGet f.buffer (f.cache.headerStartOffset.getD 0))
                (f.cache.headerStartOffset.getD 0 + 1) 0 0 with _ | r
            · simp [hc, hrd, h1, h0, h2, hsl]
            · obtain ⟨cn, rd, e⟩ := r
              by_cases hrd0 : rd = 0
              · simp [hc, hrd, h1, h0, h2, hsl, hrd0]
              · by_cases hq1 : f.size < rd + 1
                · simp [hc, hrd, h1, h0, h2, hsl, hrd0, hq1]
                · by_cases hq2 : f.size < rd + 1 + bufGet f.buffer rd
                  · simp [hc, hrd, h1, h0, h2, hsl, hrd0, hq1, hq2]
                  · by_cases hs : fastBufferToString f.buffer (rd + 1)
                        (rd + 1 + bufGet f.buffer rd) = []
                    · simp [hc, hrd, h1, h0, h2, hsl, hrd0, hq1, hq2, hs]
                    · simp [hc, hrd, h1, h0, h2, hsl, hrd0, hq1, hq2, hs]
      · by_cases h2 : f.size < serviceOffset + 1
        · simp [hc, hrd, h1, h2]
        · have hT : truthyOff (some (serviceOffset + bufGet f.buffer serviceOffset + 1)) =
              true := by
            simp [truthyOff]
          have hX0 : ¬(serviceOffset + bufGet f.buffer serviceOffset + 1 = 0) := by
            omega
          by_cases h3 : f.size < serviceOffset + bufGet f.buffer serviceOffset + 1 + 1
          · simp [hc, hrd, h1, h2, hT, hX0, h3]
          · rcases hsl : scanLoop f.buffer f.size
                (bufGet f.buffer (serviceOffset + bufGet f.buffer serviceOffset + 1))
                (serviceOffset + bufGet f.buffer serviceOffset + 1 + 1) 0 0 with _ | r
            · simp [hc, hrd, h1, h2, hT, hX0, h3, hsl]
            · obtain ⟨cn, rd, e⟩ := r
              by_cases hrd0 : rd = 0
              · simp [hc, hrd, h1, h2, hT, hX0, h3, hsl, hrd0]
              · by_cases hq1 : f.size < rd + 1
                · simp [hc, hrd, h1, h2, hT, hX0, h3, hsl, hrd0, hq1]
                · by_cases hq2 : f.size < rd + 1 + bufGet f.buffer rd
                  · simp [hc, hrd, h1, h2, hT, hX0, h3, hsl, hrd0, hq1, hq2]
                  · by_cases hs : fastBufferToString f.buffer (rd + 1)
                        (rd + 1 + bufGet f.buffer rd) = []
                    · simp [hc, hrd, h1, h2, hT, hX0, h3, hsl, hrd0, hq1, hq2, hs]
                    · simp [hc, hrd, h1, h2, hT, hX0, h3, hsl, hrd0, hq1, hq2, hs]
    · by_cases hx : x = 0
      · simp [hc, hrd, hx]
      · by_cases hq1 : f.size < x + 1
        · simp [hc, hrd, hx, hq1]
        · by_cases hq2 : f.size < x + 1 + bufGet f.buffer x
          · simp [hc, hrd, hx, hq1, hq2]
          · by_cases hs : fastBufferToString f.buffer (x + 1)
                (x + 1 + bufGet f.buffer x) = []
            · simp [hc, hrd, hx, hq1, hq2, hs]
            · simp [hc, hrd, hx, hq1, hq2, hs]
  · simp [hc]

/-- Second readArg1Str call returns the same value. -/
theorem readArg1Str_idem (f : Frame) :
    (readArg1Str (readArg1Str f).2).1 = (readArg1Str f).1 := by
  unfold readArg1Str scanAndSkipHeaders findHeaderStartOffset
  rcases hc : f.cache.arg1Str with _ | s
  · by_cases ht : truthyOff f.cache.csumStartOffset = false
    · by_cases h1 : truthyOff f.cache.headerStartOffset
      · by_cases h0 : f.cache.headerStartOffset.getD 0 = 0
        · simp [hc, ht, h1, h0]
        · by_cases h2 : f.size < f.cache.headerStartOffset.getD 0 + 1
          · simp [hc, ht, h1, h0, h2]
          · rcases hsl : scanLoop f.buffer f.size
                (bufGet f.buffer (f.cache.headerStartOffset.getD 0))
                (f.cache.headerStartOffset.getD 0 + 1) 0 0 with _ | r
            · simp [hc, ht, h1, h0, h2, hsl]
            · obtain ⟨cn, rd, e⟩ := r
              by_cases he0 : e = 0
              · have hTe : truthyOff (some e) = false := by
                  rw [he0]
                  rfl
                subst he0
                by_cases hq1 : f.size < 0 + 1
                · simp [hc, ht, h1, h0, h2, hsl, hTe, hq1]
                · by_cases hct : bufGet f.buffer (0) = 0
                  · by_cases hq2 : f.size < 0 + 1 + 2
                    · simp [hc, ht, h1, h0, h2, hsl, hTe, hq1, hct, hq2]
                    · by_cases hq3 : f.size < 0 + 1 + 2 + bufGet16 f.buffer (0 + 1)
                      · simp [hc, ht, h1, h0, h2, hsl, hTe, hq1, hct, hq2, hq3]
                      · simp [hc, ht, h1, h0, h2, hsl, hTe, hq1, hct, hq2, hq3]
                  · have how : offsetWidth (bufGet f.buffer (0)) = 4 := by
                      simp [offsetWidth, hct]
                    by_cases hq2 : f.size < 0 + 1 + 4 + 2
                    · simp [hc, ht, h1, h0, h2, hsl, hTe, hq1, hct, how, hq2]
                    · by_cases hq3 : f.size < 0 + 1 + 4 + 2 + bufGet16 f.buffer (0 + 1 + 4)
                      · simp [hc, ht, h1, h0, h2, hsl, hTe, hq1, hct, how, hq2, hq3]
                      · simp [hc, ht, h1, h0, h2, hsl, hTe, hq1, hct, how, hq2, hq3]
              · have hTe : truthyOff (some e) = true := by
                  simp [truthyOff, he0]
                by_cases hq1 : f.size < e + 1
                · simp [hc, ht, h1, h0, h2, hsl, he0, hTe, hq1]
                · by_cases hct : bufGet f.buffer (e) = 0
                  · by_cases hq2 : f.size < e + 1 + 2
                    · simp [hc, ht, h1, h0, h2, hsl, he0, hTe, hq1, hct, hq2]
                    · by_cases hq3 : f.size < e + 1 + 2 + bufGet16 f.buffer (e + 1)
                      · simp [hc, ht, h1, h0, h2, hsl, he0, hTe, hq1, hct, hq2, hq3]
                      · simp [hc, ht, h1, h0, h2, hsl, he0, hTe, hq1, hct, hq2, hq3]
                  · have how : offsetWidth (bufGet f.buffer (e)) = 4 := by
                      simp [offsetWidth, hct]
                    by_cases hq2 : f.size < e + 1 + 4 + 2
                    · simp [hc, ht, h1, h0, h2, hsl, he0, hTe, hq1, hct, how, hq2]
                    · by_cases hq3 : f.size < e + 1 + 4 + 2 + bufGet16 f.buffer (e + 1 + 4)
                      · simp [hc, ht, h1, h0, h2, hsl, he0, hTe, hq1, hct, how, hq2, hq3]
                      · simp [hc, ht, h1, h0, h2, hsl, he0, hTe, hq1, hct, how, hq2, hq3]
      · by_cases h2 : f.size < serviceOffset + 1
        · simp [hc, ht, h1, h2]
        · have hT : truthyOff (some (serviceOffset + bufGet f.buffer serviceOffset + 1)) =
              true := by
            simp [truthyOff]
          have hX0 : ¬(serviceOffset + bufGet f.buffer serviceOffset + 1 = 0) := by
            omega
          by_cases h3 : f.size < serviceOffset + bufGet f.buffer serviceOffset + 1 + 1
          · simp [hc, ht, h1, h2, hT, hX0, h3]
          · rcases hsl : scanLoop f.buffer f.size
                (bufGet f.buffer (serviceOffset + bufGet f.buffer serviceOffset + 1))
                (serviceOffset + bufGet f.buffer serviceOffset + 1 + 1) 0 0 with _ | r
            · simp [hc, ht, h1, h2, hT, hX0, h3, hsl]
            · obtain ⟨cn, rd, e⟩ := r
              by_cases he0 : e = 0
              · have hTe : truthyOff (some e) = false := by
                  rw [he0]
                  rfl
                subst he0
                by_cases hq1 : f.size < 0 + 1
                · simp [hc, ht, h1, h2, hT, hX0, h3, hsl, hTe, hq1]
                · by_cases hct : bufGet f.buffer (0) = 0
                  · by_cases hq2 : f.size < 0 + 1 + 2
                    · simp [hc, ht, h1, h2, hT, hX0, h3, hsl, hTe, hq1, hct, hq2]
                    · by_cases hq3 : f.size < 0 + 1 + 2 + bufGet16 f.buffer (0 + 1)
                      · simp [hc, ht, h1, h2, hT, hX0, h3, hsl, hTe, hq1, hct, hq2, hq3]
                      · simp [hc, ht, h1, h2, hT, hX0, h3, hsl, hTe, hq1, hct, hq2, hq3]
                  · have how : offsetWidth (bufGet f.buffer (0)) = 4 := by
                      simp [offsetWidth, hct]
                    by_cases hq2 : f.size < 0 + 1 + 4 + 2
                    · simp [hc, ht, h1, h2, hT, hX0, h3, hsl, hTe, hq1, hct, how, hq2]
                    · by_cases hq3 : f.size < 0 + 1 + 4 + 2 + bufGet16 f.buffer (0 + 1 + 4)
                      · simp [hc, ht, h1, h2, hT, hX0, h3, hsl, hTe, hq1, hct, how, hq2, hq3]
                      · simp [hc, ht, h1, h2, hT, hX0, h3, hsl, hTe, hq1, hct, how, hq2, hq3]
              · have hTe : truthyOff (some e) = true := by
                  simp [truthyOff, he0]
                by_cases hq1 : f.size < e + 1
                · simp [hc, ht, h1, h2, hT, hX0, h3, hsl, he0, hTe, hq1]
                · by_cases hct : bufGet f.buffer (e) = 0
                  · by_cases hq2 : f.size < e + 1 + 2
                    · simp [hc, ht, h1, h2, hT, hX0, h3, hsl, he0, hTe, hq1, hct, hq2]
                    · by_cases hq3 : f.size < e + 1 + 2 + bufGet16 f.buffer (e + 1)
                      · simp [hc, ht, h1, h2, hT, hX0, h3, hsl, he0, hTe, hq1, hct, hq2, hq3]
                      · simp [hc, ht, h1, h2, hT, hX0, h3, hsl, he0, hTe, hq1, hct, hq2, hq3]
                  · have how : offsetWidth (bufGet f.buffer (e)) = 4 := by
                      simp [offsetWidth, hct]
                    by_cases hq2 : f.size < e + 1 + 4 + 2
                    · simp [hc, ht, h1, h2, hT, hX0, h3, hsl, he0, hTe, hq1, hct, how, hq2]
                    · by_cases hq3 : f.size < e + 1 + 4 + 2 + bufGet16 f.buffer (e + 1 + 4)
                      · simp [hc, ht, h1, h2, hT, hX0, h3, hsl, he0, hTe, hq1, hct, how, hq2, hq3]
                      · simp [hc, ht, h1, h2, hT, hX0, h3, hsl, he0, hTe, hq1, hct, how, hq2, hq3]
    · by_cases hq1 : f.size < f.cache.csumStartOffset.getD 0 + 1
      · simp [hc, ht, hq1]
      · by_cases hct : bufGet f.buffer (f.cache.csumStartOffset.getD 0) = 0
        · by_cases hq2 : f.size < f.cache.csumStartOffset.getD 0 + 1 + 2
          · simp [hc, ht, hq1, hct, hq2]
          · by_cases hq3 : f.size < f.cache.csumStartOffset.getD 0 + 1 + 2 + bufGet16 f.buffer (f.cache.csumStartOffset.getD 0 + 1)
            · simp [hc, ht, hq1, hct, hq2, hq3]
            · simp [hc, ht, hq1, hct, hq2, hq3]
        · have how : offsetWidth (bufGet f.buffer (f.cache.csumStartOffset.getD 0)) = 4 := by
            simp [offsetWidth, hct]
          by_cases hq2 : f.size < f.cache.csumStartOffset.getD 0 + 1 + 4 + 2
          · simp [hc, ht, hq1, hct, how, hq2]
          · by_cases hq3 : f.size < f.cache.csumStartOffset.getD 0 + 1 + 4 + 2 + bufGet16 f.buffer (f.cache.csumStartOffset.getD 0 + 1 + 4)
            · simp [hc, ht, hq1, hct, how, hq2, hq3]
            · simp [hc, ht, hq1, hct, how, hq2, hq3]
  · simp [hc]

/-- C7 (amended): idempotent caching.  For every frame and every lazy
accessor, two successive calls return equal values; and whenever the
accessor's value slot is cached, a call returns the cached value while
reading nothing else from the frame - its result does not depend on the
frame's buffer or size (this is the situation after any first call that
produced a value; after a failed first call the second call may read the
buffer again). -/
theorem c7_idempotent_caching :
    (∀ f : Frame,
      (readTTL (readTTL f).2).1 = (readTTL f).1 ∧
      (readTracingValue (readTracingValue f).2).1 = (readTracingValue f).1 ∧
      (readServiceStr (readServiceStr f).2).1 = (readServiceStr f).1 ∧
      (readCallerNameStr (readCallerNameStr f).2).1 = (readCallerNameStr f).1 ∧
      (readRoutingDelegateStr (readRoutingDelegateStr f).2).1 =
        (readRoutingDelegateStr f).1 ∧
      (readArg1Str (readArg1Str f).2).1 = (readArg1Str f).1) ∧
    (∀ (c : Cache) (buf : List Nat) (sz : Nat),
      (∀ v, c.ttlValue = some v → (readTTL ⟨buf, sz, c⟩).1 = v) ∧
      (∀ t, c.tracingValue = some t → (readTracingValue ⟨buf, sz, c⟩).1 = some t) ∧
      (∀ s, c.serviceStr = some s → (readServiceStr ⟨buf, sz, c⟩).1 = some s) ∧
      (∀ s, c.callerNameStr = some s → (readCallerNameStr ⟨buf, sz, c⟩).1 = some s) ∧
      (∀ s, c.routingDelegateStr = some s →
        (readRoutingDelegateStr ⟨buf, sz, c⟩).1 = some s) ∧
      (∀ s, c.arg1Str = some s → (readArg1Str ⟨buf, sz, c⟩).1 = some s)) := by
  constructor
  · intro f
    exact ⟨readTTL_idem f, readTracingValue_idem f, readServiceStr_idem f,
      readCallerNameStr_idem f, readRoutingDelegateStr_idem f, readArg1Str_idem f⟩
  · intro c buf sz
    refine ⟨?_, ?_, ?_, ?_, ?_, ?_⟩
    · intro v h
      unfold readTTL
      rw [show (Frame.mk buf sz c).cache.ttlValue = c.ttlValue from rfl, h]
    · intro t h
      unfold readTracingValue
      rw [show (Frame.mk buf sz c).cache.tracingValue = c.tracingValue from rfl, h]
    · intro s h
      unfold readServiceStr
      rw [show (Frame.mk buf sz c).cache.serviceStr = c.serviceStr from rfl, h]
    · intro s h
      unfold readCallerNameStr
      rw [show (Frame.mk buf sz c).cache.callerNameStr = c.callerNameStr from rfl, h]
    · intro s h
      unfold readRoutingDelegateStr
      rw [show (Frame.mk buf sz c).cache.routingDelegateStr = c.routingDelegateStr
        from rfl, h]
    · intro s h
      unfold readArg1Str
      rw [show (Frame.mk buf sz c).cache.arg1Str = c.arg1Str from rfl, h]

/-- A cache with every value slot filled, for the witness. -/
def c7cache : Cache :=
  ⟨some 7, some zeroTracing, some [5], some [6], some [7], some [8],
    none, none, none, none, none⟩

/-- Witness for the amended C7 at a concrete frame and a concrete filled
cache over two different buffers. -/
theorem c7_idempotent_caching_witness :
    ((readTTL (readTTL (freshFrame c9buf)).2).1 = (readTTL (freshFrame c9buf)).1 ∧
      (readTracingValue (readTracingValue (freshFrame c9buf)).2).1 =
        (readTracingValue (freshFrame c9buf)).1 ∧
      (readServiceStr (readServiceStr (freshFrame c9buf)).2).1 =
        (readServiceStr (freshFrame c9buf)).1 ∧
      (readCallerNameStr (readCallerNameStr (freshFrame c9buf)).2).1 =
        (readCallerNameStr (freshFrame c9buf)).1 ∧
      (readRoutingDelegateStr (readRoutingDelegateStr (freshFrame c9buf)).2).1 =
        (readRoutingDelegateStr (freshFrame c9buf)).1 ∧
      (readArg1Str (readArg1Str (freshFrame c9buf)).2).1 =
        (readArg1Str (freshFrame c9buf)).1) ∧
    ((readTTL ⟨[1, 2, 3], 3, c7cache⟩).1 = 7 ∧
      (readTracingValue ⟨[9], 0, c7cache⟩).1 = some zeroTracing ∧
      (readServiceStr ⟨[9], 0, c7cache⟩).1 = some [5] ∧
      (readCallerNameStr ⟨[9], 0, c7cache⟩).1 = some [6] ∧
      (readRoutingDelegateStr ⟨[9], 0, c7cache⟩).1 = some [7] ∧
      (readArg1Str ⟨[9], 0, c7cache⟩).1 = some [8]) :=
  ⟨c7_idempotent_caching.1 (freshFrame c9buf),
    (c7_idempotent_caching.2 c7cache [1, 2, 3] 3).1 7 rfl,
    (c7_idempotent_caching.2 c7cache [9] 0).2.1 zeroTracing rfl,
    (c7_idempotent_caching.2 c7cache [9] 0).2.2.1 [5] rfl,
    (c7_idempotent_caching.2 c7cache [9] 0).2.2.2.1 [6] rfl,
    (c7_idempotent_caching.2 c7cache [9] 0).2.2.2.2.1 [7] rfl,
    (c7_idempotent_caching.2 c7cache [9] 0).2.2.2.2.2 [8] rfl⟩

/-- Counterexample to C7 as stated: after a first readArg1Str call on a
truncated frame returns the unavailable sentinel, a second call with the
same cache reads the buffer again - with the original buffer it still
returns the sentinel, but with a completed buffer it returns a value, so
the second call is not limited to loading the cached slot. -/
theorem c7_counterexample :
    (readArg1Str (freshFrame (List.replicate 20 0))).1 = none ∧
    (readArg1Str ⟨List.replicate 20 0, 20,
      (readArg1Str (freshFrame (List.replicate 20 0))).2.cache⟩).1 = none ∧
    (readArg1Str ⟨List.replicate 16 0 ++ reqBytesOf sampleReq,
      (List.replicate 16 0 ++ reqBytesOf sampleReq).length,
      (readArg1Str (freshFrame (List.replicate 20 0))).2.cache⟩).1 =
      some [104, 105] := by
  refine ⟨by decide, by decide, by decide⟩

/-- Bounds maintained by the scan loop: on success, each value offset is
either 0 (absent) or strictly below the frame size, and the end offset
is at most the frame size. -/
theorem scanLoop_bounds (buf : List Nat) (size : Nat) :
    ∀ (i : Nat), ∀ (offset cn rd cn' rd' e : Nat),
    scanLoop buf size i offset cn rd = some (cn', rd', e) →
    offset ≤ size → (cn = 0 ∨ (0 < cn ∧ cn < size)) →
    (rd = 0 ∨ (0 < rd ∧ rd < size)) →
    (cn' = 0 ∨ (0 < cn' ∧ cn' < size)) ∧
    (rd' = 0 ∨ (0 < rd' ∧ rd' < size)) ∧ e ≤ size := by
  intro i
  induction i with
  | zero =>
    intro offset cn rd cn' rd' e h hoff hcn hrd
    rw [scanLoop] at h
    simp only [Option.some.injEq, Prod.mk.injEq] at h
    obtain ⟨h1, h2, h3⟩ := h
    subst h1 h2 h3
    exact ⟨hcn, hrd, hoff⟩
  | succ n ih =>
    intro offset cn rd cn' rd' e h hoff hcn hrd
    rw [scanLoop] at h
    by_cases c1 : size < offset + 1
    · rw [if_pos c1] at h
      exact absurd h (by simp)
    rw [if_neg c1] at h
    dsimp only at h
    by_cases c2 : size < bufGet buf offset + (offset + 1)
    · rw [if_pos c2] at h
      exact absurd h (by simp)
    rw [if_neg c2] at h
    by_cases c3 : size < offset + 1 + bufGet buf offset + 1
    · rw [if_pos c3] at h
      exact absurd h (by simp)
    rw [if_neg c3] at h
    by_cases c4 : size < bufGet buf (offset + 1 + bufGet buf offset) +
        (offset + 1 + bufGet buf offset + 1)
    · rw [if_pos c4] at h
      exact absurd h (by simp)
    rw [if_neg c4] at h
    refine ih _ _ _ _ _ _ h (by omega) ?_ ?_
    · by_cases m : cn = 0 ∧ bufGet buf offset = 2 ∧
          bufGet16 buf (offset + 1) = CN_VALUE
      · rw [if_pos m]
        right
        omega
      · rw [if_neg m]
        exact hcn
    · by_cases m : rd = 0 ∧ bufGet buf offset = 2 ∧
          bufGet16 buf (offset + 1) = RD_VALUE
      · rw [if_pos m]
        right
        omega
      · rw [if_neg m]
        exact hrd

/-- The (amended) cache offset invariant: cn/rd value offsets are 0 or
within the frame; the checksum start offset is at most the frame size. -/
def CacheOffsetsInv (f : Frame) : Prop :=
  (∀ n, f.cache.cnValueOffset = some n → n = 0 ∨ (0 < n ∧ n < f.size)) ∧
  (∀ n, f.cache.rdValueOffset = some n → n = 0 ∨ (0 < n ∧ n < f.size)) ∧
  (∀ n, f.cache.csumStartOffset = some n → n ≤ f.size)

/-- The invariant transfers along equality of the relevant fields. -/
theorem inv_congr (f f' : Frame) (hs : f'.size = f.size)
    (h1 : f'.cache.cnValueOffset = f.cache.cnValueOffset)
    (h2 : f'.cache.rdValueOffset = f.cache.rdValueOffset)
    (h3 : f'.cache.csumStartOffset = f.cache.csumStartOffset)
    (h : CacheOffsetsInv f) : CacheOffsetsInv f' := by
  obtain ⟨i1, i2, i3⟩ := h
  refine ⟨?_, ?_, ?_⟩
  · intro n hn
    rw [h1] at hn
    rw [hs]
    exact i1 n hn
  · intro n hn
    rw [h2] at hn
    rw [hs]
    exact i2 n hn
  · intro n hn
    rw [h3] at hn
    rw [hs]
    exact i3 n hn

/-- findHeaderStartOffset changes neither the buffer, the size, nor the
scan-offset slots. -/
theorem findHeaderStartOffset_frame (f : Frame) :
    (findHeaderStartOffset f).2.size = f.size ∧
    (findHeaderStartOffset f).2.buffer = f.buffer ∧
    (findHeaderStartOffset f).2.cache.cnValueOffset = f.cache.cnValueOffset ∧
    (findHeaderStartOffset f).2.cache.rdValueOffset = f.cache.rdValueOffset ∧
    (findHeaderStartOffset f).2.cache.csumStartOffset = f.cache.csumStartOffset := by
  unfold findHeaderStartOffset
  split_ifs <;> simp

/-- scanAndSkipHeaders preserves the cache offset invariant: a failed
scan commits nothing, a successful scan commits offsets within
bounds. -/
theorem scanAndSkipHeaders_inv (f : Frame) (h : CacheOffsetsInv f) :
    CacheOffsetsInv (scanAndSkipHeaders f).2 := by
  unfold scanAndSkipHeaders
  rcases hfind : findHeaderStartOffset f with ⟨o, f1⟩
  dsimp only
  have hf1 := findHeaderStartOffset_frame f
  rw [hfind] at hf1
  dsimp only at hf1
  obtain ⟨hsz, hbuf, hcn, hrd, hcs⟩ := hf1
  have hinv1 : CacheOffsetsInv f1 := inv_congr f f1 hsz hcn hrd hcs h
  by_cases h0 : o = 0
  · rw [if_pos h0]
    exact hinv1
  rw [if_neg h0]
  by_cases h2 : f1.size < o + 1
  · rw [if_pos h2]
    exact hinv1
  rw [if_neg h2]
  rcases hsl : scanLoop f1.buffer f1.size (bufGet f1.buffer o) (o + 1) 0 0 with _ | r
  · exact hinv1
  · obtain ⟨cn, rd, e⟩ := r
    have hb := scanLoop_bounds f1.buffer f1.size (bufGet f1.buffer o) (o + 1)
      0 0 cn rd e hsl (by omega) (by omega) (by omega)
    refine ⟨?_, ?_, ?_⟩
    · intro n hn
      simp only [Option.some.injEq] at hn
      subst hn
      simp only
      rcases hb.1 with hh | hh
      · left
        exact hh
      · right
        exact hh
    · intro n hn
      simp only [Option.some.injEq] at hn
      subst hn
      simp only
      rcases hb.2.1 with hh | hh
      · left
        exact hh
      · right
        exact hh
    · intro n hn
      simp only [Option.some.injEq] at hn
      subst hn
      simp only
      exact hb.2.2

/-- readTTL preserves the cache offset invariant: it touches only the
ttlValue slot. -/
theorem readTTL_inv (f : Frame) (h : CacheOffsetsInv f) :
    CacheOffsetsInv (readTTL f).2 := by
  unfold readTTL
  split
  · exact h
  · dsimp only
    split_ifs
    · exact h
    · exact inv_congr f _ rfl rfl rfl rfl h

/-- readTracingValue preserves the cache offset invariant. -/
theorem readTracingValue_inv (f : Frame) (h : CacheOffsetsInv f) :
    CacheOffsetsInv (readTracingValue f).2 := by
  unfold readTracingValue
  split
  · exact h
  · dsimp only
    split_ifs
    · exact h
    · exact inv_congr f _ rfl rfl rfl rfl h

/-- readServiceStr preserves the cache offset invariant: the only extra
commit relative to findHeaderStartOffset is the serviceStr slot. -/
theorem readServiceStr_inv (f : Frame) (h : CacheOffsetsInv f) :
    CacheOffsetsInv (readServiceStr f).2 := by
  unfold readServiceStr
  split
  · exact h
  · split
    next o f1 heq =>
      have hf1 := findHeaderStartOffset_frame f
      rw [heq] at hf1
      obtain ⟨hsz, hbuf, hcn, hrd, hcs⟩ := hf1
      have hinv1 : CacheOffsetsInv f1 := inv_congr f f1 hsz hcn hrd hcs h
      dsimp only
      split_ifs
      · exact hinv1
      · exact hinv1
      · exact inv_congr f1 _ rfl rfl rfl rfl hinv1

/-- readCallerNameStr preserves the cache offset invariant: scan commits
go through scanAndSkipHeaders, and the accessor itself only sets the
callerNameStr slot. -/
theorem readCallerNameStr_inv (f : Frame) (h : CacheOffsetsInv f) :
    CacheOffsetsInv (readCallerNameStr f).2 := by
  unfold readCallerNameStr
  split
  · exact h
  · split
    next success f1 heq =>
      have hinv1 : CacheOffsetsInv f1 := by
        by_cases hn : f.cache.cnValueOffset = none
        · rw [if_pos hn] at heq
          have hs := scanAndSkipHeaders_inv f h
          rw [heq] at hs
          exact hs
        · rw [if_neg hn] at heq
          injection heq with h1 h2
          exact h2 ▸ h
      dsimp only
      split_ifs
      · exact hinv1
      · exact hinv1
      · split
        · exact hinv1
        · split_ifs
          · exact hinv1
          · exact inv_congr f1 _ rfl rfl rfl rfl hinv1

/-- readRoutingDelegateStr preserves the cache offset invariant. -/
theorem readRoutingDelegateStr_inv (f : Frame) (h : CacheOffsetsInv f) :
    CacheOffsetsInv (readRoutingDelegateStr f).2 := by
  unfold readRoutingDelegateStr
  split
  · exact h
  · split
    next success f1 heq =>
      have hinv1 : CacheOffsetsInv f1 := by
        by_cases hn : f.cache.rdValueOffset = none
        · rw [if_pos hn] at heq
          have hs := scanAndSkipHeaders_inv f h
          rw [heq] at hs
          exact hs
        · rw [if_neg hn] at heq
          injection heq with h1 h2
          exact h2 ▸ h
      dsimp only
      split_ifs
      · exact hinv1
      · exact hinv1
      · split
        · exact hinv1
        · split_ifs
          · exact hinv1
          · exact inv_congr f1 _ rfl rfl rfl rfl hinv1

/-- readArg1Str preserves the cache offset invariant: its own commits are
only the lastError and arg1Str slots. -/
theorem readArg1Str_inv (f : Frame) (h : CacheOffsetsInv f) :
    CacheOffsetsInv (readArg1Str f).2 := by
  unfold readArg1Str
  split
  · exact h
  · split
    next success f1 heq =>
      have hinv1 : CacheOffsetsInv f1 := by
        by_cases hn : truthyOff f.cache.csumStartOffset = false
        · rw [if_pos hn] at heq
          have hs := scanAndSkipHeaders_inv f h
          rw [heq] at hs
          exact hs
        · rw [if_neg hn] at heq
          injection heq with h1 h2
          exact h2 ▸ h
      dsimp only
      split_ifs <;> exact inv_congr f1 _ rfl rfl rfl rfl hinv1

/-- One lazy accessor call, viewed as a frame transformer. -/
inductive LazyOp where
  | ttl
  | tracingVal
  | service
  | callerName
  | routingDelegate
  | arg1

/-- The frame after one lazy accessor call. -/
def applyOp : LazyOp → Frame → Frame
  | .ttl, f => (readTTL f).2
  | .tracingVal, f => (readTracingValue f).2
  | .service, f => (readServiceStr f).2
  | .callerName, f => (readCallerNameStr f).2
  | .routingDelegate, f => (readRoutingDelegateStr f).2
  | .arg1, f => (readArg1Str f).2

/-- The frame after a sequence of lazy accessor calls. -/
def applyOps : List LazyOp → Frame → Frame
  | [], f => f
  | op :: rest, f => applyOps rest (applyOp op f)

/-- Each accessor call preserves the cache offset invariant. -/
theorem applyOp_inv (op : LazyOp) (f : Frame) (h : CacheOffsetsInv f) :
    CacheOffsetsInv (applyOp op f) := by
  cases op
  · exact readTTL_inv f h
  · exact readTracingValue_inv f h
  · exact readServiceStr_inv f h
  · exact readCallerNameStr_inv f h
  · exact readRoutingDelegateStr_inv f h
  · exact readArg1Str_inv f h

/-- Accessor sequences preserve the cache offset invariant. -/
theorem applyOps_inv (ops : List LazyOp) (f : Frame) (h : CacheOffsetsInv f) :
    CacheOffsetsInv (applyOps ops f) := by
  induction ops generalizing f with
  | nil => exact h
  | cons op rest ih => exact ih (applyOp op f) (applyOp_inv op f h)

/-- A fresh frame (empty cache) satisfies the invariant vacuously. -/
theorem freshFrame_inv (buf : List Nat) : CacheOffsetsInv (freshFrame buf) := by
  refine ⟨?_, ?_, ?_⟩ <;> intro n hn <;> simp [freshFrame, Cache.empty] at hn

/-- C4 (amended): after any sequence of lazy accessor calls on a fresh
frame, every cnValueOffset or rdValueOffset stored in the cache is 0 or
points within [0, frame.size), and csumStartOffset is at most
frame.size.  The claimed bound on headerStartOffset does not hold (see
the counterexample): findHeaderStartOffset commits
serviceOffset + lengthByte + 1 without checking it against the frame
size. -/
theorem c4_cache_offset_invariant (ops : List LazyOp) (buf : List Nat) :
    CacheOffsetsInv (applyOps ops (freshFrame buf)) :=
  applyOps_inv ops (freshFrame buf) (freshFrame_inv buf)

/-- Counterexample to C4 as stated: a 47-byte frame whose service length
byte is 200 caches headerStartOffset = 247, far beyond frame.size = 47,
after a single readServiceStr call. -/
theorem c4_counterexample :
    (freshFrame (List.replicate 46 0 ++ [200])).size = 47 ∧
    (readServiceStr (freshFrame (List.replicate 46 0 ++ [200]))).2.cache.headerStartOffset =
      some 247 := by
  refine ⟨by decide, by decide⟩

/-! ### Truncation safety (C3): reads from a prefix are stable under
extension of the buffer. -/

theorem bufGet_ext (buf ext : List Nat) (off : Nat) (h : off < buf.length) :
    bufGet (buf ++ ext) off = bufGet buf off := by
  unfold bufGet
  exact List.getD_append buf ext 0 off h

theorem bufGet16_ext (buf ext : List Nat) (off : Nat) (h : off + 1 < buf.length) :
    bufGet16 (buf ++ ext) off = bufGet16 buf off := by
  unfold bufGet16
  rw [bufGet_ext buf ext off (by omega), bufGet_ext buf ext (off + 1) h]

theorem bufGet32_ext (buf ext : List Nat) (off : Nat) (h : off + 3 < buf.length) :
    bufGet32 (buf ++ ext) off = bufGet32 buf off := by
  unfold bufGet32
  rw [bufGet_ext buf ext off (by omega), bufGet_ext buf ext (off + 1) (by omega),
    bufGet_ext buf ext (off + 2) (by omega), bufGet_ext buf ext (off + 3) h]

theorem byteSlice_ext (buf ext : List Nat) (s e : Nat) (h : e ≤ buf.length) :
    byteSlice (buf ++ ext) s e = byteSlice buf s e := by
  unfold byteSlice
  rw [List.take_append_of_le_length h]

theorem fastBufferToString_ext (buf ext : List Nat) (s e : Nat) (h : e ≤ buf.length) :
    fastBufferToString (buf ++ ext) s e = fastBufferToString buf s e := by
  unfold fastBufferToString
  rw [byteSlice_ext buf ext s e h]

/-- A successful header scan over a prefix gives the same result over
any extension of the buffer (with any size at least the prefix size):
every guard only requires the size to be large enough, and every byte
read lies below the prefix size. -/
theorem scanLoop_mono (buf ext : List Nat) (size size' : Nat)
    (hsz : size ≤ buf.length) (hsz' : size ≤ size') :
    ∀ i offset cn rd r, scanLoop buf size i offset cn rd = some r →
    scanLoop (buf ++ ext) size' i offset cn rd = some r := by
  intro i
  induction i with
  | zero =>
    intro offset cn rd r h
    rw [scanLoop] at h ⊢
    exact h
  | succ n ih =>
    intro offset cn rd r h
    rw [scanLoop] at h ⊢
    by_cases c1 : size < offset + 1
    · rw [if_pos c1] at h
      exact absurd h (by simp)
    rw [if_neg c1] at h
    dsimp only at h
    rw [if_neg (show ¬(size' < offset + 1) by omega)]
    dsimp only
    have g0 : bufGet (buf ++ ext) offset = bufGet buf offset :=
      bufGet_ext buf ext offset (by omega)
    rw [g0]
    by_cases c2 : size < bufGet buf offset + (offset + 1)
    · rw [if_pos c2] at h
      exact absurd h (by simp)
    rw [if_neg c2] at h
    rw [if_neg (show ¬(size' < bufGet buf offset + (offset + 1)) by omega)]
    have hcnEq : (cn = 0 ∧ bufGet buf offset = 2 ∧
        bufGet16 (buf ++ ext) (offset + 1) = CN_VALUE) ↔
        (cn = 0 ∧ bufGet buf offset = 2 ∧ bufGet16 buf (offset + 1) = CN_VALUE) := by
      constructor
      · rintro ⟨a, b, c⟩
        exact ⟨a, b, by rw [← bufGet16_ext buf ext (offset + 1) (by omega)]; exact c⟩
      · rintro ⟨a, b, c⟩
        exact ⟨a, b, by rw [bufGet16_ext buf ext (offset + 1) (by omega)]; exact c⟩
    have hrdEq : (rd = 0 ∧ bufGet buf offset = 2 ∧
        bufGet16 (buf ++ ext) (offset + 1) = RD_VALUE) ↔
        (rd = 0 ∧ bufGet buf offset = 2 ∧ bufGet16 buf (offset + 1) = RD_VALUE) := by
      constructor
      · rintro ⟨a, b, c⟩
        exact ⟨a, b, by rw [← bufGet16_ext buf ext (offset + 1) (by omega)]; exact c⟩
      · rintro ⟨a, b, c⟩
        exact ⟨a, b, by rw [bufGet16_ext buf ext (offset + 1) (by omega)]; exact c⟩
    simp only [hcnEq, hrdEq]
    by_cases c3 : size < offset + 1 + bufGet buf offset + 1
    · rw [if_pos c3] at h
      exact absurd h (by simp)
    rw [if_neg c3] at h
    rw [if_neg (show ¬(size' < offset + 1 + bufGet buf offset + 1) by omega)]
    have g1 : bufGet (buf ++ ext) (offset + 1 + bufGet buf offset) =
        bufGet buf (offset + 1 + bufGet buf offset) :=
      bufGet_ext buf ext _ (by omega)
    rw [g1]
    by_cases c4 : size < bufGet buf (offset + 1 + bufGet buf offset) +
        (offset + 1 + bufGet buf offset + 1)
    · rw [if_pos c4] at h
      exact absurd h (by simp)
    rw [if_neg c4] at h
    rw [if_neg (show ¬(size' < bufGet buf (offset + 1 + bufGet buf offset) +
      (offset + 1 + bufGet buf offset + 1)) by omega)]
    exact ih _ _ _ _ h

/-- A non-sentinel readTTL on a fresh frame is stable under buffer
extension: the value was computed solely from bytes of the prefix. -/
theorem readTTL_ext (buf ext : List Nat) (h : (readTTL (freshFrame buf)).1 ≠ 0) :
    (readTTL (freshFrame (buf ++ ext))).1 = (readTTL (freshFrame buf)).1 := by
  have ht : ttlOffset = 17 := rfl
  by_cases h1 : buf.length < ttlOffset + 4
  · exact absurd (by simp [readTTL, freshFrame, Cache.empty, h1]) h
  · have h2 : ¬(buf.length + ext.length < ttlOffset + 4) := by omega
    have g : bufGet32 (buf ++ ext) ttlOffset = bufGet32 buf ttlOffset :=
      bufGet32_ext buf ext ttlOffset (by omega)
    simp [readTTL, freshFrame, Cache.empty, h1, h2, g, List.length_append]

/-- A successful readTracingValue on a fresh frame is stable under
buffer extension. -/
theorem readTracingValue_ext (buf ext : List Nat) (t : TracingInfo)
    (h : (readTracingValue (freshFrame buf)).1 = some t) :
    (readTracingValue (freshFrame (buf ++ ext))).1 = some t := by
  have ht : tracingOffset = 21 := rfl
  by_cases h1 : buf.length < tracingOffset + 25
  · simp [readTracingValue, freshFrame, Cache.empty, h1] at h
  · have h2 : ¬(buf.length + ext.length < tracingOffset + 25) := by omega
    have g1 : bufGet32 (buf ++ ext) tracingOffset = bufGet32 buf tracingOffset :=
      bufGet32_ext buf ext _ (by omega)
    have g2 : bufGet32 (buf ++ ext) (tracingOffset + 4) = bufGet32 buf (tracingOffset + 4) :=
      bufGet32_ext buf ext _ (by omega)
    have g3 : bufGet32 (buf ++ ext) (tracingOffset + 8) = bufGet32 buf (tracingOffset + 8) :=
      bufGet32_ext buf ext _ (by omega)
    have g4 : bufGet32 (buf ++ ext) (tracingOffset + 12) = bufGet32 buf (tracingOffset + 12) :=
      bufGet32_ext buf ext _ (by omega)
    have g5 : bufGet32 (buf ++ ext) (tracingOffset + 16) = bufGet32 buf (tracingOffset + 16) :=
      bufGet32_ext buf ext _ (by omega)
    have g6 : bufGet32 (buf ++ ext) (tracingOffset + 20) = bufGet32 buf (tracingOffset + 20) :=
      bufGet32_ext buf ext _ (by omega)
    have g7 : bufGet (buf ++ ext) (tracingOffset + 24) = bufGet buf (tracingOffset + 24) :=
      bufGet_ext buf ext _ (by omega)
    simp [readTracingValue, freshFrame, Cache.empty, h1, h2, g1, g2, g3, g4, g5, g6, g7,
      List.length_append] at h ⊢
    exact h

/-- A successful readServiceStr on a fresh frame is stable under buffer
extension. -/
theorem readServiceStr_ext (buf ext : List Nat) (s : List Nat)
    (h : (readServiceStr (freshFrame buf)).1 = some s) :
    (readServiceStr (freshFrame (buf ++ ext))).1 = some s := by
  have hsv : serviceOffset = 46 := rfl
  by_cases h1 : buf.length < serviceOffset + 1
  · simp [readServiceStr, findHeaderStartOffset, truthyOff, freshFrame, Cache.empty, h1] at h
  · have h2 : ¬(buf.length + ext.length < serviceOffset + 1) := by omega
    have g0 : bufGet (buf ++ ext) serviceOffset = bufGet buf serviceOffset :=
      bufGet_ext buf ext _ (by omega)
    by_cases h3 : buf.length < serviceOffset + bufGet buf serviceOffset + 1
    · simp [readServiceStr, findHeaderStartOffset, truthyOff, freshFrame, Cache.empty,
        h1, h3] at h
    · have h4 : ¬(buf.length + ext.length < serviceOffset + bufGet buf serviceOffset + 1) := by
        omega
      have gs : fastBufferToString (buf ++ ext) (serviceOffset + 1)
          (serviceOffset + bufGet buf serviceOffset + 1) =
          fastBufferToString buf (serviceOffset + 1)
          (serviceOffset + bufGet buf serviceOffset + 1) :=
        fastBufferToString_ext buf ext _ _ (by omega)
      simp [readServiceStr, findHeaderStartOffset, truthyOff, freshFrame, Cache.empty,
        h1, h2, h3, h4, g0, gs, List.length_append] at h ⊢
      exact h

/-- A successful readCallerNameStr on a fresh frame is stable under
buffer extension. -/
theorem readCallerNameStr_ext (buf ext : List Nat) (s : List Nat)
    (h : (readCallerNameStr (freshFrame buf)).1 = some s) :
    (readCallerNameStr (freshFrame (buf ++ ext))).1 = some s := by
  have hsv : serviceOffset = 46 := rfl
  by_cases h1 : buf.length < serviceOffset + 1
  · simp [readCallerNameStr, scanAndSkipHeaders, findHeaderStartOffset, truthyOff,
      freshFrame, Cache.empty, h1] at h
  have g0 : bufGet (buf ++ ext) serviceOffset = bufGet buf serviceOffset :=
    bufGet_ext buf ext _ (by omega)
  have hX0 : ¬(serviceOffset + bufGet buf serviceOffset + 1 = 0) := by omega
  by_cases h3 : buf.length < serviceOffset + bufGet buf serviceOffset + 1 + 1
  · simp [readCallerNameStr, scanAndSkipHeaders, findHeaderStartOffset, truthyOff,
      freshFrame, Cache.empty, h1, hX0, h3] at h
  have gN : bufGet (buf ++ ext) (serviceOffset + bufGet buf serviceOffset + 1) =
      bufGet buf (serviceOffset + bufGet buf serviceOffset + 1) :=
    bufGet_ext buf ext _ (by omega)
  rcases hsl : scanLoop buf buf.length
      (bufGet buf (serviceOffset + bufGet buf serviceOffset + 1))
      (serviceOffset + bufGet buf serviceOffset + 1 + 1) 0 0 with _ | r
  · simp [readCallerNameStr, scanAndSkipHeaders, findHeaderStartOffset, truthyOff,
      freshFrame, Cache.empty, h1, hX0, h3, hsl] at h
  obtain ⟨cn, rd, e⟩ := r
  have hsl2 : scanLoop (buf ++ ext) (buf.length + ext.length)
      (bufGet buf (serviceOffset + bufGet buf serviceOffset + 1))
      (serviceOffset + bufGet buf serviceOffset + 1 + 1) 0 0 = some (cn, rd, e) :=
    scanLoop_mono buf ext buf.length (buf.length + ext.length) le_rfl (by omega)
      _ _ _ _ _ hsl
  by_cases hcn0 : cn = 0
  · simp [readCallerNameStr, scanAndSkipHeaders, findHeaderStartOffset, truthyOff,
      freshFrame, Cache.empty, h1, hX0, h3, hsl, hcn0] at h
  by_cases hq1 : buf.length < cn + 1
  · simp [readCallerNameStr, scanAndSkipHeaders, findHeaderStartOffset, truthyOff,
      readUInt8String, freshFrame, Cache.empty, h1, hX0, h3, hsl, hcn0, hq1] at h
  have gc : bufGet (buf ++ ext) cn = bufGet buf cn := bufGet_ext buf ext _ (by omega)
  by_cases hq2 : buf.length < cn + 1 + bufGet buf cn
  · simp [readCallerNameStr, scanAndSkipHeaders, findHeaderStartOffset, truthyOff,
      readUInt8String, freshFrame, Cache.empty, h1, hX0, h3, hsl, hcn0, hq1, hq2] at h
  have gs : fastBufferToString (buf ++ ext) (cn + 1) (cn + 1 + bufGet buf cn) =
      fastBufferToString buf (cn + 1) (cn + 1 + bufGet buf cn) :=
    fastBufferToString_ext buf ext _ _ (by omega)
  by_cases hs : fastBufferToString buf (cn + 1) (cn + 1 + bufGet buf cn) = []
  · simp [readCallerNameStr, scanAndSkipHeaders, findHeaderStartOffset, truthyOff,
      readUInt8String, freshFrame, Cache.empty, h1, hX0, h3, hsl, hcn0, hq1, hq2, hs] at h
  have h2 : ¬(buf.length + ext.length < serviceOffset + 1) := by omega
  have h4 : ¬(buf.length + ext.length < serviceOffset + bufGet buf serviceOffset + 1 + 1) := by
    omega
  have hq1N : ¬(buf.length + ext.length < cn + 1) := by omega
  have hq2N : ¬(buf.length + ext.length < cn + 1 + bufGet buf cn) := by omega
  simp [readCallerNameStr, scanAndSkipHeaders, findHeaderStartOffset, truthyOff,
    readUInt8String, freshFrame, Cache.empty, h1, h2, hX0, h3, h4, hsl, hsl2, hcn0,
    hq1, hq1N, hq2, hq2N, hs, g0, gN, gc, gs, List.length_append] at h ⊢
  exact h

/-- A successful readRoutingDelegateStr on a fresh frame is stable under
buffer extension. -/
theorem readRoutingDelegateStr_ext (buf ext : List Nat) (s : List Nat)
    (h : (readRoutingDelegateStr (freshFrame buf)).1 = some s) :
    (readRoutingDelegateStr (freshFrame (buf ++ ext))).1 = some s := by
  have hsv : serviceOffset = 46 := rfl
  by_cases h1 : buf.length < serviceOffset + 1
  · simp [readRoutingDelegateStr, scanAndSkipHeaders, findHeaderStartOffset, truthyOff,
      freshFrame, Cache.empty, h1] at h
  have g0 : bufGet (buf ++ ext) serviceOffset = bufGet buf serviceOffset :=
    bufGet_ext buf ext _ (by omega)
  have hX0 : ¬(serviceOffset + bufGet buf serviceOffset + 1 = 0) := by omega
  by_cases h3 : buf.length < serviceOffset + bufGet buf serviceOffset + 1 + 1
  · simp [readRoutingDelegateStr, scanAndSkipHeaders, findHeaderStartOffset, truthyOff,
      freshFrame, Cache.empty, h1, hX0, h3] at h
  have gN : bufGet (buf ++ ext) (serviceOffset + bufGet buf serviceOffset + 1) =
      bufGet buf (serviceOffset + bufGet buf serviceOffset + 1) :=
    bufGet_ext buf ext _ (by omega)
  rcases hsl : scanLoop buf buf.length
      (bufGet buf (serviceOffset + bufGet buf serviceOffset + 1))
      (serviceOffset + bufGet buf serviceOffset + 1 + 1) 0 0 with _ | r
  · simp [readRoutingDelegateStr, scanAndSkipHeaders, findHeaderStartOffset, truthyOff,
      freshFrame, Cache.empty, h1, hX0, h3, hsl] at h
  obtain ⟨cn, rd, e⟩ := r
  have hsl2 : scanLoop (buf ++ ext) (buf.length + ext.length)
      (bufGet buf (serviceOffset + bufGet buf serviceOffset + 1))
      (serviceOffset + bufGet buf serviceOffset + 1 + 1) 0 0 = some (cn, rd, e) :=
    scanLoop_mono buf ext buf.length (buf.length + ext.length) le_rfl (by omega)
      _ _ _ _ _ hsl
  by_cases hrd0 : rd = 0
  · simp [readRoutingDelegateStr, scanAndSkipHeaders, findHeaderStartOffset, truthyOff,
      freshFrame, Cache.empty, h1, hX0, h3, hsl, hrd0] at h
  by_cases hq1 : buf.length < rd + 1
  · simp [readRoutingDelegateStr, scanAndSkipHeaders, findHeaderStartOffset, truthyOff,
      readUInt8String, freshFrame, Cache.empty, h1, hX0, h3, hsl, hrd0, hq1] at h
  have gc : bufGet (buf ++ ext) rd = bufGet buf rd := bufGet_ext buf ext _ (by omega)
  by_cases hq2 : buf.length < rd + 1 + bufGet buf rd
  · simp [readRoutingDelegateStr, scanAndSkipHeaders, findHeaderStartOffset, truthyOff,
      readUInt8String, freshFrame, Cache.empty, h1, hX0, h3, hsl, hrd0, hq1, hq2] at h
  have gs : fastBufferToString (buf ++ ext) (rd + 1) (rd + 1 + bufGet buf rd) =
      fastBufferToString buf (rd + 1) (rd + 1 + bufGet buf rd) :=
    fastBufferToString_ext buf ext _ _ (by omega)
  by_cases hs : fastBufferToString buf (rd + 1) (rd + 1 + bufGet buf rd) = []
  · simp [readRoutingDelegateStr, scanAndSkipHeaders, findHeaderStartOffset, truthyOff,
      readUInt8String, freshFrame, Cache.empty, h1, hX0, h3, hsl, hrd0, hq1, hq2, hs] at h
  have h2 : ¬(buf.length + ext.length < serviceOffset + 1) := by omega
  have h4 : ¬(buf.length + ext.length < serviceOffset + bufGet buf serviceOffset + 1 + 1) := by
    omega
  have hq1N : ¬(buf.length + ext.length < rd + 1) := by omega
  have hq2N : ¬(buf.length + ext.length < rd + 1 + bufGet buf rd) := by omega
  simp [readRoutingDelegateStr, scanAndSkipHeaders, findHeaderStartOffset, truthyOff,
    readUInt8String, freshFrame, Cache.empty, h1, h2, hX0, h3, h4, hsl, hsl2, hrd0,
    hq1, hq1N, hq2, hq2N, hs, g0, gN, gc, gs, List.length_append] at h ⊢
  exact h

/-- A successful readArg1Str on a fresh frame is stable under buffer
extension. -/
theorem readArg1Str_ext (buf ext : List Nat) (s : List Nat)
    (h : (readArg1Str (freshFrame buf)).1 = some s) :
    (readArg1Str (freshFrame (buf ++ ext))).1 = some s := by
  have hsv : serviceOffset = 46 := rfl
  by_cases h1 : buf.length < serviceOffset + 1
  · simp [readArg1Str, scanAndSkipHeaders, findHeaderStartOffset, truthyOff,
      freshFrame, Cache.empty, h1] at h
  have g0 : bufGet (buf ++ ext) serviceOffset = bufGet buf serviceOffset :=
    bufGet_ext buf ext _ (by omega)
  have hX0 : ¬(serviceOffset + bufGet buf serviceOffset + 1 = 0) := by omega
  by_cases h3 : buf.length < serviceOffset + bufGet buf serviceOffset + 1 + 1
  · simp [readArg1Str, scanAndSkipHeaders, findHeaderStartOffset, truthyOff,
      freshFrame, Cache.empty, h1, hX0, h3] at h
  have gN : bufGet (buf ++ ext) (serviceOffset + bufGet buf serviceOffset + 1) =
      bufGet buf (serviceOffset + bufGet buf serviceOffset + 1) :=
    bufGet_ext buf ext _ (by omega)
  rcases hsl : scanLoop buf buf.length
      (bufGet buf (serviceOffset + bufGet buf serviceOffset + 1))
      (serviceOffset + bufGet buf serviceOffset + 1 + 1) 0 0 with _ | r
  · simp [readArg1Str, scanAndSkipHeaders, findHeaderStartOffset, truthyOff,
      freshFrame, Cache.empty, h1, hX0, h3, hsl] at h
  obtain ⟨cn, rd, e⟩ := r
  have hsl2 : scanLoop (buf ++ ext) (buf.length + ext.length)
      (bufGet buf (serviceOffset + bufGet buf serviceOffset + 1))
      (serviceOffset + bufGet buf serviceOffset + 1 + 1) 0 0 = some (cn, rd, e) :=
    scanLoop_mono buf ext buf.length (buf.length + ext.length) le_rfl (by omega)
      _ _ _ _ _ hsl
  by_cases hq1 : buf.length < e + 1
  · simp [readArg1Str, scanAndSkipHeaders, findHeaderStartOffset, truthyOff,
      freshFrame, Cache.empty, h1, hX0, h3, hsl, hq1] at h
  have ge : bufGet (buf ++ ext) e = bufGet buf e := bufGet_ext buf ext _ (by omega)
  have h2 : ¬(buf.length + ext.length < serviceOffset + 1) := by omega
  have h4 : ¬(buf.length + ext.length < serviceOffset + bufGet buf serviceOffset + 1 + 1) := by
    omega
  have hq1N : ¬(buf.length + ext.length < e + 1) := by omega
  by_cases hct : bufGet buf e = 0
  · by_cases hq2 : buf.length < e + 1 + 2
    · simp [readArg1Str, scanAndSkipHeaders, findHeaderStartOffset, truthyOff,
        freshFrame, Cache.empty, offsetWidth, h1, hX0, h3, hsl, hq1, hct, hq2] at h
    have ga : bufGet16 (buf ++ ext) (e + 1) = bufGet16 buf (e + 1) :=
      bufGet16_ext buf ext _ (by omega)
    by_cases hq3 : buf.length < e + 1 + 2 + bufGet16 buf (e + 1)
    · simp [readArg1Str, scanAndSkipHeaders, findHeaderStartOffset, truthyOff,
        freshFrame, Cache.empty, offsetWidth, h1, hX0, h3, hsl, hq1, hct, hq2, hq3] at h
    have gs : fastBufferToString (buf ++ ext) (e + 1 + 2) (e + 1 + 2 + bufGet16 buf (e + 1)) =
        fastBufferToString buf (e + 1 + 2) (e + 1 + 2 + bufGet16 buf (e + 1)) :=
      fastBufferToString_ext buf ext _ _ (by omega)
    have hq2N : ¬(buf.length + ext.length < e + 1 + 2) := by omega
    have hq3N : ¬(buf.length + ext.length < e + 1 + 2 + bufGet16 buf (e + 1)) := by omega
    simp [readArg1Str, scanAndSkipHeaders, findHeaderStartOffset, truthyOff,
      freshFrame, Cache.empty, offsetWidth, h1, h2, hX0, h3, h4, hsl, hsl2, hq1, hq1N,
      hct, hq2, hq2N, hq3, hq3N, g0, gN, ge, ga, gs, List.length_append] at h ⊢
    exact h
  · by_cases hq2 : buf.length < e + 1 + 4 + 2
    · simp [readArg1Str, scanAndSkipHeaders, findHeaderStartOffset, truthyOff,
        freshFrame, Cache.empty, offsetWidth, h1, hX0, h3, hsl, hq1, hct, hq2] at h
    have ga : bufGet16 (buf ++ ext) (e + 1 + 4) = bufGet16 buf (e + 1 + 4) :=
      bufGet16_ext buf ext _ (by omega)
    by_cases hq3 : buf.length < e + 1 + 4 + 2 + bufGet16 buf (e + 1 + 4)
    · simp [readArg1Str, scanAndSkipHeaders, findHeaderStartOffset, truthyOff,
        freshFrame, Cache.empty, offsetWidth, h1, hX0, h3, hsl, hq1, hct, hq2, hq3] at h
    have gs : fastBufferToString (buf ++ ext) (e + 1 + 4 + 2)
        (e + 1 + 4 + 2 + bufGet16 buf (e + 1 + 4)) =
        fastBufferToString buf (e + 1 + 4 + 2) (e + 1 + 4 + 2 + bufGet16 buf (e + 1 + 4)) :=
      fastBufferToString_ext buf ext _ _ (by omega)
    have hq2N : ¬(buf.length + ext.length < e + 1 + 4 + 2) := by omega
    have hq3N : ¬(buf.length + ext.length < e + 1 + 4 + 2 + bufGet16 buf (e + 1 + 4)) := by
      omega
    simp [readArg1Str, scanAndSkipHeaders, findHeaderStartOffset, truthyOff,
      freshFrame, Cache.empty, offsetWidth, h1, h2, hX0, h3, h4, hsl, hsl2, hq1, hq1N,
      hct, hq2, hq2N, hq3, hq3N, g0, gN, ge, ga, gs, List.length_append] at h ⊢
    exact h

/-- A failed scanAndSkipHeaders commits none of the scan offsets: the
cn/rd value offsets and the checksum start offset are assigned together
only after the whole loop has succeeded. -/
theorem scanFail_noCommit (f f' : Frame) (h : scanAndSkipHeaders f = (false, f')) :
    f'.cache.cnValueOffset = f.cache.cnValueOffset ∧
    f'.cache.rdValueOffset = f.cache.rdValueOffset ∧
    f'.cache.csumStartOffset = f.cache.csumStartOffset := by
  unfold scanAndSkipHeaders at h
  rcases hfind : findHeaderStartOffset f with ⟨o, f1⟩
  rw [hfind] at h
  have hf1 := findHeaderStartOffset_frame f
  rw [hfind] at hf1
  obtain ⟨hsz, hbuf, hcn, hrd, hcs⟩ := hf1
  dsimp only at h
  by_cases h0 : o = 0
  · rw [if_pos h0] at h
    injection h with ha hb
    rw [← hb]
    exact ⟨hcn, hrd, hcs⟩
  rw [if_neg h0] at h
  by_cases h2 : f1.size < o + 1
  · rw [if_pos h2] at h
    injection h with ha hb
    rw [← hb]
    exact ⟨hcn, hrd, hcs⟩
  rw [if_neg h2] at h
  rcases hsl : scanLoop f1.buffer f1.size (bufGet f1.buffer o) (o + 1) 0 0 with _ | r
  · rw [hsl] at h
    injection h with ha hb
    rw [← hb]
    exact ⟨hcn, hrd, hcs⟩
  · obtain ⟨cn, rd, e⟩ := r
    rw [hsl] at h
    injection h with ha hb
    exact absurd ha (by simp)

set_option maxHeartbeats 1000000 in
/-- On a fresh frame, a readArg1Str call that returns the sentinel
always records lastError: every failure path of the accessor assigns an
error string. -/
theorem readArg1Str_lastError (buf : List Nat)
    (h : (readArg1Str (freshFrame buf)).1 = none) :
    (readArg1Str (freshFrame buf)).2.cache.lastError ≠ none := by
  unfold readArg1Str at h ⊢
  rw [show (freshFrame buf).cache.arg1Str = none from rfl] at h ⊢
  rw [if_pos (show truthyOff (freshFrame buf).cache.csumStartOffset = false from rfl)] at h ⊢
  rcases hscan : scanAndSkipHeaders (freshFrame buf) with ⟨success, f1⟩
  try simp only [hscan] at h
  try simp only [hscan]
  split_ifs at h ⊢ <;> simp at h ⊢

/-- The first 77 bytes of the sample request frame: a strict prefix that
still contains tracing, service, headers, checksum and arg1. -/
def c3pre : List Nat := (List.replicate 16 0 ++ reqBytesOf sampleReq).take 77

/-- The remaining bytes of the sample request frame. -/
def c3ext : List Nat := (List.replicate 16 0 ++ reqBytesOf sampleReq).drop 77

/-- C3 (amended): truncation safety of the lazy accessors on a received
frame.  (1) A non-sentinel result on a frame over a buffer prefix is
computed solely from bytes of that prefix: extending the buffer yields
the same value, for each of the six accessors.  (2) A failed
scanAndSkipHeaders commits none of the scan offsets (cn/rd value
offsets, checksum start).  (3) readArg1Str records lastError whenever
it returns the sentinel.  The original claim's universal "records
lastError" fails for the other accessors (see the counterexample): only
readArg1Str has error recording. -/
theorem c3_truncation_safety :
    (∀ buf ext : List Nat,
      ((readTTL (freshFrame buf)).1 ≠ 0 →
        (readTTL (freshFrame (buf ++ ext))).1 = (readTTL (freshFrame buf)).1) ∧
      (∀ t, (readTracingValue (freshFrame buf)).1 = some t →
        (readTracingValue (freshFrame (buf ++ ext))).1 = some t) ∧
      (∀ s, (readServiceStr (freshFrame buf)).1 = some s →
        (readServiceStr (freshFrame (buf ++ ext))).1 = some s) ∧
      (∀ s, (readCallerNameStr (freshFrame buf)).1 = some s →
        (readCallerNameStr (freshFrame (buf ++ ext))).1 = some s) ∧
      (∀ s, (readRoutingDelegateStr (freshFrame buf)).1 = some s →
        (readRoutingDelegateStr (freshFrame (buf ++ ext))).1 = some s) ∧
      (∀ s, (readArg1Str (freshFrame buf)).1 = some s →
        (readArg1Str (freshFrame (buf ++ ext))).1 = some s)) ∧
    (∀ f f' : Frame, scanAndSkipHeaders f = (false, f') →
      f'.cache.cnValueOffset = f.cache.cnValueOffset ∧
      f'.cache.rdValueOffset = f.cache.rdValueOffset ∧
      f'.cache.csumStartOffset = f.cache.csumStartOffset) ∧
    (∀ buf : List Nat, (readArg1Str (freshFrame buf)).1 = none →
      (readArg1Str (freshFrame buf)).2.cache.lastError ≠ none) := by
  refine ⟨fun buf ext => ⟨readTTL_ext buf ext, fun t => readTracingValue_ext buf ext t,
    fun s => readServiceStr_ext buf ext s, fun s => readCallerNameStr_ext buf ext s,
    fun s => readRoutingDelegateStr_ext buf ext s, fun s => readArg1Str_ext buf ext s⟩,
    fun f f' => scanFail_noCommit f f', fun buf => readArg1Str_lastError buf⟩

/-- Witness for C3: on the 77-byte strict prefix of the sample frame all
six accessors produce values, and extending by the frame's remaining
bytes leaves every value unchanged; the scan-failure and lastError
clauses are exercised on a 20-byte truncated frame. -/
theorem c3_truncation_safety_witness :
    c3ext ≠ [] ∧
    (readTTL (freshFrame (c3pre ++ c3ext))).1 = 2500 ∧
    (readTracingValue (freshFrame (c3pre ++ c3ext))).1 = some ⟨1, 2, 3, 4, 5, 6, 1⟩ ∧
    (readServiceStr (freshFrame (c3pre ++ c3ext))).1 = some [115, 118, 99] ∧
    (readCallerNameStr (freshFrame (c3pre ++ c3ext))).1 = some [97] ∧
    (readRoutingDelegateStr (freshFrame (c3pre ++ c3ext))).1 = some [100, 101, 108] ∧
    (readArg1Str (freshFrame (c3pre ++ c3ext))).1 = some [104, 105] ∧
    ((freshFrame (List.replicate 20 0)).cache.cnValueOffset = none ∧
      (freshFrame (List.replicate 20 0)).cache.rdValueOffset = none ∧
      (freshFrame (List.replicate 20 0)).cache.csumStartOffset = none) ∧
    (scanAndSkipHeaders (freshFrame (List.replicate 20 0))).2.cache.cnValueOffset = none ∧
    (readArg1Str (freshFrame (List.replicate 20 0))).2.cache.lastError ≠ none :=
  ⟨by decide,
   by rw [(c3_truncation_safety.1 c3pre c3ext).1 (by decide)]; decide,
   (c3_truncation_safety.1 c3pre c3ext).2.1 ⟨1, 2, 3, 4, 5, 6, 1⟩ (by decide),
   (c3_truncation_safety.1 c3pre c3ext).2.2.1 [115, 118, 99] (by decide),
   (c3_truncation_safety.1 c3pre c3ext).2.2.2.1 [97] (by decide),
   (c3_truncation_safety.1 c3pre c3ext).2.2.2.2.1 [100, 101, 108] (by decide),
   (c3_truncation_safety.1 c3pre c3ext).2.2.2.2.2 [104, 105] (by decide),
   ⟨by decide, by decide, by decide⟩,
   by rw [(c3_truncation_safety.2.1 (freshFrame (List.replicate 20 0))
     (scanAndSkipHeaders (freshFrame (List.replicate 20 0))).2 (by decide)).1]; decide,
   c3_truncation_safety.2.2 (List.replicate 20 0) (by decide)⟩

/-- Counterexample to C3 as stated: on an 18-byte strict prefix of the
valid sample frame, readTTL returns the sentinel 0 and readServiceStr
returns the sentinel none, yet neither records lastError - the cache's
lastError slot stays none. -/
theorem c3_counterexample :
    (List.replicate 16 0 ++ reqBytesOf sampleReq).take 18 ++
      (List.replicate 16 0 ++ reqBytesOf sampleReq).drop 18 =
      List.replicate 16 0 ++ reqBytesOf sampleReq ∧
    (readTTL (freshFrame ((List.replicate 16 0 ++ reqBytesOf sampleReq).take 18))).1 = 0 ∧
    (readTTL (freshFrame
      ((List.replicate 16 0 ++ reqBytesOf sampleReq).take 18))).2.cache.lastError = none ∧
    (readServiceStr (freshFrame
      ((List.replicate 16 0 ++ reqBytesOf sampleReq).take 18))).1 = none ∧
    (readServiceStr (freshFrame
      ((List.replicate 16 0 ++ reqBytesOf sampleReq).take 18))).2.cache.lastError = none :=
  ⟨List.take_append_drop 18 _, by decide, by decide, by decide, by decide⟩
